import Mathlib

/-!
# SpartanEngine: world, engine flags, events, settings, thread pool, resources, GameObject

A shallow embedding of `Runtime/World/World.cpp`, `Runtime/Core/Engine.h`,
`Runtime/Core/EventSystem.h`, `Runtime/Core/Settings.cpp`, `Runtime/Threading/Threading.cpp`,
`Runtime/Resource/ResourceCache.cpp`, the drag and drop of
`Editor/Widgets/Widget_World.cpp`, and `Directus3D/Core/GameObject.cpp`. `Entity`,
`Transform`, `FileStream`, `FileSystem`, `IResource`, `Serializer` and the header of
`GameObject` are used by these files but their sources are not part of the repository
snapshot; what is needed of them is either a parameter or a definition marked
`Modelled from the spec`.

Conventions of the embedding

* `uint32_t` values are natural numbers; where a cast to `uint32_t` happens in the
  source the model reduces modulo `2^32`.
* `float delta_time` is only ever passed through, so it is carried as the natural
  number holding its bit pattern.
* `std::shared_ptr<Entity>` arguments that may be null are `Option Entity`.
* Calls that leave `World` (entity methods, `FIRE_EVENT`) are appended to the ghost
  log `World.calls`; what the called code does back to the `World` is given by an
  environment `Env`.
* The pointer graph below an entity (transform children) is unfolded into a tree, so the
  transform hierarchy of the model is acyclic by construction.
* A `FileStream` is the list of the values written to it; the file system is a record of
  functions.
* The wait loop of `World::LoadFromFile` is run against a schedule that says, for each
  sleep, which `World::Tick` calls the simulation thread makes meanwhile and what the
  renderer answers next (a sequentially consistent interleaving at the granularity of
  one loop iteration).
* The thread pool is run as an interleaving of worker passes: the section of
  `Threading::Invoke` under the mutex is one atomic pass, `task->Execute()` another.
* For the hierarchy widget the transform hierarchy is a graph of parent links over entity
  identifiers, in which a cycle can be written down.
* A loop that may not end (`EventSystem::Unsubscribe`) is run with fuel, and is shown not
  to end by showing that no amount of fuel gives a result.
* A null pointer is `none` of an `Option`; a function that dereferences one returns none.
* A `const shared_ptr<Entity>&` parameter is modelled twice: bound to a shared pointer of
  the caller (the entity it designates is fixed) and bound to a slot of `m_entities`
  (it designates what the vector holds at that position when it is read).
* A text file is the list of its lines; `std::stof` and the numeric casts are parameters.
-/

namespace Spartan

/-! ## Engine flags (Engine.h) -/

/-- Flag `Engine_Physics = 1UL << 0`. -/
def Engine_Physics : Nat := 1 <<< 0

/-- Flag `Engine_Game = 1UL << 1`. -/
def Engine_Game : Nat := 1 <<< 1

/-- The part of `class Engine` that `World` reads: `uint32_t m_flags`. -/
structure Engine where
  m_flags : Nat
  deriving DecidableEq, Repr

/-- Source `bool EngineMode_IsSet(flag) const`: returns `m_flags & flag` as a bool. -/
def Engine.EngineMode_IsSet (e : Engine) (flag : Nat) : Bool :=
  (e.m_flags &&& flag) != 0

/-- The complement `~flag` of an unsigned 32-bit value. -/
def complement32 (flag : Nat) : Nat := 2 ^ 32 - 1 - flag % 2 ^ 32

/-- Source `void EngineMode_Enable(flag)`: `m_flags |= flag`. -/
def Engine.EngineMode_Enable (e : Engine) (flag : Nat) : Engine :=
  ⟨e.m_flags ||| flag⟩

/-- Source `void EngineMode_Disable(flag)`: `m_flags &= ~flag`. -/
def Engine.EngineMode_Disable (e : Engine) (flag : Nat) : Engine :=
  ⟨e.m_flags &&& complement32 flag⟩

/-- Source `void EngineMode_Toggle(flag)`:
`m_flags = !EngineMode_IsSet(flag) ? m_flags | flag : m_flags & ~flag`. -/
def Engine.EngineMode_Toggle (e : Engine) (flag : Nat) : Engine :=
  ⟨if !e.EngineMode_IsSet flag then e.m_flags ||| flag else e.m_flags &&& complement32 flag⟩

/-! ## Events (EventSystem.h) -/

/-- The enumeration `Event_Type`. -/
inductive Event_Type where
  | Event_Frame_End
  | Event_World_Save
  | Event_World_Saved
  | Event_World_Load
  | Event_World_Loaded
  | Event_World_Unload
  | Event_World_Resolve_Pending
  | Event_World_Resolve_Complete
  | Event_World_Stop
  | Event_World_Start
  deriving DecidableEq, Repr

open Event_Type

/-! ## Entities -/

/-- One owned component of an entity: its type tag, its instance id and its own
serialized state (opaque words). -/
structure Component where
  m_type : Nat
  m_id : Nat
  m_data : List Nat
  deriving DecidableEq, Repr

/-- An entity together with what is reachable from it through
`GetTransform_PtrRaw()->GetChildren()`: the pointer graph below an entity is unfolded
into a tree. `m_parent` is the id of the entity owning the parent transform
(`none` when `IsRoot()`). -/
inductive Entity where
  | mk (m_id : Nat) (m_name : String) (m_is_active : Bool) (m_hierarchy_visibility : Bool)
       (m_components : List Component) (m_parent : Option Nat) (m_children : List Entity)
  deriving Repr

namespace Entity

mutual
/-- Equality of entity trees is decidable. -/
def decEq : (x y : Entity) → Decidable (x = y)
  | mk i n a v c p cs, mk i2 n2 a2 v2 c2 p2 cs2 =>
    if h1 : i = i2 ∧ n = n2 ∧ a = a2 ∧ v = v2 ∧ c = c2 ∧ p = p2 then
      match decEqList cs cs2 with
      | isTrue h => isTrue (by
          obtain ⟨r1, r2, r3, r4, r5, r6⟩ := h1
          subst r1 r2 r3 r4 r5 r6 h
          rfl)
      | isFalse h => isFalse (by
          intro hh
          injection hh with _ _ _ _ _ _ h7
          exact h h7)
    else isFalse (by
      intro hh
      injection hh with r1 r2 r3 r4 r5 r6 _
      exact h1 ⟨r1, r2, r3, r4, r5, r6⟩)
/-- Equality of lists of entity trees is decidable. -/
def decEqList : (xs ys : List Entity) → Decidable (xs = ys)
  | [], [] => isTrue rfl
  | [], _ :: _ => isFalse (by intro h; cases h)
  | _ :: _, [] => isFalse (by intro h; cases h)
  | x :: xs, y :: ys =>
    match decEq x y, decEqList xs ys with
    | isTrue h1, isTrue h2 => isTrue (by rw [h1, h2])
    | isFalse h1, _ => isFalse (by intro h; injection h with a b; exact h1 a)
    | _, isFalse h2 => isFalse (by intro h; injection h with a b; exact h2 b)
end

instance : DecidableEq Entity := decEq

/-- Method `Entity::GetId()`. -/
def GetId : Entity → Nat
  | mk i _ _ _ _ _ _ => i

/-- Method `Entity::GetName()`. -/
def GetName : Entity → String
  | mk _ n _ _ _ _ _ => n

/-- Method `Entity::IsActive()`. -/
def IsActive : Entity → Bool
  | mk _ _ a _ _ _ _ => a

/-- Method `Entity::IsVisibleInHierarchy()`. -/
def IsVisibleInHierarchy : Entity → Bool
  | mk _ _ _ v _ _ _ => v

/-- The components owned by the entity. -/
def GetComponents : Entity → List Component
  | mk _ _ _ _ c _ _ => c

/-- Accessor `GetTransform_PtrRaw()->GetParent()`, as the id of the parent entity. -/
def GetParent : Entity → Option Nat
  | mk _ _ _ _ _ p _ => p

/-- Accessor `GetTransform_PtrRaw()->IsRoot()`: the transform has no parent. -/
def IsRoot (e : Entity) : Bool := e.GetParent.isNone

/-- Accessor `GetTransform_PtrRaw()->GetChildren()`, each child taken through
`GetEntity_PtrShared()`. -/
def GetChildren : Entity → List Entity
  | mk _ _ _ _ _ _ cs => cs

/-- Method `Entity::SetId(id)`. -/
def SetId : Entity → Nat → Entity
  | mk _ n a v c p cs, i => mk i n a v c p cs

/-- Method `Entity::SetActive(active)`. -/
def SetActive : Entity → Bool → Entity
  | mk i n _ v c p cs, a => mk i n a v c p cs

end Entity

/-- Type `Spartan::Variant`, restricted to the payloads `World` sends: the default `0`
of `Fire(event_id, data = 0)` and the entity vector. -/
inductive Variant where
  | int (v : Int)
  | entities (v : List Entity)
  deriving DecidableEq, Repr

/-- A call that leaves `World`. -/
inductive Call where
  | Entity_Start (e : Entity)
  | Entity_Stop (e : Entity)
  | Entity_Tick (e : Entity) (delta_time : Nat)
  | Fire (event_id : Event_Type) (data : Variant)
  deriving DecidableEq, Repr

namespace Call

/-- The call is `entity->Start()`. -/
def isStart : Call → Bool
  | Entity_Start _ => true
  | _ => false

/-- The call is `entity->Stop()`. -/
def isStop : Call → Bool
  | Entity_Stop _ => true
  | _ => false

/-- The call is `entity->Tick(delta_time)`. -/
def isTick : Call → Bool
  | Entity_Tick _ _ => true
  | _ => false

/-- The call is a `FIRE_EVENT` / `FIRE_EVENT_DATA`. -/
def isFire : Call → Bool
  | Fire _ _ => true
  | _ => false

/-- The call fires the given event. -/
def isFireOf (ev : Event_Type) : Call → Bool
  | Fire e _ => decide (e = ev)
  | _ => false

end Call

/-- The code `World` calls into (entity methods and the subscribers of the events it
fires) is not part of `World.cpp`. What it can do back to the `World` while the call
runs is fire events synchronously; `fires log` lists the events fired during the last
call of `log`, given every call made so far. -/
structure Env where
  fires : List Call → List Event_Type

/-! ## World (World.cpp) -/

/-- The values of `m_state`. -/
inductive World_State where
  | Idle
  | Ticking
  | Request_Loading
  | Loading
  deriving DecidableEq, Repr

open World_State

/-- The members of `class World` used by `World.cpp`, and the ghost call log. -/
structure World where
  m_name : String
  m_state : World_State
  m_entities : List Entity
  m_is_dirty : Bool
  m_wasInEditorMode : Bool
  calls : List Call
  deriving DecidableEq

namespace World

/-- The three subscriptions made in the constructor (World.cpp:51-53). -/
def OnEvent (w : World) : Event_Type → World
  | Event_World_Resolve_Pending => { w with m_is_dirty := true }
  | Event_World_Stop => { w with m_state := Idle }
  | Event_World_Start => { w with m_state := Ticking }
  | _ => w

/-- Perform a call that leaves `World`: log it, then run the handlers of the events
the called code fired. -/
def invoke (env : Env) (c : Call) (w : World) : World :=
  (env.fires (w.calls ++ [c])).foldl OnEvent { w with calls := w.calls ++ [c] }

/-- A range-for over `m_entities` calling one entity method per element. -/
def forEntities (env : Env) (f : Entity → Call) (w : World) : World :=
  w.m_entities.foldl (fun acc e => acc.invoke env (f e)) w

/-- The block `// Tick entities` of `World::Tick` (World.cpp:86-116). -/
def TickEntities (env : Env) (engine : Engine) (delta_time : Nat) (w : World) : World :=
  let started := engine.EngineMode_IsSet Engine_Game && w.m_wasInEditorMode
  let stopped := !engine.EngineMode_IsSet Engine_Game && !w.m_wasInEditorMode
  let w1 := { w with m_wasInEditorMode := !engine.EngineMode_IsSet Engine_Game }
  let w2 := if started then w1.forEntities env Call.Entity_Start else w1
  let w3 := if stopped then w2.forEntities env Call.Entity_Stop else w2
  w3.forEntities env (fun e => Call.Entity_Tick e delta_time)

/-- Method `void World::Tick(float delta_time)` (World.cpp:73-126). -/
def Tick (env : Env) (engine : Engine) (delta_time : Nat) (w : World) : World :=
  if w.m_state = Request_Loading then
    { w with m_state := Loading }
  else if w.m_state ≠ Ticking then
    w
  else
    let w1 := w.TickEntities env engine delta_time
    if w1.m_is_dirty then
      let w2 := w1.invoke env (Call.Fire Event_World_Resolve_Complete (Variant.entities w1.m_entities))
      { w2 with m_is_dirty := false }
    else
      w1

/-- A run of consecutive `World::Tick` calls, one per element: the engine flags read
by that call and its `delta_time`. -/
def TickAll (env : Env) : List (Engine × Nat) → World → World
  | [], w => w
  | t :: rest, w => TickAll env rest (w.Tick env t.1 t.2)

/-- The calls made by `World::Tick` alone: the calls logged after those of `w`. -/
def TickCalls (env : Env) (engine : Engine) (delta_time : Nat) (w : World) : List Call :=
  (w.Tick env engine delta_time).calls.drop w.calls.length

/-- The game-mode flag read by tick number `k` (counted from 0) of a run. -/
def gameFlagAt (ticks : List (Engine × Nat)) (k : Nat) : Bool :=
  match ticks[k]? with
  | some t => t.1.EngineMode_IsSet Engine_Game
  | none => false

/-- The game mode in force before tick number `i` of a run started at `w`: the flag of
the tick before it, or for the first tick what `m_wasInEditorMode` recorded. -/
def previousGame (w : World) (ticks : List (Engine × Nat)) : Nat → Bool
  | 0 => !w.m_wasInEditorMode
  | k + 1 => gameFlagAt ticks k

/-- The entity calls the block `// Tick entities` is expected to make, in order. -/
def entityCalls (engine : Engine) (delta_time : Nat) (w : World) : List Call :=
  (if engine.EngineMode_IsSet Engine_Game && w.m_wasInEditorMode
    then w.m_entities.map Call.Entity_Start else []) ++
  (if !engine.EngineMode_IsSet Engine_Game && !w.m_wasInEditorMode
    then w.m_entities.map Call.Entity_Stop else []) ++
  w.m_entities.map (fun e => Call.Entity_Tick e delta_time)

end World

/-! ## Entity trees -/

namespace Entity

/-- Modelled from the spec: the `Entity` constructor (Entity.cpp is not under src). A new
entity has the identifier generated for it, is active and visible in the hierarchy, and
owns a transform that has no parent and no children. The default name is not given by the
spec; the transform is carried by the parent and children fields, not by the component
list. -/
def new (generated_id : Nat) : Entity :=
  mk generated_id "Entity" true true [] none []

mutual
/-- The transitive descendants of an entity through the transform children, children
first (the order in which `World::EntityRemove` erases them). -/
def descendants : Entity → List Entity
  | mk _ _ _ _ _ _ cs => descendantsList cs
/-- The entities of a child list, each preceded by its own descendants. -/
def descendantsList : List Entity → List Entity
  | [] => []
  | c :: cs => (descendants c ++ [c]) ++ descendantsList cs
end

/-- The entity after its transitive descendants. -/
def subtree (e : Entity) : List Entity := e.descendants ++ [e]

mutual
/-- Replace the child list of every node with identifier `pid` by `cs`, in the tree
below an entity. -/
def setChildrenOf (pid : Nat) (cs : List Entity) : Entity → Entity
  | mk i n a v c p ch =>
    if i = pid then mk i n a v c p cs else mk i n a v c p (setChildrenOfList pid cs ch)
/-- The same replacement in every entity of a child list. -/
def setChildrenOfList (pid : Nat) (cs : List Entity) : List Entity → List Entity
  | [] => []
  | e :: es => setChildrenOf pid cs e :: setChildrenOfList pid cs es
end

end Entity

namespace World

/-! ## World: entity operations (World.cpp:128-137, 256-354) -/

/-- Method `void World::Unload()`. -/
def Unload (env : Env) (w : World) : World :=
  let w1 := w.invoke env (Call.Fire Event_World_Unload (Variant.int 0))
  { w1 with m_entities := [], m_is_dirty := true }

/-- Method `World::EntityCreate(bool is_active = true)`; `generated_id` is the identifier
the `Entity` constructor generates. The returned reference is the last element of the
collection. -/
def EntityCreate (generated_id : Nat) (is_active : Bool) (w : World) : World :=
  { w with m_entities := w.m_entities ++ [(Entity.new generated_id).SetActive is_active] }

/-- Apply an entity method through the reference returned by `EntityCreate`, that is to
the last element of the collection. -/
def updateBack (f : Entity → Entity) (w : World) : World :=
  match w.m_entities.getLast? with
  | none => w
  | some e => { w with m_entities := w.m_entities.dropLast ++ [f e] }

/-- Method `World::EntityAdd(const shared_ptr<Entity>& entity)`: a null handle is not
added. -/
def EntityAdd (entity : Option Entity) (w : World) : World :=
  match entity with
  | none => w
  | some e => { w with m_entities := w.m_entities ++ [e] }

/-- Method `World::EntityGetById(id)`: the first entity with that identifier, or the empty
handle. -/
def EntityGetById (id : Nat) (w : World) : Option Entity :=
  w.m_entities.find? (fun e => e.GetId == id)

/-- Method `World::EntityGetByName(name)`. -/
def EntityGetByName (name : String) (w : World) : Option Entity :=
  w.m_entities.find? (fun e => e.GetName == name)

/-- Method `World::EntityExists(entity)`. -/
def EntityExists (entity : Option Entity) (w : World) : Bool :=
  match entity with
  | none => false
  | some e => (w.EntityGetById e.GetId).isSome

/-- Method `World::EntityGetRoots()`. -/
def EntityGetRoots (w : World) : List Entity :=
  w.m_entities.filter (fun e => e.IsRoot)

/-- Modelled from the spec: `Transform::AcquireChildren()` (Transform.cpp is not under
src), which makes the transform "rebuild its cached child list from the transform graph".
The children of the transform owned by entity `pid` become the entities of the collection
whose parent is `pid`; every copy of that entity in the unfolded trees is updated. -/
def AcquireChildren (pid : Nat) (w : World) : World :=
  let acquired := w.m_entities.filter (fun e => e.GetParent == some pid)
  { w with m_entities := w.m_entities.map (Entity.setChildrenOf pid acquired) }

/-- The erase loop of `World::EntityRemove` (World.cpp:298-307): the first entity whose
identifier equals `id` is erased, then the loop breaks. -/
def eraseById (id : Nat) (w : World) : World :=
  { w with m_entities := w.m_entities.eraseP (fun temp => temp.GetId == id) }

mutual
/-- The body of `World::EntityRemove` for a non-null entity (World.cpp:287-315). -/
def EntityRemove_entity : Entity → World → World
  | Entity.mk i _ _ _ _ p cs, w =>
    let w1 := EntityRemove_children cs w
    let w2 := w1.eraseById i
    let w3 := match p with
      | some pid => w2.AcquireChildren pid
      | none => w2
    { w3 with m_is_dirty := true }
/-- The loop over the copied child list of `World::EntityRemove` (World.cpp:288-292). -/
def EntityRemove_children : List Entity → World → World
  | [], w => w
  | c :: cs, w => EntityRemove_children cs (EntityRemove_entity c w)
end

/-- Method `void World::EntityRemove(const shared_ptr<Entity>& entity)` called with a
handle that is not stored in `m_entities`: a null handle, or a shared pointer of the
caller, as in `ActionEntityDelete(g_selected_entity.lock())` (Widget_World.cpp:470) and in
the recursive calls `EntityRemove(child->GetEntity_PtrShared())`. What `entity` designates
then stays the same during the call. The call with a reference to a slot of `m_entities`
is `EntityRemove_ref`. -/
def EntityRemove (entity : Option Entity) (w : World) : World :=
  match entity with
  | none => w
  | some e => EntityRemove_entity e w

/-- Method `World::EntityGetById(id)` as the reference it returns (World.cpp:344-355): the
position of the slot of `m_entities` that the reference is bound to, none for the
reference to the static empty handle. -/
def EntityGetById_ref (id : Nat) (w : World) : Option Nat :=
  w.m_entities.findIdx? (fun entity => entity.GetId == id)

/-- Method `void World::EntityRemove(const shared_ptr<Entity>& entity)` (World.cpp:282-316)
called with a reference to the slot `slot` of `m_entities`, as in
`EntityRemove(EntityGetById(id))`. The parameter is a reference, so every use of `entity`
reads what the vector holds at that position at that moment: the child list is read
before the descendants are erased (World.cpp:288), the parent and the identifier after
(World.cpp:295, 301), when an erasure in front of the slot has moved the next entity into
it. The recursive calls receive shared pointers of their own. The result is none when the
slot is read while it lies past the end of the vector, where no entity is left to
dereference. -/
def EntityRemove_ref (slot : Nat) (w : World) : Option World :=
  match w.m_entities[slot]? with
  | none => none
  | some entity =>
    let w1 := EntityRemove_children entity.GetChildren w
    match w1.m_entities[slot]? with
    | none => none
    | some moved =>
      let w2 := w1.eraseById moved.GetId
      let w3 := match moved.GetParent with
        | some pid => w2.AcquireChildren pid
        | none => w2
      some { w3 with m_is_dirty := true }

/-- The identifiers of the collection, in order. -/
def ids (w : World) : List Nat := w.m_entities.map Entity.GetId

/-- No two entities of the collection share an identifier. -/
def UniqueIds (w : World) : Prop := w.ids.Nodup

instance (w : World) : Decidable w.UniqueIds := inferInstanceAs (Decidable w.ids.Nodup)

/-- A world with no entity. -/
def empty : World := ⟨"", Idle, [], false, false, []⟩

end World

/-! ## Files -/

/-- One value of a `FileStream`: what one `Write` call appends and one `Read` call
consumes. A component writes its own state as one opaque value. -/
inductive Item where
  | uint32 (v : Nat)
  | int32 (v : Int)
  | string (v : String)
  | bool (v : Bool)
  | data (v : List Nat)
  deriving DecidableEq, Repr

namespace FileStream

/-- Read with `ReadAs<uint32_t>()`; a missing or different value reads as 0. -/
def ReadAs_uint32 : List Item → Nat × List Item
  | Item.uint32 v :: rest => (v, rest)
  | _ :: rest => (0, rest)
  | [] => (0, [])

/-- Read an `int`; a missing or different value reads as 0. -/
def ReadAs_int32 : List Item → Int × List Item
  | Item.int32 v :: rest => (v, rest)
  | _ :: rest => (0, rest)
  | [] => (0, [])

/-- Read a string; a missing or different value reads as the empty string. -/
def ReadAs_string : List Item → String × List Item
  | Item.string v :: rest => (v, rest)
  | _ :: rest => ("", rest)
  | [] => ("", [])

/-- Read a bool; a missing or different value reads as false. -/
def ReadAs_bool : List Item → Bool × List Item
  | Item.bool v :: rest => (v, rest)
  | _ :: rest => (false, rest)
  | [] => (false, [])

/-- Read the state of one component; a missing or different value reads as empty. -/
def ReadAs_data : List Item → List Nat × List Item
  | Item.data v :: rest => (v, rest)
  | _ :: rest => ([], rest)
  | [] => ([], [])

/-- Read `count` values one after the other with the same reader. -/
def readMany {α : Type} (read : List Item → α × List Item) : Nat → List Item → List α × List Item
  | 0, file => ([], file)
  | count + 1, file =>
    let r := read file
    let rs := readMany read count r.2
    (r.1 :: rs.1, rs.2)

end FileStream

/-- The file system calls of `World.cpp`, none of which is under src: `FileSystem::`
`FileExists`, `GetExtensionFromFilePath`, `GetFileNameNoExtensionFromFilePath`, and the
opening of a `FileStream` for reading (the content when `IsOpen()`, else none) and for
writing (`IsOpen()`). -/
structure FileSystem where
  FileExists : String → Bool
  GetExtensionFromFilePath : String → String
  GetFileNameNoExtensionFromFilePath : String → String
  open_read : String → Option (List Item)
  open_write : String → Bool

/-- The file system after a `FileStream` opened for writing at `path` received
`content`. -/
def FileSystem.store (fs : FileSystem) (path : String) (content : List Item) : FileSystem :=
  { fs with
    FileExists := fun p => if p = path then true else fs.FileExists p
    open_read := fun p => if p = path then some content else fs.open_read p }

/-- The macro `EXTENSION_WORLD` (its definition is not under src; the value is the one of
the scenario of the spec, which saves "scn" and loads "scn.world"). -/
def EXTENSION_WORLD : String := ".world"

namespace Entity

/-- The two values written per component before the payloads: type tag and instance id. -/
def componentHeader (c : Component) : List Item := [Item.uint32 c.m_type, Item.uint32 c.m_id]

mutual
/-- Modelled from the spec: `Entity::Serialize` (Entity.cpp is not under src). "Writing an
Entity emits (id, name, active flag, visibility flag), then the count and (type-tag,
component-id) pairs for every owned component, then each component's own serialized
payload, then the list of child entities (recursively, depth-first)". Identifiers are
`uint32_t` in World.cpp and are written as such; the spec gives no framing for the child
list, which is written as its length followed by the children. -/
def Serialize : Entity → List Item
  | mk i n a v c _ cs =>
    [Item.uint32 i, Item.string n, Item.bool a, Item.bool v, Item.int32 c.length] ++
    c.flatMap componentHeader ++ c.map (fun k => Item.data k.m_data) ++
    [Item.uint32 cs.length] ++ SerializeList cs
/-- The payloads of a child list, one after the other. -/
def SerializeList : List Entity → List Item
  | [] => []
  | e :: es => Serialize e ++ SerializeList es
end

/-- Pass 1 of deserialization for one component: read its type tag and instance id and
construct it. -/
def readComponentHeader (file : List Item) : Component × List Item :=
  let t := FileStream.ReadAs_uint32 file
  let i := FileStream.ReadAs_uint32 t.2
  (⟨t.1, i.1, []⟩, i.2)

/-- Pass 2 of deserialization: each constructed component reads its own payload. -/
def readComponentPayloads : List Component → List Item → List Component × List Item
  | [], file => ([], file)
  | c :: cs, file =>
    let d := FileStream.ReadAs_data file
    let rs := readComponentPayloads cs d.2
    ({ c with m_data := d.1 } :: rs.1, rs.2)

/-- Modelled from the spec: `Entity::Deserialize(file, parent)` (Entity.cpp is not under
src). "Reading reverses this exactly: basic fields first, then construct all components
from their type tags (pass 1) before asking any component to deserialize its own payload
(pass 2)", then the children, each deserialized with this entity as parent. `fuel` bounds
the nesting depth. -/
def DeserializeAux : Nat → Option Nat → List Item → Entity × List Item
  | 0, parent, file => (mk 0 "" false false [] parent [], file)
  | fuel + 1, parent, file =>
    let i := FileStream.ReadAs_uint32 file
    let n := FileStream.ReadAs_string i.2
    let a := FileStream.ReadAs_bool n.2
    let v := FileStream.ReadAs_bool a.2
    let count := FileStream.ReadAs_int32 v.2
    let constructed := FileStream.readMany readComponentHeader count.1.toNat count.2
    let comps := readComponentPayloads constructed.1 constructed.2
    let k := FileStream.ReadAs_uint32 comps.2
    let children := FileStream.readMany (DeserializeAux fuel (some i.1)) k.1 k.2
    (mk i.1 n.1 a.1 v.1 comps.1 parent children.1, children.2)

/-- Deserialize one entity; the nesting depth cannot exceed the number of values left in
the file. -/
def Deserialize (parent : Option Nat) (file : List Item) : Entity × List Item :=
  DeserializeAux (file.length + 1) parent file

mutual
/-- The entities created in the `World` while an entity is deserialized: its children,
then what each child creates in turn. -/
def created : Entity → List Entity
  | mk _ _ _ _ _ _ cs => cs ++ createdList cs
/-- What the entities of a child list create, one after the other. -/
def createdList : List Entity → List Entity
  | [] => []
  | c :: cs => created c ++ createdList cs
end

mutual
/-- The number of entities of a tree. -/
def size : Entity → Nat
  | mk _ _ _ _ _ _ cs => 1 + sizeList cs
/-- The number of entities of the trees of a list. -/
def sizeList : List Entity → Nat
  | [] => 0
  | c :: cs => size c + sizeList cs
end

mutual
/-- Below this entity the cached child lists agree with the parent links: every child
names the entity that lists it as its parent. -/
def parentsOk : Entity → Bool
  | mk i _ _ _ _ _ cs => parentsOkList i cs
/-- Every entity of a child list names `pid` as its parent and is itself consistent. -/
def parentsOkList (pid : Nat) : List Entity → Bool
  | [] => true
  | c :: cs => (c.GetParent == some pid) && parentsOk c && parentsOkList pid cs
end

end Entity

/-- What the other threads do during one `sleep_for(16ms)` of the wait loop of
`World::LoadFromFile`: the `World::Tick` calls of the simulation thread (engine flags and
delta time of each), and the answer `Renderer::IsRendering()` gives when the loop
condition is evaluated next. -/
structure Sleep where
  ticks : List (Engine × Nat)
  is_rendering : Bool

namespace World

/-! ## World: save and load (World.cpp:139-254) -/

/-- The path `World::SaveToFile` writes to (World.cpp:147-152): the scene file extension
is added if it is missing. -/
def SaveToFile_path (fs : FileSystem) (filePathIn : String) : String :=
  if fs.GetExtensionFromFilePath filePathIn != EXTENSION_WORLD
  then filePathIn ++ EXTENSION_WORLD else filePathIn

/-- Method `bool World::SaveToFile(const string& filePathIn)`; returns the result, the
world and the file system afterwards. The progress report, the timer and the log are
left out. -/
def SaveToFile (env : Env) (fs : FileSystem) (filePathIn : String) (w : World) :
    Bool × World × FileSystem :=
  let file_path := SaveToFile_path fs filePathIn
  let w1 := { w with m_name := fs.GetFileNameNoExtensionFromFilePath file_path }
  let w2 := w1.invoke env (Call.Fire Event_World_Save (Variant.int 0))
  if !fs.open_write file_path then
    (false, w2, fs)
  else
    let root_actors := w2.EntityGetRoots
    let root_entity_count := root_actors.length % 2 ^ 32
    let file := [Item.uint32 root_entity_count] ++
      root_actors.map (fun root => Item.uint32 root.GetId) ++
      root_actors.flatMap Entity.Serialize
    let w3 := w2.invoke env (Call.Fire Event_World_Saved (Variant.int 0))
    (true, w3, fs.store file_path file)

/-- The wait loop of `World::LoadFromFile` (World.cpp:207): while the state is not
`Loading` or the renderer is rendering, set `Request_Loading` and sleep. `is_rendering`
is the renderer's answer at this evaluation of the condition; each further iteration
takes one element of the schedule. When the schedule runs out with the condition still
true the loop is still spinning and there is no result. -/
def LoadFromFile_wait (env : Env) : Bool → List Sleep → World → Option World
  | is_rendering, sched, w =>
    if w.m_state ≠ Loading || is_rendering then
      match sched with
      | [] => none
      | s :: rest =>
        LoadFromFile_wait env s.is_rendering rest
          (TickAll env s.ticks { w with m_state := Request_Loading })
    else
      some w

/-- The loop `// Load root entity IDs` of `World::LoadFromFile` (World.cpp:234-238);
`generated i` is the identifier the `Entity` constructor gives the entity number `i`. -/
def LoadFromFile_ids (generated : Nat → Nat) : Nat → Nat → List Item → World → World × List Item
  | 0, _, file, w => (w, file)
  | remaining + 1, i, file, w =>
    let w1 := w.EntityCreate (generated i) true
    let id := FileStream.ReadAs_uint32 file
    LoadFromFile_ids generated remaining (i + 1) id.2 (w1.updateBack (fun e => e.SetId id.1))

/-- The loop `// Serialize root entities` of `World::LoadFromFile` (World.cpp:241-245):
`m_entities[i]` deserializes itself with no parent; the entities it creates join the
collection at the back. -/
def LoadFromFile_roots : Nat → Nat → List Item → World → World × List Item
  | 0, _, file, w => (w, file)
  | remaining + 1, i, file, w =>
    let r := Entity.Deserialize none file
    LoadFromFile_roots remaining (i + 1) r.2
      { w with m_entities := w.m_entities.set i r.1 ++ r.1.created }

/-- The part of `World::LoadFromFile` after the wait loop (World.cpp:209-253). The
progress report, the timer and the log are left out. -/
def LoadFromFile_load (env : Env) (fs : FileSystem) (generated : Nat → Nat)
    (file_path : String) (w : World) : Bool × World :=
  let w1 := w.Unload env
  match fs.open_read file_path with
  | none => (false, w1)
  | some file =>
    let w2 := { w1 with m_name := fs.GetFileNameNoExtensionFromFilePath file_path }
    let w3 := w2.invoke env (Call.Fire Event_World_Load (Variant.int 0))
    let root_entity_count := FileStream.ReadAs_uint32 file
    let ids := LoadFromFile_ids generated root_entity_count.1 0 root_entity_count.2 w3
    let roots := LoadFromFile_roots root_entity_count.1 0 ids.2 ids.1
    let w4 := { roots.1 with m_is_dirty := true, m_state := Ticking }
    (true, w4.invoke env (Call.Fire Event_World_Loaded (Variant.int 0)))

/-- Method `bool World::LoadFromFile(const string& file_path)`. The result is none when
the wait loop does not end within the schedule. -/
def LoadFromFile (env : Env) (fs : FileSystem) (generated : Nat → Nat) (is_rendering : Bool)
    (sched : List Sleep) (file_path : String) (w : World) : Option (Bool × World) :=
  if !fs.FileExists file_path then
    some (false, w)
  else
    match w.LoadFromFile_wait env is_rendering sched with
    | none => none
    | some w1 => some (w1.LoadFromFile_load env fs generated file_path)

/-- The collection consists of the root entities and of the entities below them in the
transform hierarchy, each once, and below every root the child lists agree with the
parent links. -/
def Consistent (w : World) : Prop :=
  w.m_entities.Perm (w.EntityGetRoots ++ w.EntityGetRoots.flatMap Entity.created) ∧
  ∀ r ∈ w.EntityGetRoots, r.parentsOk = true

instance (w : World) : Decidable w.Consistent :=
  inferInstanceAs (Decidable (_ ∧ _))

end World

/-! ## Sample data -/

/-- An environment in which the called code fires nothing back. -/
def Env.quiet : Env := ⟨fun _ => []⟩

/-- An environment in which a subscriber of `Event_World_Loaded` fires `Event_World_Stop`
back, and no other called code fires anything. -/
def Env.stopper : Env :=
  ⟨fun log =>
    match log.getLast? with
    | some (Call.Fire Event_World_Loaded _) => [Event_World_Stop]
    | _ => []⟩

/-- An environment in which every called entity or subscriber fires
`Event_World_Resolve_Pending` back. -/
def Env.noisy : Env := ⟨fun _ => [Event_World_Resolve_Pending]⟩

/-- A childless root entity with the given id and name. -/
def Entity.sample (id : Nat) (name : String) : Entity :=
  Entity.mk id name true true [] none []

/-- A world holding the two root entities 1 and 2. -/
def World.sample (state : World_State) (dirty editor : Bool) : World :=
  ⟨"scene", state, [Entity.sample 1 "A", Entity.sample 2 "B"], dirty, editor, []⟩

/-- Grandchild C (id 3) of the sample hierarchy. -/
def Entity.sampleC : Entity := Entity.mk 3 "C" true false [⟨7, 31, [5, 6]⟩] (some 2) []

/-- Child B (id 2) of A, parent of C. -/
def Entity.sampleB : Entity := Entity.mk 2 "B" false true [] (some 1) [Entity.sampleC]

/-- Root A (id 1), parent of B. -/
def Entity.sampleA : Entity := Entity.mk 1 "A" true true [⟨1, 11, [9]⟩] none [Entity.sampleB]

/-- Root D (id 4), childless. -/
def Entity.sampleD : Entity := Entity.mk 4 "D" true true [] none []

/-- A world holding the hierarchy A > B > C and the root D. -/
def World.family : World :=
  ⟨"scene", Ticking, [Entity.sampleA, Entity.sampleB, Entity.sampleC, Entity.sampleD],
    false, false, []⟩

/-- A world in which the child B (id 2) of A (id 1) is stored before A, followed by the
root D (id 4): what `EntityCreate` twice and a re-parenting of the first entity under the
second leave, before D is created. -/
def World.childFirst : World :=
  ⟨"scene", Ticking,
    [Entity.mk 2 "B" true true [] (some 1) [],
      Entity.mk 1 "A" true true [] none [Entity.mk 2 "B" true true [] (some 1) []],
      Entity.sampleD],
    false, false, []⟩

/-- The sample hierarchy A > B > C with root D, stored deepest first: C, B, A, D. -/
def World.deepFirst : World :=
  ⟨"scene", Ticking, [Entity.sampleC, Entity.sampleB, Entity.sampleA, Entity.sampleD],
    false, false, []⟩

/-- A file system with no file, where any path can be opened for writing. -/
def FileSystem.blank : FileSystem :=
  { FileExists := fun _ => false
    GetExtensionFromFilePath := fun p => if p = "scn.world" then ".world" else ""
    GetFileNameNoExtensionFromFilePath := fun _ => "scn"
    open_read := fun _ => none
    open_write := fun _ => true }

/-- A file system in which "locked.world" exists but cannot be opened for reading. -/
def FileSystem.locked : FileSystem :=
  { FileSystem.blank with FileExists := fun p => p = "locked.world" }

/-- A schedule in which the simulation thread ticks once during the first sleep and the
renderer is idle afterwards. -/
def Sleep.sample : List Sleep := [⟨[(⟨2⟩, 16)], false⟩]

/-- The file system after the sample hierarchy has been saved to "scn". -/
def FileSystem.saved : FileSystem :=
  (World.family.SaveToFile Env.quiet FileSystem.blank "scn").2.2

/-- The sample hierarchy as it is after being loaded back: roots first. -/
def World.reloaded : World :=
  ⟨"scn", Ticking, [Entity.sampleA, Entity.sampleD, Entity.sampleB, Entity.sampleC],
    true, false,
    [Call.Fire Event_World_Unload (Variant.int 0), Call.Fire Event_World_Load (Variant.int 0),
      Call.Fire Event_World_Loaded (Variant.int 0)]⟩

/-- A file system in which no path can be opened for writing. -/
def FileSystem.readonly : FileSystem :=
  { FileSystem.blank with open_write := fun _ => false }

/-! ## World: the operations as data -/

/-- One call of a public operation of `World`, with its arguments. -/
inductive Operation where
  | Tick (engine : Engine) (delta_time : Nat)
  | EntityCreate (generated_id : Nat) (is_active : Bool)
  | EntityAdd (entity : Option Entity)
  | EntityRemove (entity : Option Entity)
  | Unload
  | SaveToFile (fs : FileSystem) (filePathIn : String)
  | LoadFromFile (fs : FileSystem) (generated : Nat → Nat) (is_rendering : Bool)
      (sched : List Sleep) (file_path : String)

/-- The world after one operation; none when `LoadFromFile` is still waiting at the end
of its schedule. -/
def World.perform (env : Env) : Operation → World → Option World
  | Operation.Tick engine delta_time, w => some (w.Tick env engine delta_time)
  | Operation.EntityCreate generated_id is_active, w =>
    some (w.EntityCreate generated_id is_active)
  | Operation.EntityAdd entity, w => some (w.EntityAdd entity)
  | Operation.EntityRemove entity, w => some (w.EntityRemove entity)
  | Operation.Unload, w => some (w.Unload env)
  | Operation.SaveToFile fs filePathIn, w => some (w.SaveToFile env fs filePathIn).2.1
  | Operation.LoadFromFile fs generated is_rendering sched file_path, w =>
    (w.LoadFromFile env fs generated is_rendering sched file_path).map (fun r => r.2)

/-! ## Threading (Threading.cpp) -/

namespace Threading

/-- Where one worker thread stands in `Threading::Invoke`: at the top of the loop (about
to lock and wait), holding a task it has dequeued and not yet executed (the lock is
released), or returned. -/
inductive Worker where
  | waiting
  | executing (task : Nat)
  | returned
  deriving DecidableEq, Repr

/-- The members of `class Threading` shared by the threads: the task queue (front first),
the stopping flag and the worker threads; `executed` is the ghost log of the
`task->Execute()` calls. A task is named by a number. -/
structure Pool where
  m_tasks : List Nat
  m_stopping : Bool
  m_threads : List Worker
  executed : List Nat
  deriving DecidableEq, Repr

/-- The value of `m_thread_count` (Threading.cpp:36-37): `hardware_concurrency() - 1` in
unsigned 32-bit arithmetic. -/
def thread_count (hardware_concurrency : Nat) : Nat :=
  (hardware_concurrency % 2 ^ 32 + 2 ^ 32 - 1) % 2 ^ 32

/-- The constructor `Threading::Threading` (Threading.cpp:33-44): one thread per value of
the loop counter below `m_thread_count`. -/
def create (hardware_concurrency : Nat) : Pool :=
  ⟨[], false, List.replicate (thread_count hardware_concurrency) Worker.waiting, []⟩

/-- One pass of a worker through the next section of `Threading::Invoke`
(Threading.cpp:73-96), run without interleaving: from the top of the loop, the section
under the lock (wait, test for shutdown, `front`, `pop`); when holding a task,
`task->Execute()`. A worker whose wait predicate is false stays where it is. The result
is the shared state and the new position of the worker. -/
def Invoke (p : Pool) : Worker → Pool × Worker
  | Worker.waiting =>
    if !(!p.m_tasks.isEmpty || p.m_stopping) then
      (p, Worker.waiting)
    else if p.m_stopping && p.m_tasks.isEmpty then
      (p, Worker.returned)
    else
      match p.m_tasks with
      | task :: rest => ({ p with m_tasks := rest }, Worker.executing task)
      | [] => (p, Worker.waiting)
  | Worker.executing task => ({ p with executed := p.executed ++ [task] }, Worker.waiting)
  | Worker.returned => (p, Worker.returned)

/-- Worker number `i` makes its next pass. -/
def step (i : Nat) (p : Pool) : Pool :=
  match p.m_threads[i]? with
  | none => p
  | some w =>
    let r := Invoke p w
    { r.1 with m_threads := r.1.m_threads.set i r.2 }

/-- The part of the destructor `Threading::~Threading` before the joins
(Threading.cpp:48-58): the stopping flag is set under the lock and all threads are
woken. -/
def stop (p : Pool) : Pool := { p with m_stopping := true }

/-- What happens next in an execution: a worker makes a pass, or the destructor sets the
stopping flag. -/
inductive Action where
  | worker (i : Nat)
  | destructor
  deriving DecidableEq, Repr

/-- One action. -/
def act (p : Pool) : Action → Pool
  | Action.worker i => step i p
  | Action.destructor => stop p

/-- An execution: the actions in the order in which they take the lock. -/
def run (sched : List Action) (p : Pool) : Pool := sched.foldl act p

/-- The destructor has joined every thread: all workers have returned. -/
def joined (p : Pool) : Prop := ∀ w ∈ p.m_threads, w = Worker.returned

instance (p : Pool) : Decidable (joined p) :=
  inferInstanceAs (Decidable (∀ w ∈ p.m_threads, w = Worker.returned))

/-- The task a worker holds: dequeued and not yet executed. -/
def held : Worker → List Nat
  | Worker.executing t => [t]
  | _ => []

/-- The tasks held by the workers. -/
def inflight (ws : List Worker) : List Nat := ws.flatMap held

/-- A pool of `n` workers at the top of their loop with the given tasks queued, before
shutdown. -/
def queued (tasks : List Nat) (n : Nat) : Pool :=
  ⟨tasks, false, List.replicate n Worker.waiting, []⟩

/-- What stays true along every execution that starts with `tasks` queued: every task is
in exactly one place (executed, held by a worker, or still queued), and a worker has
returned only if the queue is empty and the stopping flag set. -/
def Accounted (tasks : List Nat) (p : Pool) : Prop :=
  (∀ a, p.executed.count a + (inflight p.m_threads).count a + p.m_tasks.count a =
    tasks.count a) ∧
  (Worker.returned ∈ p.m_threads → p.m_tasks = [] ∧ p.m_stopping = true)

end Threading

/-! ## EventSystem (EventSystem.h) -/

/-- The member `m_subscribers` of `class EventSystem`: a map from event id to the vector
of subscribed handlers; none is an absent key. A handler is named by a number. -/
structure EventSystem where
  m_subscribers : Event_Type → Option (List Nat)

namespace EventSystem

/-- The instance before any subscription. -/
def empty : EventSystem := ⟨fun _ => none⟩

/-- Method `Subscribe(event_id, function)`: `m_subscribers[event_id].push_back(function)`. -/
def Subscribe (event_id : Event_Type) (function : Nat) (es : EventSystem) : EventSystem :=
  ⟨fun e => if e = event_id then some ((es.m_subscribers e).getD [] ++ [function])
    else es.m_subscribers e⟩

/-- Method `Fire(event_id, data)`: the handler calls made before it returns, in order, each
with the payload it receives. -/
def Fire (event_id : Event_Type) (data : Variant) (es : EventSystem) : List (Nat × Variant) :=
  match es.m_subscribers event_id with
  | none => []
  | some subscribers => subscribers.map (fun subscriber => (subscriber, data))

/-- A history of `Subscribe` calls, oldest first. -/
def SubscribeAll (history : List (Event_Type × Nat)) (es : EventSystem) : EventSystem :=
  history.foldl (fun acc s => acc.Subscribe s.1 s.2) es

end EventSystem

/-! ## ResourceCache (ResourceCache.cpp) -/

/-- What `ResourceCache.cpp` reads of an `IResource` (IResource.h is not under src): its
name, its file path (`HasFilePath()` is modelled as a non-empty path), its type tag and
its memory usage. -/
structure IResource where
  m_resource_name : String
  m_resource_file_path : String
  m_resource_type : Nat
  m_memory_usage : Nat
  deriving DecidableEq, Repr

/-- The member `m_resource_groups` of `class ResourceCache`: one bucket of resources per
resource type (an absent key and an empty bucket behave alike). The handles in a bucket
are not null. -/
structure ResourceCache where
  m_resource_groups : Nat → List IResource

namespace ResourceCache

/-- Method `bool ResourceCache::IsCached(resource_name, resource_type)`
(ResourceCache.cpp:78-93). -/
def IsCached (resource_name : String) (resource_type : Nat) (rc : ResourceCache) : Bool :=
  if resource_name = "" then
    false
  else
    (rc.m_resource_groups resource_type).any (fun resource => resource_name = resource.m_resource_name)

/-- Method `ResourceCache::GetByName(name, type)` (ResourceCache.cpp:95-104); none is
`m_empty_resource`. -/
def GetByName (name : String) (type : Nat) (rc : ResourceCache) : Option IResource :=
  (rc.m_resource_groups type).find? (fun resource => name = resource.m_resource_name)

/-- A cache whose bucket 1 holds a resource without a name and a texture. -/
def sample : ResourceCache :=
  ⟨fun t => if t = 1 then [⟨"", "", 1, 8⟩, ⟨"wood", "wood.png", 1, 64⟩] else []⟩

end ResourceCache

/-- An execution of two workers on three tasks: both take a task and execute it, the
destructor sets the stopping flag, worker 0 drains the last task while worker 1 returns,
then worker 0 returns. -/
def Threading.sampleRun : List Threading.Action :=
  [.worker 0, .worker 1, .worker 1, .worker 0, .destructor, .worker 0, .worker 1, .worker 0,
    .worker 0]

/-! ## Transform hierarchy as a graph (Widget_World.cpp:99-109, 250-272) -/

/-- The transform hierarchy as the hierarchy widget sees it, by entity identifier: the
identifiers of the entities of the world, and for each entity the entity owning the parent
of its transform (none for a root). Unlike the unfolded trees, this graph can hold a
cycle. The child lists are the mirror image of the parent links. -/
structure Hierarchy where
  m_entities : List Nat
  m_parent : Nat → Option Nat

namespace Hierarchy

/-- The ancestor `k` parent links above `n`, or none when the walk ended at a root
before. -/
def up (g : Hierarchy) : Nat → Nat → Option Nat
  | 0, n => some n
  | k + 1, n =>
    match g.m_parent n with
    | none => none
    | some p => up g k p

/-- Walking up from `a` for at most `fuel` parent links meets `b`. -/
def isDescendantOfWithin (g : Hierarchy) : Nat → Nat → Nat → Bool
  | 0, _, _ => false
  | fuel + 1, a, b =>
    match g.m_parent a with
    | none => false
    | some p => p == b || isDescendantOfWithin g fuel p b

/-- Modelled from the spec: `Transform::IsDescendantOf` (Transform.cpp is not under src):
the transform of `a` is below the transform of `b` in the hierarchy. The walk is bounded
by the number of entities. -/
def IsDescendantOf (g : Hierarchy) (a b : Nat) : Bool :=
  g.isDescendantOfWithin g.m_entities.length a b

/-- The hierarchy in which the parent link of `child` has been replaced. -/
def setParentOf (g : Hierarchy) (child : Nat) (parent : Option Nat) : Hierarchy :=
  { g with m_parent := fun n => if n = child then parent else g.m_parent n }

/-- Modelled from the spec: `Transform::SetParent` (Transform.cpp is not under src).
"Attempting to parent a transform to one of its own descendants must be rejected at the
mutation call, leaving the graph unchanged"; a null parent makes the transform a root;
otherwise the parent link of the transform is replaced. -/
def SetParent (g : Hierarchy) (child : Nat) (new_parent : Option Nat) : Hierarchy :=
  match new_parent with
  | none => g.setParentOf child none
  | some p =>
    if p = child || g.IsDescendantOf p child then g else g.setParentOf child (some p)

/-- Method `World::EntityGetById(id)` on the identifiers. -/
def EntityGetById (g : Hierarchy) (id : Nat) : Option Nat :=
  g.m_entities.find? (fun e => e == id)

/-- The drop part of `Widget_World::EntityHandleDragDrop(entity_ptr)`
(Widget_World.cpp:261-271); `payload` is the identifier carried by the received drag
payload, none when no payload is received. -/
def EntityHandleDragDrop (entity_ptr : Nat) (payload : Option Nat) (g : Hierarchy) :
    Hierarchy :=
  match payload with
  | none => g
  | some entity_id =>
    match g.EntityGetById entity_id with
    | none => g
    | some dropped_entity =>
      if dropped_entity ≠ entity_ptr then g.SetParent dropped_entity (some entity_ptr) else g

/-- The drop on the scene root in `Widget_World::TreeShow` (Widget_World.cpp:101-109): the
dropped entity is unparented. -/
def TreeShow_drop (payload : Option Nat) (g : Hierarchy) : Hierarchy :=
  match payload with
  | none => g
  | some entity_id =>
    match g.EntityGetById entity_id with
    | none => g
    | some dropped_entity => g.SetParent dropped_entity none

/-- A re-parent operation issued through the hierarchy widget. -/
inductive Drop where
  | onEntity (entity_ptr : Nat) (payload : Option Nat)
  | onRoot (payload : Option Nat)
  deriving DecidableEq, Repr

/-- The hierarchy after one drop. -/
def drop (g : Hierarchy) : Drop → Hierarchy
  | Drop.onEntity entity_ptr payload => g.EntityHandleDragDrop entity_ptr payload
  | Drop.onRoot payload => g.TreeShow_drop payload

/-- The hierarchy after a sequence of drops. -/
def dropAll (g : Hierarchy) (drops : List Drop) : Hierarchy := drops.foldl drop g

/-- The graph is acyclic: every walk up the parent links ends at a root. -/
def Acyclic (g : Hierarchy) : Prop := ∀ n, ∃ k, g.up k n = none

/-- Only entities of the world have a parent. -/
def Owned (g : Hierarchy) : Prop := ∀ n p, g.m_parent n = some p → n ∈ g.m_entities

/-- The hierarchy given by a table of entities with their parents. -/
def ofList (table : List (Nat × Option Nat)) : Hierarchy :=
  ⟨table.map Prod.fst, fun n => (table.lookup n).join⟩

/-- The hierarchy A (1) > B (2) > C (3), with the second root D (4). -/
def sample : Hierarchy := ofList [(1, none), (2, some 1), (3, some 2), (4, none)]

end Hierarchy

/-! ## GameObject (Directus3D/Core/GameObject.cpp) -/

/-- What `GameObject.cpp` uses of an `IComponent` (IComponent.h is not under src): the
instance identifier `g_ID`, and the state that the component's own `Serialize` writes and
its own `Deserialize` reads (opaque words). -/
structure IComponent where
  g_ID : String
  m_state : List Nat
  deriving DecidableEq, Repr

/-- The members of `class GameObject` that `GameObject.cpp` reads and writes. The member
`m_components` maps a type tag to the component owned under it and is held in the order
of its keys; `m_children` stands for `m_transform->GetChildrenAsGameObjects()`, each child
given by its identifier. -/
structure GameObject where
  m_ID : String
  m_name : String
  m_isActive : Bool
  m_hierarchyVisibility : Bool
  m_components : List (String × IComponent)
  m_children : List String
  deriving DecidableEq, Repr

/-- The calls of `GameObject.cpp` into `Serializer` and `FileSystem` whose code is not
under src: `FileSystem::IsSupportedPrefabFile`, `Serializer::StartReading` (the content
of the file when it opens, else none), and the writer and reader of a vector of
GameObjects (what is written for a child list; the children read back and the rest of
the stream). -/
structure Serializer where
  IsSupportedPrefabFile : String → Bool
  StartReading : String → Option (List Item)
  WriteVectorGameObject : List String → List Item
  ReadVectorGameObject : List Item → List String × List Item

namespace Serializer

/-- Call `Serializer::ReadSTR()`. -/
def ReadSTR (file : List Item) : String × List Item := FileStream.ReadAs_string file

/-- Call `Serializer::ReadBool()`. -/
def ReadBool (file : List Item) : Bool × List Item := FileStream.ReadAs_bool file

/-- Call `Serializer::ReadInt()`. -/
def ReadInt (file : List Item) : Int × List Item := FileStream.ReadAs_int32 file

end Serializer

/-- The cast `(int)m_components.size()`: the value modulo `2^32`, read as a signed 32-bit
integer. -/
def toInt32 (n : Nat) : Int := ((n : Int) + 2 ^ 31) % 2 ^ 32 - 2 ^ 31

namespace GameObject

/-- The component classes named in `GameObject::AddComponentBasedOnType`
(GameObject.cpp:220-260), in the order of its `if` statements. -/
def componentTypes : List String :=
  ["Transform", "MeshFilter", "MeshRenderer", "Light", "Camera", "Skybox", "RigidBody",
    "Collider", "MeshCollider", "Hinge", "Script", "LineRenderer", "AudioSource",
    "AudioListener"]

/-- Insertion of a new key into `m_components`, which is ordered by the characters of its
keys. -/
def insertComponent (typeStr : String) (component : IComponent) :
    List (String × IComponent) → List (String × IComponent)
  | [] => [(typeStr, component)]
  | it :: rest =>
    if typeStr.data < it.1.data then (typeStr, component) :: it :: rest
    else it :: insertComponent typeStr component rest

/-- Modelled from the spec: `GameObject::AddComponent<T>()` (GameObject.h is not under
src), which "constructs T, inserts under T's type tag, returns a non-owning handle", with
"at most one component instance per type tag — attempting to add a second of the same
type either replaces or is rejected". Here the second addition is rejected and the handle
is the one of the component already owned. `typeStr` is the type tag of `T`, `guid` the
identifier generated for the new component, which has no state of its own yet. The handle
returned is the component found under `typeStr` afterwards. -/
def AddComponent (typeStr guid : String) (g : GameObject) : GameObject :=
  if g.m_components.any (fun it => it.1 = typeStr) then g
  else { g with m_components := insertComponent typeStr ⟨guid, []⟩ g.m_components }

/-- Constructor `GameObject::GameObject()` (GameObject.cpp:48-59); `guid` and
`guid_transform` are the identifiers `GENERATE_GUID` gives the object and its transform. -/
def new (guid guid_transform : String) : GameObject :=
  AddComponent "Transform" guid_transform ⟨guid, "GameObject", true, true, [], []⟩

/-- Method `GameObject::AddComponentBasedOnType(typeStr)` (GameObject.cpp:216-263): the
handle starts null, and each `if` whose name equals `typeStr` adds a component of that
class and keeps its handle. A handle is the type tag under which the component is owned;
none is `nullptr`. -/
def AddComponentBasedOnType (typeStr guid : String) (g : GameObject) :
    Option String × GameObject :=
  componentTypes.foldl
    (fun r T => if typeStr = T then (some T, r.2.AddComponent T guid) else r) (none, g)

/-- The assignment `component->g_ID = id` through a handle that is not null. -/
def setID (component id : String) (g : GameObject) : GameObject :=
  let assign := fun (it : String × IComponent) =>
    if it.1 = component then (it.1, { it.2 with g_ID := id }) else it
  { g with m_components := g.m_components.map assign }

/-- Method `void GameObject::Serialize()` (GameObject.cpp:141-165): the values written.
Each component writes its state as one value. -/
def Serialize (sz : Serializer) (g : GameObject) : List Item :=
  [Item.string g.m_ID, Item.string g.m_name, Item.bool g.m_isActive,
    Item.bool g.m_hierarchyVisibility, Item.int32 (toInt32 g.m_components.length)] ++
  g.m_components.flatMap (fun it => [Item.string it.1, Item.string it.2.g_ID]) ++
  g.m_components.map (fun it => Item.data it.2.m_state) ++
  sz.WriteVectorGameObject g.m_children

/-- The loop `// Load any components` of `GameObject::Deserialize`
(GameObject.cpp:177-184); `generated i` is the identifier `GENERATE_GUID` gives a
component constructed in iteration `i`. The result is none when `component->g_ID = id`
assigns through a null pointer. -/
def Deserialize_components (generated : Nat → String) :
    Nat → Nat → List Item → GameObject → Option (GameObject × List Item)
  | 0, _, file, g => some (g, file)
  | remaining + 1, i, file, g =>
    let type := Serializer.ReadSTR file
    let id := Serializer.ReadSTR type.2
    match AddComponentBasedOnType type.1 (generated i) g with
    | (none, _) => none
    | (some component, g1) =>
      Deserialize_components generated remaining (i + 1) id.2 (g1.setID component id.1)

/-- The loop over `m_components` in which every component deserializes itself
(GameObject.cpp:188-189). -/
def Deserialize_payloads :
    List (String × IComponent) → List Item → List (String × IComponent) × List Item
  | [], file => ([], file)
  | it :: rest, file =>
    let state := FileStream.ReadAs_data file
    let rs := Deserialize_payloads rest state.2
    ((it.1, { it.2 with m_state := state.1 }) :: rs.1, rs.2)

/-- Method `void GameObject::Deserialize()` (GameObject.cpp:167-195), with the object and
the rest of the stream afterwards; none when a null pointer is dereferenced. The children
read at the end are not attached (the call that would is commented out). -/
def Deserialize (sz : Serializer) (generated : Nat → String) (file : List Item)
    (g : GameObject) : Option (GameObject × List Item) :=
  let id := Serializer.ReadSTR file
  let name := Serializer.ReadSTR id.2
  let isActive := Serializer.ReadBool name.2
  let hierarchyVisibility := Serializer.ReadBool isActive.2
  let g1 := { g with m_ID := id.1, m_name := name.1, m_isActive := isActive.1,
                     m_hierarchyVisibility := hierarchyVisibility.1 }
  let componentCount := Serializer.ReadInt hierarchyVisibility.2
  match Deserialize_components generated componentCount.1.toNat 0 componentCount.2 g1 with
  | none => none
  | some (g2, file2) =>
    let payloads := Deserialize_payloads g2.m_components file2
    let children := sz.ReadVectorGameObject payloads.2
    some ({ g2 with m_components := payloads.1 }, children.2)

/-- Method `bool GameObject::LoadFromPrefab(filePath)` (GameObject.cpp:116-139): the
result and the object afterwards; none when a null pointer is dereferenced. The
assignment of new identifiers at the end is commented out in the source
(GameObject.cpp:132-136). -/
def LoadFromPrefab (sz : Serializer) (generated : Nat → String) (filePath : String)
    (g : GameObject) : Option (Bool × GameObject) :=
  if !sz.IsSupportedPrefabFile filePath then
    some (false, g)
  else
    match sz.StartReading filePath with
    | none => some (false, g)
    | some file =>
      match g.Deserialize sz generated file with
      | none => none
      | some r => some (true, r.1)

/-- The loop of `GameObject::RemoveComponentByID` (GameObject.cpp:199-210): the first
component whose identifier equals `id` is erased and the method returns. -/
def RemoveComponentByID_loop (id : String) :
    List (String × IComponent) → List (String × IComponent)
  | [] => []
  | it :: rest =>
    if it.2.g_ID = id then rest else it :: RemoveComponentByID_loop id rest

/-- Method `void GameObject::RemoveComponentByID(id)` (GameObject.cpp:197-213). The call
`Scene::Resolve()`, made when no component was erased, is left out. -/
def RemoveComponentByID (id : String) (g : GameObject) : GameObject :=
  { g with m_components := RemoveComponentByID_loop id g.m_components }

/-- A child list written as its length followed by the identifiers of the children. -/
def sampleChildren (children : List String) : List Item :=
  Item.int32 children.length :: children.map Item.string

/-- A GameObject with a camera, a script and a transform, and one child. -/
def sample : GameObject :=
  ⟨"g-7", "Crate", true, false,
    [("Camera", ⟨"c-1", [3, 4]⟩), ("Script", ⟨"c-2", []⟩), ("Transform", ⟨"c-3", [1, 0, 0]⟩)],
    ["g-8"]⟩

end GameObject

/-- A serializer in which "crate.prefab" holds the saved sample object and
"broken.prefab" an object whose only component has the type tag "Terrain". -/
def Serializer.sample : Serializer :=
  { IsSupportedPrefabFile := fun p => p = "crate.prefab" || p = "broken.prefab"
    WriteVectorGameObject := GameObject.sampleChildren
    ReadVectorGameObject := fun file =>
      FileStream.readMany FileStream.ReadAs_string (FileStream.ReadAs_int32 file).1.toNat
        (FileStream.ReadAs_int32 file).2
    StartReading := fun p =>
      if p = "crate.prefab" then
        some ([Item.string "g-7", Item.string "Crate", Item.bool true, Item.bool false,
          Item.int32 3, Item.string "Camera", Item.string "c-1", Item.string "Script",
          Item.string "c-2", Item.string "Transform", Item.string "c-3", Item.data [3, 4],
          Item.data [], Item.data [1, 0, 0]] ++ GameObject.sampleChildren ["g-8"])
      else if p = "broken.prefab" then
        some ([Item.string "g-9", Item.string "Lamp", Item.bool true, Item.bool true,
          Item.int32 1, Item.string "Terrain", Item.string "c-4", Item.data []] ++
          GameObject.sampleChildren [])
      else none }

/-! ## ResourceCache: all buckets (ResourceCache.cpp:106-242)

The enumeration `Resource_Type` is declared in IResource.h, which is not under src. The
value of its enumerator `Resource_Unknown` is therefore a parameter of the definitions
that name it, and the keys that the map `m_resource_groups` holds are given as the list
`keys`, in increasing order, to the definitions that iterate over the map. -/

namespace ResourceCache

/-- The resources visited by `for (const auto& resource_group : m_resource_groups)` with
an inner loop over `resource_group.second`: the buckets one after the other, in the order
of their keys. -/
def resources (keys : List Nat) (rc : ResourceCache) : List IResource :=
  keys.flatMap rc.m_resource_groups

/-- Method `ResourceCache::GetByType(type)` (ResourceCache.cpp:106-123). -/
def GetByType (Resource_Unknown : Nat) (keys : List Nat) (type : Nat) (rc : ResourceCache) :
    List IResource :=
  if type = Resource_Unknown then rc.resources keys else rc.m_resource_groups type

/-- Method `uint32_t ResourceCache::GetResourceCount(type)` (ResourceCache.cpp:239-242). -/
def GetResourceCount (Resource_Unknown : Nat) (keys : List Nat) (type : Nat)
    (rc : ResourceCache) : Nat :=
  (rc.GetByType Resource_Unknown keys type).length % 2 ^ 32

/-- The loops `size += resource->GetMemoryUsage()` in `uint32_t` arithmetic. -/
def addMemoryUsage (resources : List IResource) : Nat :=
  resources.foldl (fun size resource => (size + resource.m_memory_usage) % 2 ^ 32) 0

/-- Method `uint32_t ResourceCache::GetMemoryUsage(type)` (ResourceCache.cpp:125-151). The
condition of its `if` is `type = Resource_Unknown`, an assignment: `type` takes the value
`Resource_Unknown`, and the branch is chosen by whether that value is non-zero. -/
def GetMemoryUsage (Resource_Unknown : Nat) (keys : List Nat) (type : Nat)
    (rc : ResourceCache) : Nat :=
  let type := (fun (_ : Nat) => Resource_Unknown) type
  if type != 0 then
    addMemoryUsage (rc.resources keys)
  else
    addMemoryUsage (rc.m_resource_groups type)

/-- What C29 says `GetMemoryUsage(type)` returns: the sum, in `uint32_t` arithmetic, of the
memory-usage estimates of the resources in the bucket of `type`, and of the resources of
all buckets when `type` is `Resource_Unknown`. -/
def GetMemoryUsage_claimed (Resource_Unknown : Nat) (keys : List Nat) (type : Nat)
    (rc : ResourceCache) : Nat :=
  if type = Resource_Unknown then
    ((rc.resources keys).map IResource.m_memory_usage).sum % 2 ^ 32
  else
    ((rc.m_resource_groups type).map IResource.m_memory_usage).sum % 2 ^ 32

/-- What `SaveResourcesToFiles` writes for one resource (ResourceCache.cpp:180-186):
nothing when `HasFilePath()` is false, else the file path and the type as `uint32_t`. -/
def SaveResourcesToFiles_record (resource : IResource) : List Item :=
  if resource.m_resource_file_path = "" then []
  else [Item.string resource.m_resource_file_path,
    Item.uint32 (resource.m_resource_type % 2 ^ 32)]

/-- Method `void ResourceCache::SaveResourcesToFiles()` (ResourceCache.cpp:153-197), with
the file system afterwards; `file_path` is the path of the resource list file. The call
`GetResourceCount()` passes the default argument, which is declared in ResourceCache.h
(not under src) and is the parameter `default_type`; the comments in ResourceCache.cpp
give `Resource_Unknown` as the default of `GetByType` and `GetMemoryUsage`. The progress
report and the saving of each resource to its own file are left out. -/
def SaveResourcesToFiles (Resource_Unknown : Nat) (keys : List Nat) (default_type : Nat)
    (fs : FileSystem) (file_path : String) (rc : ResourceCache) : FileSystem :=
  if !fs.open_write file_path then
    fs
  else
    let resource_count := rc.GetResourceCount Resource_Unknown keys default_type
    fs.store file_path
      ([Item.uint32 resource_count] ++
        keys.flatMap (fun key => (rc.m_resource_groups key).flatMap SaveResourcesToFiles_record))

/-- One turn of the loop of `LoadResourcesFromFiles` (ResourceCache.cpp:212-216): the file
path and the type read. -/
def LoadResourcesFromFiles_record (file : List Item) : (String × Nat) × List Item :=
  let file_path := FileStream.ReadAs_string file
  let type := FileStream.ReadAs_uint32 file_path.2
  ((file_path.1, type.1), type.2)

/-- Method `void ResourceCache::LoadResourcesFromFiles()` (ResourceCache.cpp:199-237): the
records it reads, in order, each of which it hands to the loader of its type (the loaders
are not under src). -/
def LoadResourcesFromFiles (fs : FileSystem) (file_path : String) : List (String × Nat) :=
  match fs.open_read file_path with
  | none => []
  | some file =>
    let resource_count := FileStream.ReadAs_uint32 file
    (FileStream.readMany LoadResourcesFromFiles_record resource_count.1 resource_count.2).1

end ResourceCache

/-! ## EventSystem: unsubscribing (EventSystem.h:92-106) -/

namespace EventSystem

/-- The loop of `EventSystem::Unsubscribe` (EventSystem.h:97-105), run for at most `fuel`
evaluations of its condition `it != subscribers.end()`; `it` is the position of the
iterator. The word read from the front of a handler object stands for the handler, which
is named by a number here. The body has no `++it`: when the subscriber at `it` is not the
handler, the next turn looks at the same position. The result is none when the loop is
still running after `fuel` turns. -/
def Unsubscribe_loop (function_adress : Nat) : Nat → Nat → List Nat → Option (List Nat)
  | 0, _, _ => none
  | fuel + 1, it, subscribers =>
    match subscribers[it]? with
    | none => some subscribers
    | some subscriber_adress =>
      if subscriber_adress = function_adress then
        some (subscribers.eraseIdx it)
      else
        Unsubscribe_loop function_adress fuel it subscribers

/-- Method `Unsubscribe(event_id, function)` (EventSystem.h:92-106), where
`m_subscribers[event_id]` creates an empty vector under a key that is absent; none when
the loop does not end within `fuel` turns. -/
def Unsubscribe (fuel : Nat) (event_id : Event_Type) (function : Nat) (es : EventSystem) :
    Option EventSystem :=
  match Unsubscribe_loop function fuel 0 ((es.m_subscribers event_id).getD []) with
  | none => none
  | some subscribers =>
    some ⟨fun e => if e = event_id then some subscribers else es.m_subscribers e⟩

end EventSystem

/-! ## Entities without their cached child lists -/

/-- The members of an entity other than the cached child list of its transform. -/
structure Members where
  m_id : Nat
  m_name : String
  m_is_active : Bool
  m_hierarchy_visibility : Bool
  m_components : List Component
  m_parent : Option Nat
  deriving DecidableEq, Repr

/-- The entity without the cached child list of its transform. -/
def Entity.members : Entity → Members
  | Entity.mk i n a v c p _ => ⟨i, n, a, v, c, p⟩

/-! ## Settings (Settings.cpp:50-64, 123-143) -/

/-- The members of `class Settings` that `Settings::Load` names. A `float` is carried as
the natural number holding its bit pattern, an integer member as its value. -/
structure Settings where
  m_is_fullscreen : Bool
  m_is_mouse_visible : Bool
  m_resolution : Nat × Nat
  m_shadow_map_resolution : Nat
  m_anisotropy : Nat
  m_fps_limit : Nat
  m_max_thread_count : Nat
  deriving DecidableEq, Repr

/-- The conversions of the C++ library used by `_Settings::read_setting`: `std::stof`
(none when it throws) and the casts `static_cast<T>` of the `float` it returns, to `bool`
and to the integer type of a member. -/
structure Conversion where
  stof : String → Option Nat
  to_bool : Nat → Bool
  to_integer : Nat → Nat

namespace Settings

/-- The expression `line.substr(0, line.find_first_of('='))`: the line up to its first
`=`, the whole line when it has none. -/
def key (line : String) : String :=
  String.mk (line.data.takeWhile (fun c => c != '='))

/-- The expression `line.substr(line.find_last_of('=') + 1, line.length())`: the line
after its last `=`, the whole line when it has none. -/
def value (line : String) : String :=
  String.mk (line.data.reverse.takeWhile (fun c => c != '=')).reverse

/-- The template `_Settings::read_setting(fin, name, value)` (Settings.cpp:50-64) before
the cast: `fin` is the lines that the stream has not yet delivered. The result is none
when `stof` throws; otherwise it holds the value read, if a line with the key `name` was
met, and the lines left in the stream, which are those after that line, or no line at all
when the end of the file was reached. -/
def read_setting (stof : String → Option Nat) (name : String) :
    List String → Option (Option Nat × List String)
  | [] => some (none, [])
  | line :: fin =>
    if name = key line then
      match stof (value line) with
      | none => none
      | some read_value => some (some read_value, fin)
    else
      read_setting stof name fin

/-- The assignment `value = static_cast<T>(...)` through the reference parameter, made
only when a line was found. -/
def assign (read : Option Nat) (set : Nat → Settings → Settings) (s : Settings) : Settings :=
  match read with
  | none => s
  | some read_value => set read_value s

/-- Method `void Settings::Load()` (Settings.cpp:123-143) on the lines of the settings
file; none when `stof` throws. The stream `fin` is shared by the eight calls of
`read_setting`, each of which goes on where the one before stopped. The values of
"fResolutionWidth" and "fResolutionHeight" are read into the local variables
`resolution_x` and `resolution_y`, which are not used afterwards. -/
def Load (cv : Conversion) (fin : List String) (s : Settings) : Option Settings := do
  let r1 ← read_setting cv.stof "bFullScreen" fin
  let s1 := assign r1.1 (fun v t => { t with m_is_fullscreen := cv.to_bool v }) s
  let r2 ← read_setting cv.stof "bIsMouseVisible" r1.2
  let s2 := assign r2.1 (fun v t => { t with m_is_mouse_visible := cv.to_bool v }) s1
  let r3 ← read_setting cv.stof "fResolutionWidth" r2.2
  let r4 ← read_setting cv.stof "fResolutionHeight" r3.2
  let r5 ← read_setting cv.stof "iShadowMapResolution" r4.2
  let s5 := assign r5.1 (fun v t => { t with m_shadow_map_resolution := cv.to_integer v }) s2
  let r6 ← read_setting cv.stof "iAnisotropy" r5.2
  let s6 := assign r6.1 (fun v t => { t with m_anisotropy := cv.to_integer v }) s5
  let r7 ← read_setting cv.stof "fFPSLimit" r6.2
  let s7 := assign r7.1 (fun v t => { t with m_fps_limit := v }) s6
  let r8 ← read_setting cv.stof "iMaxThreadCount" r7.2
  let s8 := assign r8.1 (fun v t => { t with m_max_thread_count := cv.to_integer v }) s7
  pure s8

/-- Settings as they are before a load: windowed, mouse hidden, 1920 x 1080. -/
def sample : Settings := ⟨false, false, (1920, 1080), 2048, 16, 60, 8⟩

/-- A settings file as `Settings::Save` writes it, with every setting changed. -/
def sampleFile : List String :=
  ["bFullScreen=1", "bIsMouseVisible=1", "fResolutionWidth=800", "fResolutionHeight=600",
    "iShadowMapResolution=4096", "iAnisotropy=8", "fFPSLimit=144", "iMaxThreadCount=4"]

end Settings

/-- A stand-in for `std::stof` and the casts that agrees with them on the decimal numerals
of whole numbers a `float` holds exactly (at most seven digits), which is all that the
sample files hold: such a numeral is read as its number, a float is carried as the number
read, and zero is false. It is not `std::stof` elsewhere: this function throws on every
other string, while `std::stof` also accepts leading blanks, a sign, a fraction, an
exponent and a numeral followed by other characters, and rounds a longer numeral. -/
def Conversion.sample : Conversion :=
  { stof := fun s =>
      if s.data ≠ [] ∧ s.data.all (fun c => decide (48 ≤ c.toNat ∧ c.toNat ≤ 57)) then
        some (s.data.foldl (fun n c => 10 * n + (c.toNat - 48)) 0)
      else none
    to_bool := fun v => v != 0
    to_integer := fun v => v }

/-! # Theorems -/

namespace World

theorem OnEvent_frame (w : World) (ev : Event_Type) :
    (w.OnEvent ev).m_entities = w.m_entities ∧ (w.OnEvent ev).calls = w.calls ∧
    (w.OnEvent ev).m_wasInEditorMode = w.m_wasInEditorMode ∧
    (w.OnEvent ev).m_name = w.m_name := by
  cases ev <;> simp [OnEvent]

theorem foldl_OnEvent_frame (evs : List Event_Type) (w : World) :
    (evs.foldl OnEvent w).m_entities = w.m_entities ∧ (evs.foldl OnEvent w).calls = w.calls ∧
    (evs.foldl OnEvent w).m_wasInEditorMode = w.m_wasInEditorMode ∧
    (evs.foldl OnEvent w).m_name = w.m_name := by
  induction evs generalizing w with
  | nil => simp
  | cons ev rest ih =>
    obtain ⟨h1, h2, h3, h4⟩ := ih (w.OnEvent ev)
    obtain ⟨g1, g2, g3, g4⟩ := OnEvent_frame w ev
    simp only [List.foldl_cons]
    exact ⟨h1.trans g1, h2.trans g2, h3.trans g3, h4.trans g4⟩

theorem invoke_entities (env : Env) (c : Call) (w : World) :
    (w.invoke env c).m_entities = w.m_entities :=
  (foldl_OnEvent_frame _ _).1

theorem invoke_calls (env : Env) (c : Call) (w : World) :
    (w.invoke env c).calls = w.calls ++ [c] :=
  (foldl_OnEvent_frame _ _).2.1

theorem invoke_wasInEditorMode (env : Env) (c : Call) (w : World) :
    (w.invoke env c).m_wasInEditorMode = w.m_wasInEditorMode :=
  (foldl_OnEvent_frame _ _).2.2.1

theorem invoke_name (env : Env) (c : Call) (w : World) :
    (w.invoke env c).m_name = w.m_name :=
  (foldl_OnEvent_frame _ _).2.2.2

theorem foldl_invoke_frame (env : Env) (f : Entity → Call) (l : List Entity) (w : World) :
    (l.foldl (fun acc e => acc.invoke env (f e)) w).m_entities = w.m_entities ∧
    (l.foldl (fun acc e => acc.invoke env (f e)) w).calls = w.calls ++ l.map f ∧
    (l.foldl (fun acc e => acc.invoke env (f e)) w).m_wasInEditorMode = w.m_wasInEditorMode ∧
    (l.foldl (fun acc e => acc.invoke env (f e)) w).m_name = w.m_name := by
  induction l generalizing w with
  | nil => simp
  | cons e rest ih =>
    obtain ⟨h1, h2, h3, h4⟩ := ih (w.invoke env (f e))
    simp only [List.foldl_cons, List.map_cons]
    refine ⟨h1.trans (invoke_entities env _ w), ?_, h3.trans (invoke_wasInEditorMode env _ w),
      h4.trans (invoke_name env _ w)⟩
    rw [h2, invoke_calls]
    simp

theorem forEntities_entities (env : Env) (f : Entity → Call) (w : World) :
    (w.forEntities env f).m_entities = w.m_entities :=
  (foldl_invoke_frame env f _ w).1

theorem forEntities_calls (env : Env) (f : Entity → Call) (w : World) :
    (w.forEntities env f).calls = w.calls ++ w.m_entities.map f :=
  (foldl_invoke_frame env f _ w).2.1

theorem forEntities_wasInEditorMode (env : Env) (f : Entity → Call) (w : World) :
    (w.forEntities env f).m_wasInEditorMode = w.m_wasInEditorMode :=
  (foldl_invoke_frame env f _ w).2.2.1

theorem forEntities_name (env : Env) (f : Entity → Call) (w : World) :
    (w.forEntities env f).m_name = w.m_name :=
  (foldl_invoke_frame env f _ w).2.2.2

theorem TickEntities_entities (env : Env) (engine : Engine) (dt : Nat) (w : World) :
    (w.TickEntities env engine dt).m_entities = w.m_entities := by
  unfold TickEntities
  simp only [forEntities_entities]
  split <;> split <;> simp [forEntities_entities]

theorem TickEntities_name (env : Env) (engine : Engine) (dt : Nat) (w : World) :
    (w.TickEntities env engine dt).m_name = w.m_name := by
  unfold TickEntities
  simp only [forEntities_name]
  split <;> split <;> simp [forEntities_name]

theorem TickEntities_wasInEditorMode (env : Env) (engine : Engine) (dt : Nat) (w : World) :
    (w.TickEntities env engine dt).m_wasInEditorMode = !engine.EngineMode_IsSet Engine_Game := by
  unfold TickEntities
  simp only [forEntities_wasInEditorMode]
  split <;> split <;> simp [forEntities_wasInEditorMode]

theorem TickEntities_calls (env : Env) (engine : Engine) (dt : Nat) (w : World) :
    (w.TickEntities env engine dt).calls = w.calls ++ w.entityCalls engine dt := by
  unfold TickEntities entityCalls
  simp only [forEntities_calls, forEntities_entities]
  split <;> split <;> simp [forEntities_calls, forEntities_entities]

theorem Tick_ticking_calls (env : Env) (engine : Engine) (dt : Nat) (w : World)
    (h : w.m_state = Ticking) :
    (w.Tick env engine dt).calls = w.calls ++ w.entityCalls engine dt ++
      (if (w.TickEntities env engine dt).m_is_dirty
        then [Call.Fire Event_World_Resolve_Complete (Variant.entities w.m_entities)] else []) := by
  unfold Tick
  simp only [h, reduceCtorEq, if_false, ne_eq, not_true_eq_false]
  split
  · simp [invoke_calls, TickEntities_calls, TickEntities_entities]
  · simp [TickEntities_calls]

theorem Tick_ticking_wasInEditorMode (env : Env) (engine : Engine) (dt : Nat) (w : World)
    (h : w.m_state = Ticking) :
    (w.Tick env engine dt).m_wasInEditorMode = !engine.EngineMode_IsSet Engine_Game := by
  unfold Tick
  simp only [h, reduceCtorEq, if_false, ne_eq, not_true_eq_false]
  split
  · simp [invoke_wasInEditorMode, TickEntities_wasInEditorMode]
  · simp [TickEntities_wasInEditorMode]

theorem Tick_entities (env : Env) (engine : Engine) (dt : Nat) (w : World) :
    (w.Tick env engine dt).m_entities = w.m_entities := by
  unfold Tick
  split
  · rfl
  · split
    · rfl
    · simp only []
      split
      · simp [invoke_entities, TickEntities_entities]
      · simp [TickEntities_entities]

theorem entityCalls_not_fire (engine : Engine) (dt : Nat) (w : World) :
    ∀ c ∈ w.entityCalls engine dt, c.isFire = false := by
  intro c hc
  unfold entityCalls at hc
  simp only [List.mem_append] at hc
  rcases hc with (hc | hc) | hc
  · split at hc
    · obtain ⟨e, _, rfl⟩ := List.mem_map.mp hc; rfl
    · simp at hc
  · split at hc
    · obtain ⟨e, _, rfl⟩ := List.mem_map.mp hc; rfl
    · simp at hc
  · obtain ⟨e, _, rfl⟩ := List.mem_map.mp hc; rfl

theorem Tick_of_not_Ticking (env : Env) (engine : Engine) (dt : Nat) (w : World)
    (h : w.m_state ≠ Ticking) :
    w.Tick env engine dt =
      { w with m_state := if w.m_state = Request_Loading then Loading else w.m_state } := by
  unfold Tick
  by_cases hr : w.m_state = Request_Loading
  · simp [hr]
  · simp [hr, h]

/-- C1: when the state is not Ticking, `World::Tick` makes no call at all (no entity
Start, Stop or Tick, no notification) and leaves every member as it was, except that
the state Request_Loading becomes Loading. -/
theorem C1_Tick_outside_Ticking (env : Env) (engine : Engine) (dt : Nat) (w : World)
    (h : w.m_state ≠ Ticking) :
    (w.Tick env engine dt).calls = w.calls ∧
    (w.Tick env engine dt).m_entities = w.m_entities ∧
    (w.Tick env engine dt).m_is_dirty = w.m_is_dirty ∧
    (w.Tick env engine dt).m_wasInEditorMode = w.m_wasInEditorMode ∧
    (w.Tick env engine dt).m_name = w.m_name ∧
    (w.Tick env engine dt).m_state =
      (if w.m_state = Request_Loading then Loading else w.m_state) := by
  rw [Tick_of_not_Ticking env engine dt w h]
  exact ⟨rfl, rfl, rfl, rfl, rfl, rfl⟩

/-- C1 at a world in state Request_Loading, dirty, with two entities, in a noisy
environment. -/
theorem C1_witness :
    (World.sample Request_Loading true false).m_state ≠ Ticking ∧
    ((World.sample Request_Loading true false).Tick Env.noisy ⟨2⟩ 16).calls = [] ∧
    ((World.sample Request_Loading true false).Tick Env.noisy ⟨2⟩ 16).m_is_dirty = true ∧
    ((World.sample Request_Loading true false).Tick Env.noisy ⟨2⟩ 16).m_state = Loading := by
  have h := C1_Tick_outside_Ticking Env.noisy ⟨2⟩ 16 (World.sample Request_Loading true false)
    (by decide)
  exact ⟨by decide, h.1, h.2.2.1, h.2.2.2.2.2⟩

/-- C2: in state Ticking, the calls of `World::Tick` are the entity calls (none of
them a notification) followed by exactly one `Event_World_Resolve_Complete` carrying
the whole entity collection when the dirty flag is set once the entity ticks have
finished, and by nothing otherwise; the dirty flag is false on return. -/
theorem C2_Tick_resolve (env : Env) (engine : Engine) (dt : Nat) (w : World)
    (h : w.m_state = Ticking) :
    ∃ pre : List Call,
      (∀ c ∈ pre, c.isFire = false) ∧
      (w.TickEntities env engine dt).calls = w.calls ++ pre ∧
      (w.Tick env engine dt).calls = w.calls ++ pre ++
        (if (w.TickEntities env engine dt).m_is_dirty
          then [Call.Fire Event_World_Resolve_Complete (Variant.entities w.m_entities)]
          else []) ∧
      (w.Tick env engine dt).m_is_dirty = false := by
  refine ⟨w.entityCalls engine dt, entityCalls_not_fire engine dt w,
    TickEntities_calls env engine dt w, Tick_ticking_calls env engine dt w h, ?_⟩
  unfold Tick
  simp only [h, reduceCtorEq, if_false, ne_eq, not_true_eq_false]
  split
  · rfl
  · rename_i hd
    simpa using hd

/-- C2 at a clean world in a noisy environment: the entity ticks set the dirty flag and
the notification is fired. -/
theorem C2_witness :
    (World.sample Ticking false true).m_state = Ticking ∧
    ∃ pre : List Call,
      (∀ c ∈ pre, c.isFire = false) ∧
      ((World.sample Ticking false true).TickEntities Env.noisy ⟨2⟩ 16).calls =
        (World.sample Ticking false true).calls ++ pre ∧
      ((World.sample Ticking false true).Tick Env.noisy ⟨2⟩ 16).calls =
        (World.sample Ticking false true).calls ++ pre ++
        (if ((World.sample Ticking false true).TickEntities Env.noisy ⟨2⟩ 16).m_is_dirty
          then [Call.Fire Event_World_Resolve_Complete
            (Variant.entities (World.sample Ticking false true).m_entities)]
          else []) ∧
      ((World.sample Ticking false true).Tick Env.noisy ⟨2⟩ 16).m_is_dirty = false :=
  ⟨rfl, C2_Tick_resolve Env.noisy ⟨2⟩ 16 (World.sample Ticking false true) rfl⟩

theorem TickCalls_ticking (env : Env) (engine : Engine) (dt : Nat) (w : World)
    (h : w.m_state = Ticking) :
    w.TickCalls env engine dt = w.entityCalls engine dt ++
      (if (w.TickEntities env engine dt).m_is_dirty
        then [Call.Fire Event_World_Resolve_Complete (Variant.entities w.m_entities)] else []) := by
  unfold TickCalls
  rw [Tick_ticking_calls env engine dt w h, List.append_assoc, List.drop_left]

theorem filter_isStart_map_Start (l : List Entity) :
    (l.map Call.Entity_Start).filter Call.isStart = l.map Call.Entity_Start := by
  induction l with
  | nil => rfl
  | cons e rest ih => simp [List.filter_cons, Call.isStart, ih]

theorem filter_isStop_map_Stop (l : List Entity) :
    (l.map Call.Entity_Stop).filter Call.isStop = l.map Call.Entity_Stop := by
  induction l with
  | nil => rfl
  | cons e rest ih => simp [List.filter_cons, Call.isStop, ih]

theorem filter_isStart_map_Stop (l : List Entity) :
    (l.map Call.Entity_Stop).filter Call.isStart = [] := by
  induction l with
  | nil => rfl
  | cons e rest ih => simp [List.filter_cons, Call.isStart, ih]

theorem filter_isStop_map_Start (l : List Entity) :
    (l.map Call.Entity_Start).filter Call.isStop = [] := by
  induction l with
  | nil => rfl
  | cons e rest ih => simp [List.filter_cons, Call.isStop, ih]

theorem filter_isStart_map_Tick (dt : Nat) (l : List Entity) :
    (l.map (fun e => Call.Entity_Tick e dt)).filter Call.isStart = [] := by
  induction l with
  | nil => rfl
  | cons e rest ih => simp [List.filter_cons, Call.isStart, ih]

theorem filter_isStop_map_Tick (dt : Nat) (l : List Entity) :
    (l.map (fun e => Call.Entity_Tick e dt)).filter Call.isStop = [] := by
  induction l with
  | nil => rfl
  | cons e rest ih => simp [List.filter_cons, Call.isStop, ih]

theorem TickCalls_filter_isStart (env : Env) (engine : Engine) (dt : Nat) (w : World)
    (h : w.m_state = Ticking) :
    (w.TickCalls env engine dt).filter Call.isStart =
      (if engine.EngineMode_IsSet Engine_Game && w.m_wasInEditorMode
        then w.m_entities.map Call.Entity_Start else []) := by
  rw [TickCalls_ticking env engine dt w h]
  unfold entityCalls
  simp only [List.filter_append, filter_isStart_map_Tick, List.append_nil]
  have hfire : (if (w.TickEntities env engine dt).m_is_dirty
        then [Call.Fire Event_World_Resolve_Complete (Variant.entities w.m_entities)]
        else []).filter Call.isStart = [] := by
    split <;> simp [Call.isStart]
  rw [hfire, List.append_nil]
  by_cases hg : engine.EngineMode_IsSet Engine_Game = true <;>
    by_cases he : w.m_wasInEditorMode = true <;>
    simp [hg, he, filter_isStart_map_Start, filter_isStart_map_Stop]

theorem TickCalls_filter_isStop (env : Env) (engine : Engine) (dt : Nat) (w : World)
    (h : w.m_state = Ticking) :
    (w.TickCalls env engine dt).filter Call.isStop =
      (if !engine.EngineMode_IsSet Engine_Game && !w.m_wasInEditorMode
        then w.m_entities.map Call.Entity_Stop else []) := by
  rw [TickCalls_ticking env engine dt w h]
  unfold entityCalls
  simp only [List.filter_append, filter_isStop_map_Tick, List.append_nil]
  have hfire : (if (w.TickEntities env engine dt).m_is_dirty
        then [Call.Fire Event_World_Resolve_Complete (Variant.entities w.m_entities)]
        else []).filter Call.isStop = [] := by
    split <;> simp [Call.isStop]
  rw [hfire, List.append_nil]
  by_cases hg : engine.EngineMode_IsSet Engine_Game = true <;>
    by_cases he : w.m_wasInEditorMode = true <;>
    simp [hg, he, filter_isStop_map_Start, filter_isStop_map_Stop]

theorem TickAll_take_succ (env : Env) (ticks : List (Engine × Nat)) (w : World) (k : Nat)
    (hk : k < ticks.length) :
    TickAll env (ticks.take (k + 1)) w =
      (TickAll env (ticks.take k) w).Tick env (ticks.get ⟨k, hk⟩).1 (ticks.get ⟨k, hk⟩).2 := by
  induction ticks generalizing w k with
  | nil => simp at hk
  | cons t rest ih =>
    cases k with
    | zero => simp [TickAll]
    | succ k =>
      simp only [List.take_succ_cons, TickAll]
      exact ih (w.Tick env t.1 t.2) k (by simpa using hk)

theorem TickAll_entities (env : Env) (ticks : List (Engine × Nat)) (w : World) :
    (TickAll env ticks w).m_entities = w.m_entities := by
  induction ticks generalizing w with
  | nil => rfl
  | cons t rest ih => simp [TickAll, ih, Tick_entities]

/-- C3: in a run of `World::Tick` calls that are all made in state Ticking, with game-mode
flags g1..gn, the Start calls of tick i are one per entity (in collection order) when gi
is set and g(i-1) was not, and none otherwise; the Stop calls of tick i are one per entity
when gi is not set and g(i-1) was, and none otherwise. For the first tick the previous
mode is the one recorded in `m_wasInEditorMode`. -/
theorem C3_Start_Stop_once_per_edge (env : Env) (ticks : List (Engine × Nat)) (w : World)
    (i : Nat) (t : Engine × Nat) (ht : ticks[i]? = some t)
    (hT : ∀ j, j ≤ i → (TickAll env (ticks.take j) w).m_state = Ticking) :
    ((TickAll env (ticks.take i) w).TickCalls env t.1 t.2).filter Call.isStart =
      (if t.1.EngineMode_IsSet Engine_Game && !previousGame w ticks i
        then w.m_entities.map Call.Entity_Start else []) ∧
    ((TickAll env (ticks.take i) w).TickCalls env t.1 t.2).filter Call.isStop =
      (if !t.1.EngineMode_IsSet Engine_Game && previousGame w ticks i
        then w.m_entities.map Call.Entity_Stop else []) := by
  have hprev : (TickAll env (ticks.take i) w).m_wasInEditorMode = !previousGame w ticks i := by
    cases i with
    | zero => simp [TickAll, previousGame]
    | succ k =>
      have hk : k < ticks.length := by
        have := (List.getElem?_eq_some_iff.mp ht).1
        omega
      rw [TickAll_take_succ env ticks w k hk,
        Tick_ticking_wasInEditorMode env _ _ _ (hT k (by omega))]
      simp [previousGame, gameFlagAt, List.getElem?_eq_getElem hk]
  rw [TickCalls_filter_isStart env _ _ _ (hT i (le_refl i)),
    TickCalls_filter_isStop env _ _ _ (hT i (le_refl i)), hprev, TickAll_entities]
  simp

/-- C3 on three ticks with flags game, editor, game, started in editor mode: the third
tick (an editor to game edge) starts both entities and stops none. -/
theorem C3_witness :
    (∀ j, j ≤ 2 → (TickAll Env.quiet
        (([(⟨2⟩, 16), (⟨0⟩, 16), (⟨3⟩, 16)] : List (Engine × Nat)).take j)
        (World.sample Ticking true true)).m_state = Ticking) ∧
    ((TickAll Env.quiet (([(⟨2⟩, 16), (⟨0⟩, 16), (⟨3⟩, 16)] : List (Engine × Nat)).take 2)
        (World.sample Ticking true true)).TickCalls Env.quiet ⟨3⟩ 16).filter Call.isStart =
      (World.sample Ticking true true).m_entities.map Call.Entity_Start ∧
    ((TickAll Env.quiet (([(⟨2⟩, 16), (⟨0⟩, 16), (⟨3⟩, 16)] : List (Engine × Nat)).take 2)
        (World.sample Ticking true true)).TickCalls Env.quiet ⟨3⟩ 16).filter Call.isStop = [] := by
  have hT : ∀ j, j ≤ 2 → (TickAll Env.quiet
      (([(⟨2⟩, 16), (⟨0⟩, 16), (⟨3⟩, 16)] : List (Engine × Nat)).take j)
      (World.sample Ticking true true)).m_state = Ticking := by
    intro j hj
    interval_cases j <;> rfl
  exact ⟨hT, C3_Start_Stop_once_per_edge Env.quiet [(⟨2⟩, 16), (⟨0⟩, 16), (⟨3⟩, 16)]
    (World.sample Ticking true true) 2 (⟨3⟩, 16) rfl hT⟩

/-- C4: in state Ticking, `World::Tick(dt)` calls `Tick(dt)` once on each entity, in
collection order and with the same dt; every Start or Stop call of the frame comes
before these calls, and what comes after them is only the notification. -/
theorem C4_Tick_each_entity_once (env : Env) (engine : Engine) (dt : Nat) (w : World)
    (h : w.m_state = Ticking) :
    ∃ pre post : List Call,
      w.TickCalls env engine dt =
        pre ++ w.m_entities.map (fun e => Call.Entity_Tick e dt) ++ post ∧
      (∀ c ∈ pre, c.isStart = true ∨ c.isStop = true) ∧
      (∀ c ∈ post, c.isFire = true) := by
  refine ⟨(if engine.EngineMode_IsSet Engine_Game && w.m_wasInEditorMode
      then w.m_entities.map Call.Entity_Start else []) ++
    (if !engine.EngineMode_IsSet Engine_Game && !w.m_wasInEditorMode
      then w.m_entities.map Call.Entity_Stop else []),
    (if (w.TickEntities env engine dt).m_is_dirty
      then [Call.Fire Event_World_Resolve_Complete (Variant.entities w.m_entities)] else []),
    ?_, ?_, ?_⟩
  · rw [TickCalls_ticking env engine dt w h]
    rfl
  · intro c hc
    rcases List.mem_append.mp hc with hc | hc
    · split at hc
      · obtain ⟨e, _, rfl⟩ := List.mem_map.mp hc
        exact Or.inl rfl
      · simp at hc
    · split at hc
      · obtain ⟨e, _, rfl⟩ := List.mem_map.mp hc
        exact Or.inr rfl
      · simp at hc
  · intro c hc
    split at hc
    · rw [List.mem_singleton.mp hc]
      rfl
    · simp at hc

/-- C4 at a two-entity world on an editor to game edge. -/
theorem C4_witness :
    (World.sample Ticking true true).m_state = Ticking ∧
    ∃ pre post : List Call,
      (World.sample Ticking true true).TickCalls Env.quiet ⟨2⟩ 16 =
        pre ++ (World.sample Ticking true true).m_entities.map
          (fun e => Call.Entity_Tick e 16) ++ post ∧
      (∀ c ∈ pre, c.isStart = true ∨ c.isStop = true) ∧
      (∀ c ∈ post, c.isFire = true) :=
  ⟨rfl, C4_Tick_each_entity_once Env.quiet ⟨2⟩ 16 (World.sample Ticking true true) rfl⟩

/-! ## EntityRemove on the identifiers of the collection -/

theorem map_GetId_eraseP (id : Nat) (l : List Entity) :
    (l.eraseP (fun temp => temp.GetId == id)).map Entity.GetId = (l.map Entity.GetId).erase id := by
  induction l with
  | nil => rfl
  | cons e rest ih =>
    by_cases h : e.GetId = id
    · simp [List.eraseP_cons, h]
    · have h2 : (e.GetId == id) = false := by simpa using h
      simp [List.eraseP_cons, h2, List.erase_cons, ih]

theorem eraseById_ids (id : Nat) (w : World) : (w.eraseById id).ids = w.ids.erase id :=
  map_GetId_eraseP id w.m_entities

theorem GetId_setChildrenOf (pid : Nat) (cs : List Entity) (e : Entity) :
    (Entity.setChildrenOf pid cs e).GetId = e.GetId := by
  cases e with
  | mk i n a v c p ch =>
    unfold Entity.setChildrenOf
    split <;> rfl

theorem AcquireChildren_ids (pid : Nat) (w : World) : (w.AcquireChildren pid).ids = w.ids := by
  unfold AcquireChildren ids
  simp only [List.map_map]
  apply List.map_congr_left
  intro e _
  exact GetId_setChildrenOf pid _ e

mutual
theorem EntityRemove_entity_ids : ∀ (e : Entity) (w : World),
    (EntityRemove_entity e w).ids = (e.subtree.map Entity.GetId).foldl List.erase w.ids
  | Entity.mk i n a v c p cs, w => by
    have ih := EntityRemove_children_ids cs w
    unfold EntityRemove_entity
    have hsub : (Entity.mk i n a v c p cs).subtree.map Entity.GetId =
        (Entity.descendantsList cs).map Entity.GetId ++ [i] := by
      simp [Entity.subtree, Entity.descendants, Entity.GetId]
    rw [hsub, List.foldl_append, ← ih]
    cases p with
    | none => exact eraseById_ids i _
    | some pid =>
      show ((EntityRemove_children cs w).eraseById i |>.AcquireChildren pid).ids = _
      rw [AcquireChildren_ids]
      exact eraseById_ids i _
theorem EntityRemove_children_ids : ∀ (cs : List Entity) (w : World),
    (EntityRemove_children cs w).ids =
      ((Entity.descendantsList cs).map Entity.GetId).foldl List.erase w.ids
  | [], w => by simp [EntityRemove_children, Entity.descendantsList]
  | c :: cs, w => by
    have ih1 := EntityRemove_entity_ids c w
    have ih2 := EntityRemove_children_ids cs (EntityRemove_entity c w)
    unfold EntityRemove_children
    rw [ih2, ih1]
    simp [Entity.descendantsList, Entity.subtree, List.foldl_append]
end

theorem foldl_erase_sublist (as l : List Nat) : (as.foldl List.erase l).Sublist l := by
  induction as generalizing l with
  | nil => exact List.Sublist.refl l
  | cons a rest ih => exact (ih (l.erase a)).trans (List.erase_sublist a l)

theorem not_mem_foldl_erase (as l : List Nat) (hl : l.Nodup) (a : Nat) (ha : a ∈ as) :
    a ∉ as.foldl List.erase l := by
  induction as generalizing l with
  | nil => simp at ha
  | cons b rest ih =>
    simp only [List.foldl_cons]
    rcases List.mem_cons.mp ha with rfl | hr
    · intro hmem
      have := (foldl_erase_sublist rest (l.erase a)).subset hmem
      exact (List.Nodup.mem_erase_iff hl).mp this |>.1 rfl
    · exact ih (l.erase b) (hl.erase b) hr

theorem EntityGetById_eq_none (w : World) (id : Nat) (h : id ∉ w.ids) :
    w.EntityGetById id = none := by
  unfold EntityGetById
  rw [List.find?_eq_none]
  intro e he hid
  apply h
  have : e.GetId = id := by simpa using hid
  rw [← this]
  exact List.mem_map_of_mem Entity.GetId he

/-- A world reached by adding the same entity twice still holds that entity after
`EntityRemove`, and `EntityGetById` still finds its identifier: the erase loop erases one
entity and `EntityAdd` checks no identifier. -/
theorem EntityRemove_added_twice :
    Entity.sample 1 "A" ∈
      ((World.empty.EntityAdd (some (Entity.sample 1 "A"))).EntityAdd
        (some (Entity.sample 1 "A"))).m_entities ∧
    Entity.sample 1 "A" ∈
      ((((World.empty.EntityAdd (some (Entity.sample 1 "A"))).EntityAdd
        (some (Entity.sample 1 "A"))).EntityRemove (some (Entity.sample 1 "A")))).m_entities ∧
    ((((World.empty.EntityAdd (some (Entity.sample 1 "A"))).EntityAdd
        (some (Entity.sample 1 "A"))).EntityRemove (some (Entity.sample 1 "A")))).EntityGetById
          (Entity.sample 1 "A").GetId = some (Entity.sample 1 "A") := by
  decide

/-- In a world whose entities have pairwise distinct identifiers, after `EntityRemove(X)`
with a handle that is not stored in the collection, neither X nor any transitive
descendant of X is in the collection, no entity of the collection carries the identifier
of one of them, and `EntityGetById` returns the empty handle for each of these
identifiers. -/
theorem EntityRemove_own_complete (w : World) (x : Entity) (hu : w.UniqueIds) :
    ∀ d ∈ x.subtree,
      d ∉ (w.EntityRemove (some x)).m_entities ∧
      d.GetId ∉ (w.EntityRemove (some x)).ids ∧
      (w.EntityRemove (some x)).EntityGetById d.GetId = none := by
  intro d hd
  have hid : d.GetId ∉ (w.EntityRemove (some x)).ids := by
    show d.GetId ∉ (EntityRemove_entity x w).ids
    rw [EntityRemove_entity_ids]
    exact not_mem_foldl_erase _ _ hu _ (List.mem_map_of_mem Entity.GetId hd)
  exact ⟨fun hmem => hid (List.mem_map_of_mem Entity.GetId hmem), hid,
    EntityGetById_eq_none _ _ hid⟩

/-- At the hierarchy A > B > C with root D, removing A through a handle that is not stored
in the collection leaves only D. -/
theorem EntityRemove_own_complete_family :
    World.family.UniqueIds ∧
    (World.family.EntityRemove (some Entity.sampleA)).ids = [4] ∧
    ∀ d ∈ Entity.sampleA.subtree,
      d ∉ (World.family.EntityRemove (some Entity.sampleA)).m_entities ∧
      d.GetId ∉ (World.family.EntityRemove (some Entity.sampleA)).ids ∧
      (World.family.EntityRemove (some Entity.sampleA)).EntityGetById d.GetId = none :=
  ⟨by decide, by decide,
    EntityRemove_own_complete World.family Entity.sampleA (by decide)⟩

/-- C6 fails on the code. In the world that stores the child B before its parent A,
followed by the root D, with pairwise distinct identifiers, `EntityGetById(1)` returns a
reference to the slot 1, which holds A. `EntityRemove` of that reference erases B, after
which the slot holds D; the parent and the identifier are then read from D, D is erased,
and A is still in the collection, where `EntityGetById` still finds its identifier. With
a handle that is not stored in the collection and distinct identifiers, X and its
descendants are gone after the call and `EntityGetById` finds none of their identifiers. -/
theorem C6_EntityRemove_by_reference_keeps_X :
    World.childFirst.UniqueIds ∧
    World.childFirst.ids = [2, 1, 4] ∧
    World.childFirst.EntityGetById_ref 1 = some 1 ∧
    (World.childFirst.EntityRemove_ref 1).map World.ids = some [1] ∧
    (World.childFirst.EntityRemove_ref 1).map (fun w => (w.EntityGetById 1).isSome) =
      some true ∧
    (∀ (w : World) (x : Entity), w.UniqueIds → ∀ d ∈ x.subtree,
      d ∉ (w.EntityRemove (some x)).m_entities ∧
      d.GetId ∉ (w.EntityRemove (some x)).ids ∧
      (w.EntityRemove (some x)).EntityGetById d.GetId = none) :=
  ⟨by decide, by decide, by decide, by decide, by decide, EntityRemove_own_complete⟩

/-! ## LoadFromFile -/

theorem TickAll_calls_of_not_Ticking (env : Env) (ticks : List (Engine × Nat)) (w : World)
    (h : w.m_state = Request_Loading ∨ w.m_state = Loading) :
    (TickAll env ticks w).m_state = (if ticks = [] then w.m_state else Loading) ∧
    (TickAll env ticks w).calls = w.calls ∧
    (TickAll env ticks w).m_is_dirty = w.m_is_dirty ∧
    (TickAll env ticks w).m_name = w.m_name := by
  induction ticks generalizing w with
  | nil => simp [TickAll]
  | cons t rest ih =>
    have hnt : w.m_state ≠ Ticking := by
      rcases h with h | h <;> simp [h]
    have hT := Tick_of_not_Ticking env t.1 t.2 w hnt
    have hL : (w.Tick env t.1 t.2).m_state = Loading := by
      rw [hT]
      rcases h with h | h <;> simp [h]
    obtain ⟨i1, i2, i3, i4⟩ := ih (w.Tick env t.1 t.2) (Or.inr hL)
    simp only [TickAll, reduceCtorEq, if_false]
    refine ⟨?_, ?_, ?_, ?_⟩
    · rw [i1, hL]
      simp
    · rw [i2, hT]
    · rw [i3, hT]
    · rw [i4, hT]

theorem LoadFromFile_wait_exit (env : Env) (sched : List Sleep) (r : Bool) (w w1 : World)
    (h : w.LoadFromFile_wait env r sched = some w1) :
    w1.m_state = Loading ∧ w1.m_entities = w.m_entities := by
  induction sched generalizing r w with
  | nil =>
    unfold LoadFromFile_wait at h
    split at h
    · simp at h
    · rename_i hc
      simp only [Option.some.injEq] at h
      subst h
      simp only [Bool.or_eq_true, decide_eq_true_eq, not_or, ne_eq, not_not] at hc
      exact ⟨hc.1, rfl⟩
  | cons s rest ih =>
    unfold LoadFromFile_wait at h
    split at h
    · obtain ⟨h1, h2⟩ := ih _ _ h
      exact ⟨h1, h2.trans (TickAll_entities env _ _)⟩
    · rename_i hc
      simp only [Option.some.injEq] at h
      subst h
      simp only [Bool.or_eq_true, decide_eq_true_eq, not_or, ne_eq, not_not] at hc
      exact ⟨hc.1, rfl⟩

theorem LoadFromFile_wait_latch (env : Env) (sched : List Sleep) (r : Bool) (w w1 : World)
    (hc : w.m_state ≠ Loading ∨ r = true)
    (h : w.LoadFromFile_wait env r sched = some w1) :
    ∃ latch ∈ sched, latch.ticks ≠ [] ∧ latch.is_rendering = false := by
  induction sched generalizing r w with
  | nil =>
    unfold LoadFromFile_wait at h
    split at h
    · simp at h
    · rename_i hn
      simp only [Bool.or_eq_true, decide_eq_true_eq, not_or, ne_eq, not_not] at hn
      rcases hc with hc | hc
      · exact absurd hn.1 hc
      · simp [hc] at hn
  | cons s rest ih =>
    unfold LoadFromFile_wait at h
    split at h
    · by_cases hnext : (TickAll env s.ticks { w with m_state := Request_Loading }).m_state ≠ Loading
          ∨ s.is_rendering = true
      · obtain ⟨l, hl, hl2⟩ := ih _ _ hnext h
        exact ⟨l, List.mem_cons_of_mem _ hl, hl2⟩
      · simp only [not_or, ne_eq, not_not, Bool.not_eq_true] at hnext
        refine ⟨s, List.mem_cons_self _ _, ?_, hnext.2⟩
        intro hnil
        have := hnext.1
        rw [hnil] at this
        simp [TickAll] at this
    · rename_i hn
      simp only [Bool.or_eq_true, decide_eq_true_eq, not_or, ne_eq, not_not] at hn
      rcases hc with hc | hc
      · exact absurd hn.1 hc
      · simp [hc] at hn

theorem foldl_OnEvent_state_Ticking (evs : List Event_Type) (w : World)
    (hs : Event_World_Stop ∉ evs) (h : w.m_state = Ticking) :
    (evs.foldl OnEvent w).m_state = Ticking := by
  induction evs generalizing w with
  | nil => exact h
  | cons ev rest ih =>
    simp only [List.foldl_cons]
    apply ih
    · exact fun hm => hs (List.mem_cons_of_mem _ hm)
    · have hne : ev ≠ Event_World_Stop := fun he => hs (he ▸ List.mem_cons_self _ _)
      cases ev <;> simp_all [OnEvent]

theorem LoadFromFile_load_last (env : Env) (fs : FileSystem) (generated : Nat → Nat)
    (path : String) (w w2 : World)
    (h : w.LoadFromFile_load env fs generated path = (true, w2)) :
    ∃ w4 : World, w4.m_state = Ticking ∧ w4.m_is_dirty = true ∧
      w2 = w4.invoke env (Call.Fire Event_World_Loaded (Variant.int 0)) := by
  unfold LoadFromFile_load at h
  split at h
  · simp at h
  · simp only [Prod.mk.injEq, true_and] at h
    exact ⟨_, rfl, rfl, h.symm⟩

/-- C5, as stated, fails in its last part: when a subscriber of `Event_World_Loaded` fires
`Event_World_Stop` back, the handler that `World` subscribed to that event
(World.cpp:52) runs before `LoadFromFile` returns, and the successful load of the sample
hierarchy, started in state Ticking, returns with the state Idle. -/
theorem C5_counterexample :
    World.family.m_state = Ticking ∧
    (World.family.LoadFromFile Env.stopper FileSystem.saved (fun i => 100 + i) false
      Sleep.sample "scn.world").map (fun r => (r.1, r.2.m_state, r.2.ids)) =
        some (true, Idle, [1, 4, 2, 3]) := by
  decide

/-- C5, amended: a successful `World::LoadFromFile` started in state Ticking first sets the
state to Request_Loading (the wait loop runs at least once); the loop ends in state
Loading with the entity collection untouched, and only after some sleep during which
`World::Tick` ran (the latch from Request_Loading to Loading) and after which the renderer
answered that it is not rendering; the rest of the load runs from there and sets the state
to Ticking and the dirty flag before it fires `Event_World_Loaded`; and it returns in
state Ticking provided that no code called by the `World` fires `Event_World_Stop`. -/
theorem C5_LoadFromFile_state_path (env : Env) (fs : FileSystem) (generated : Nat → Nat)
    (r0 : Bool) (sched : List Sleep) (path : String) (w w2 : World)
    (hT : w.m_state = Ticking)
    (hok : w.LoadFromFile env fs generated r0 sched path = some (true, w2)) :
    ∃ (s : Sleep) (rest : List Sleep) (w1 w4 : World),
      sched = s :: rest ∧
      w.LoadFromFile_wait env r0 sched = LoadFromFile_wait env s.is_rendering rest
        (TickAll env s.ticks { w with m_state := Request_Loading }) ∧
      w.LoadFromFile_wait env r0 sched = some w1 ∧
      w1.m_state = Loading ∧
      w1.m_entities = w.m_entities ∧
      (∃ latch ∈ sched, latch.ticks ≠ [] ∧ latch.is_rendering = false) ∧
      w1.LoadFromFile_load env fs generated path = (true, w2) ∧
      w4.m_state = Ticking ∧ w4.m_is_dirty = true ∧
      w2 = w4.invoke env (Call.Fire Event_World_Loaded (Variant.int 0)) ∧
      ((∀ log, Event_World_Stop ∉ env.fires log) → w2.m_state = Ticking) := by
  unfold LoadFromFile at hok
  split at hok
  · simp at hok
  · split at hok
    · simp at hok
    · rename_i w1 hw
      simp only [Option.some.injEq] at hok
      have hne : w.m_state ≠ Loading := by simp [hT]
      cases sched with
      | nil =>
        unfold LoadFromFile_wait at hw
        simp [hne] at hw
      | cons s rest =>
        obtain ⟨e1, e2⟩ := LoadFromFile_wait_exit env _ r0 w w1 hw
        obtain ⟨w4, f1, f2, f3⟩ := LoadFromFile_load_last env fs generated path w1 w2 hok
        refine ⟨s, rest, w1, w4, rfl, ?_, hw, e1, e2,
          LoadFromFile_wait_latch env _ r0 w w1 (Or.inl hne) hw, hok, f1, f2, f3, ?_⟩
        · conv => lhs; unfold LoadFromFile_wait
          simp [hne]
        · intro hstop
          rw [f3]
          exact foldl_OnEvent_state_Ticking _ _ (hstop _) f1

/-- C5 at the sample hierarchy, loaded back from the file it was saved to while the
simulation thread ticks once. -/
theorem C5_witness :
    World.family.m_state = Ticking ∧
    World.family.LoadFromFile Env.quiet FileSystem.saved (fun i => 100 + i) false
      Sleep.sample "scn.world" = some (true, World.reloaded) ∧
    World.reloaded.m_state = Ticking ∧
    ∃ (s : Sleep) (rest : List Sleep) (w1 w4 : World),
      Sleep.sample = s :: rest ∧
      World.family.LoadFromFile_wait Env.quiet false Sleep.sample =
        LoadFromFile_wait Env.quiet s.is_rendering rest
          (TickAll Env.quiet s.ticks { World.family with m_state := Request_Loading }) ∧
      World.family.LoadFromFile_wait Env.quiet false Sleep.sample = some w1 ∧
      w1.m_state = Loading ∧
      w1.m_entities = World.family.m_entities ∧
      (∃ latch ∈ Sleep.sample, latch.ticks ≠ [] ∧ latch.is_rendering = false) ∧
      w1.LoadFromFile_load Env.quiet FileSystem.saved (fun i => 100 + i) "scn.world" =
        (true, World.reloaded) ∧
      w4.m_state = Ticking ∧ w4.m_is_dirty = true ∧
      World.reloaded = w4.invoke Env.quiet (Call.Fire Event_World_Loaded (Variant.int 0)) ∧
      ((∀ log, Event_World_Stop ∉ Env.quiet.fires log) → World.reloaded.m_state = Ticking) :=
  ⟨rfl, by decide, rfl,
    C5_LoadFromFile_state_path Env.quiet FileSystem.saved (fun i => 100 + i) false Sleep.sample
      "scn.world" World.family World.reloaded rfl (by decide)⟩

theorem LoadFromFile_missing_file (env : Env) (fs : FileSystem) (generated : Nat → Nat)
    (r0 : Bool) (sched : List Sleep) (path : String) (w : World)
    (h : fs.FileExists path = false) :
    w.LoadFromFile env fs generated r0 sched path = some (false, w) := by
  simp [LoadFromFile, h]

/-- C9, the code at the failing input: the file exists but its stream does not open; the
load returns false and the two-level hierarchy that was loaded is gone. -/
theorem C9_failed_open_clears_entities :
    FileSystem.locked.FileExists "locked.world" = true ∧
    FileSystem.locked.open_read "locked.world" = none ∧
    World.family.m_entities.length = 4 ∧
    (World.family.LoadFromFile Env.quiet FileSystem.locked (fun i => 100 + i) false
      Sleep.sample "locked.world").map (fun r => (r.1, r.2.m_entities)) = some (false, []) := by
  decide

/-- C10, the code at the failing input: the file exists but its stream does not open; the
load returns false and the state, Ticking before the call, is left at Loading (the scene
name is unchanged). -/
theorem C10_failed_open_leaves_Loading :
    World.family.m_state = Ticking ∧
    (World.family.LoadFromFile Env.quiet FileSystem.locked (fun i => 100 + i) false
      Sleep.sample "locked.world").map (fun r => (r.1, r.2.m_state, r.2.m_name)) =
        some (false, Loading, World.family.m_name) := by
  decide

/-! ## Uniqueness of identifiers -/

theorem GetId_SetActive (e : Entity) (a : Bool) : (e.SetActive a).GetId = e.GetId := by
  cases e; rfl

theorem GetId_SetId (e : Entity) (i : Nat) : (e.SetId i).GetId = i := by
  cases e; rfl

theorem EntityCreate_ids (g : Nat) (a : Bool) (w : World) :
    (w.EntityCreate g a).ids = w.ids ++ [g] := by
  simp only [EntityCreate, ids, List.map_append, List.map_cons, List.map_nil, GetId_SetActive]
  rfl

theorem EntityCreate_updateBack_ids (g id : Nat) (a : Bool) (w : World) :
    ((w.EntityCreate g a).updateBack (fun e => e.SetId id)).ids = w.ids ++ [id] := by
  simp [EntityCreate, updateBack, ids, GetId_SetId]

theorem LoadFromFile_ids_ids (generated : Nat → Nat) (n i : Nat) (file : List Item) (w : World) :
    (LoadFromFile_ids generated n i file w).1.ids =
      w.ids ++ (FileStream.readMany FileStream.ReadAs_uint32 n file).1 := by
  induction n generalizing i file w with
  | zero => simp [LoadFromFile_ids, FileStream.readMany]
  | succ n ih =>
    simp only [LoadFromFile_ids, FileStream.readMany]
    rw [ih, EntityCreate_updateBack_ids]
    simp

theorem EntityRemove_UniqueIds (e : Option Entity) (w : World) (hu : w.UniqueIds) :
    (w.EntityRemove e).UniqueIds := by
  cases e with
  | none => exact hu
  | some x =>
    show (EntityRemove_entity x w).ids.Nodup
    rw [EntityRemove_entity_ids]
    exact (foldl_erase_sublist _ _).nodup hu

/-- C7, as stated, fails: adding with `EntityAdd` the entity that `EntityCreate` has just
put in the collection yields two entities with the same identifier. -/
theorem C7_counterexample :
    (World.empty.EntityCreate 1 true).UniqueIds ∧
    ¬ ((World.empty.EntityCreate 1 true).EntityAdd
        ((World.empty.EntityCreate 1 true).m_entities.getLast?)).UniqueIds := by
  decide

/-- C7, amended: identifiers are pairwise distinct in the empty collection, and stay so
after `EntityRemove` and `Unload`; after `EntityCreate` when the generated identifier is
not in the collection; after `EntityAdd` of a null handle, and of an entity whose
identifier is not in the collection; after the root pre-creation of `LoadFromFile` when
the identifiers read from the file are pairwise distinct and not in the collection. -/
theorem C7_UniqueIds_invariant (env : Env) (w : World) (hu : w.UniqueIds) :
    World.empty.UniqueIds ∧
    (∀ e, (w.EntityRemove e).UniqueIds) ∧
    (w.Unload env).UniqueIds ∧
    (∀ g a, g ∉ w.ids → (w.EntityCreate g a).UniqueIds) ∧
    (w.EntityAdd none).UniqueIds ∧
    (∀ e : Entity, e.GetId ∉ w.ids → (w.EntityAdd (some e)).UniqueIds) ∧
    (∀ generated n i file,
      (w.ids ++ (FileStream.readMany FileStream.ReadAs_uint32 n file).1).Nodup →
      (LoadFromFile_ids generated n i file w).1.UniqueIds) := by
  refine ⟨by decide, fun e => EntityRemove_UniqueIds e w hu, ?_, ?_, hu, ?_, ?_⟩
  · simp [UniqueIds, ids, Unload]
  · intro g a hg
    show (w.EntityCreate g a).ids.Nodup
    rw [EntityCreate_ids]
    exact List.Nodup.append hu (List.nodup_singleton g) (by simpa using hg)
  · intro e he
    show ((w.m_entities ++ [e]).map Entity.GetId).Nodup
    rw [List.map_append]
    exact List.Nodup.append hu (List.nodup_singleton _) (by simpa [ids] using he)
  · intro generated n i file h
    show (LoadFromFile_ids generated n i file w).1.ids.Nodup
    rw [LoadFromFile_ids_ids]
    exact h

/-- C7, amended, at the sample hierarchy: removal, unloading, creation with the fresh
identifier 9 and the pre-creation of two roots with the identifiers 7 and 8 read from a
file all keep the identifiers distinct. -/
theorem C7_witness :
    World.family.UniqueIds ∧
    (World.family.EntityRemove (some Entity.sampleB)).UniqueIds ∧
    (World.family.Unload Env.quiet).UniqueIds ∧
    (World.family.EntityCreate 9 true).UniqueIds ∧
    (LoadFromFile_ids (fun i => 100 + i) 2 0 [Item.uint32 7, Item.uint32 8]
      World.family).1.UniqueIds :=
  have h := C7_UniqueIds_invariant Env.quiet World.family (by decide)
  ⟨by decide, h.2.1 (some Entity.sampleB), h.2.2.1, h.2.2.2.1 9 true (by decide),
    h.2.2.2.2.2.2 (fun i => 100 + i) 2 0 [Item.uint32 7, Item.uint32 8] (by decide)⟩

end World

/-! ## Reading back what `Serialize` wrote -/

namespace Entity

theorem readMany_componentHeader (c : List Component) (rest : List Item) :
    FileStream.readMany readComponentHeader c.length (c.flatMap componentHeader ++ rest) =
      (c.map (fun k => ⟨k.m_type, k.m_id, []⟩), rest) := by
  induction c with
  | nil => rfl
  | cons k ks ih =>
    simp only [List.length_cons, FileStream.readMany, List.flatMap_cons, List.map_cons]
    have h1 : readComponentHeader (componentHeader k ++ ks.flatMap componentHeader ++ rest) =
        (⟨k.m_type, k.m_id, []⟩, ks.flatMap componentHeader ++ rest) := by
      simp [readComponentHeader, componentHeader, FileStream.ReadAs_uint32]
    rw [h1, ih]

theorem readComponentPayloads_written (c : List Component) (rest : List Item) :
    readComponentPayloads (c.map (fun k => ⟨k.m_type, k.m_id, []⟩))
      (c.map (fun k => Item.data k.m_data) ++ rest) = (c, rest) := by
  induction c with
  | nil => rfl
  | cons k ks ih =>
    simp only [List.map_cons, List.cons_append, readComponentPayloads, FileStream.ReadAs_data]
    rw [ih]

mutual
theorem DeserializeAux_Serialize : ∀ (e : Entity) (fuel : Nat) (rest : List Item),
    e.parentsOk = true → e.size ≤ fuel →
    DeserializeAux fuel e.GetParent (Serialize e ++ rest) = (e, rest)
  | mk i n a v c p cs, fuel, rest, hp, hs => by
    cases fuel with
    | zero => simp [size] at hs
    | succ f =>
      have hcs := readMany_DeserializeAux_SerializeList cs i f rest
        (by simpa [parentsOk] using hp) (by simp only [size] at hs; omega)
      simp only [Serialize, DeserializeAux, GetParent, List.cons_append, List.nil_append,
        List.append_assoc, FileStream.ReadAs_uint32, FileStream.ReadAs_string,
        FileStream.ReadAs_bool, FileStream.ReadAs_int32, Int.toNat_ofNat]
      rw [readMany_componentHeader]
      simp only []
      rw [readComponentPayloads_written]
      simp only [List.cons_append, List.nil_append, FileStream.ReadAs_uint32]
      rw [hcs]
theorem readMany_DeserializeAux_SerializeList : ∀ (cs : List Entity) (pid fuel : Nat)
    (rest : List Item),
    parentsOkList pid cs = true → sizeList cs ≤ fuel →
    FileStream.readMany (DeserializeAux fuel (some pid)) cs.length (SerializeList cs ++ rest) =
      (cs, rest)
  | [], _, _, _, _, _ => rfl
  | c :: cs, pid, fuel, rest, hp, hs => by
    simp only [parentsOkList, Bool.and_eq_true, beq_iff_eq] at hp
    obtain ⟨⟨hpar, hok⟩, hrest⟩ := hp
    simp only [sizeList] at hs
    have h1 := DeserializeAux_Serialize c fuel (SerializeList cs ++ rest) hok (by omega)
    have h2 := readMany_DeserializeAux_SerializeList cs pid fuel rest hrest (by omega)
    rw [hpar] at h1
    simp only [List.length_cons, FileStream.readMany, SerializeList, List.append_assoc]
    rw [h1, h2]
end

mutual
theorem size_le_length_Serialize : ∀ (e : Entity), e.size ≤ (Serialize e).length
  | mk i n a v c p cs => by
    have := sizeList_le_length_SerializeList cs
    simp only [size, Serialize, List.length_append, List.length_cons, List.length_nil]
    omega
theorem sizeList_le_length_SerializeList : ∀ (cs : List Entity),
    sizeList cs ≤ (SerializeList cs).length
  | [] => by simp [sizeList, SerializeList]
  | c :: cs => by
    have h1 := size_le_length_Serialize c
    have h2 := sizeList_le_length_SerializeList cs
    simp only [sizeList, SerializeList, List.length_append]
    omega
end

theorem Deserialize_Serialize (e : Entity) (rest : List Item) (hp : e.parentsOk = true) :
    Deserialize e.GetParent (Serialize e ++ rest) = (e, rest) := by
  unfold Deserialize
  apply DeserializeAux_Serialize e _ rest hp
  have := size_le_length_Serialize e
  simp only [List.length_append]
  omega

mutual
theorem created_not_root : ∀ (e : Entity), e.parentsOk = true →
    ∀ x ∈ e.created, x.IsRoot = false
  | mk i n a v c p cs, hp => by
    have h := createdList_not_root cs i (by simpa [parentsOk] using hp)
    intro x hx
    simp only [created, List.mem_append] at hx
    rcases hx with hx | hx
    · exact (h.1 x hx)
    · exact (h.2 x hx)
theorem createdList_not_root : ∀ (cs : List Entity) (pid : Nat), parentsOkList pid cs = true →
    (∀ x ∈ cs, x.IsRoot = false) ∧ (∀ x ∈ createdList cs, x.IsRoot = false)
  | [], _, _ => by simp [createdList]
  | c :: cs, pid, hp => by
    simp only [parentsOkList, Bool.and_eq_true, beq_iff_eq] at hp
    obtain ⟨⟨hpar, hok⟩, hrest⟩ := hp
    have h1 := created_not_root c hok
    have h2 := createdList_not_root cs pid hrest
    constructor
    · intro x hx
      rcases List.mem_cons.mp hx with rfl | hx
      · simp [IsRoot, hpar]
      · exact h2.1 x hx
    · intro x hx
      simp only [createdList, List.mem_append] at hx
      rcases hx with hx | hx
      · exact h1 x hx
      · exact h2.2 x hx
end

end Entity

namespace World

theorem LoadFromFile_ids_entities (generated : Nat → Nat) (l : List Nat) (i : Nat)
    (rest : List Item) (w : World) :
    ∃ pre : List Entity, pre.length = l.length ∧
      (LoadFromFile_ids generated l.length i (l.map Item.uint32 ++ rest) w).1.m_entities =
        w.m_entities ++ pre ∧
      (LoadFromFile_ids generated l.length i (l.map Item.uint32 ++ rest) w).2 = rest := by
  induction l generalizing i w with
  | nil => exact ⟨[], rfl, by simp [LoadFromFile_ids], by simp [LoadFromFile_ids]⟩
  | cons id ids ih =>
    simp only [List.length_cons, List.map_cons, List.cons_append, LoadFromFile_ids,
      FileStream.ReadAs_uint32]
    obtain ⟨pre, h1, h2, h3⟩ := ih (i + 1)
      ((w.EntityCreate (generated i) true).updateBack (fun e => e.SetId id))
    refine ⟨(((Entity.new (generated i)).SetActive true).SetId id) :: pre, by simp [h1], ?_, h3⟩
    rw [h2]
    simp [EntityCreate, updateBack]

theorem LoadFromFile_roots_entities (rs : List Entity) (done pending extra : List Entity)
    (i : Nat) (rest : List Item) (w : World)
    (hw : w.m_entities = done ++ pending ++ extra) (hi : done.length = i)
    (hpend : pending.length = rs.length)
    (hrs : ∀ r ∈ rs, r.parentsOk = true ∧ r.GetParent = none) :
    (LoadFromFile_roots rs.length i (rs.flatMap Entity.Serialize ++ rest) w).1.m_entities =
        done ++ rs ++ extra ++ rs.flatMap Entity.created ∧
    (LoadFromFile_roots rs.length i (rs.flatMap Entity.Serialize ++ rest) w).2 = rest := by
  induction rs generalizing done pending extra i w with
  | nil =>
    have : pending = [] := List.length_eq_zero.mp hpend
    subst this
    simp [LoadFromFile_roots, hw]
  | cons r rs ih =>
    cases pending with
    | nil => simp at hpend
    | cons q pending =>
      obtain ⟨hok, hroot⟩ := hrs r (List.mem_cons_self _ _)
      have hparse := Entity.Deserialize_Serialize r (rs.flatMap Entity.Serialize ++ rest) hok
      rw [hroot] at hparse
      simp only [List.length_cons, List.flatMap_cons, List.append_assoc, LoadFromFile_roots]
      rw [hparse]
      have hset : (w.m_entities.set i r) = (done ++ [r]) ++ pending ++ extra := by
        rw [hw, ← hi]
        simp [List.set_append]
      have := ih (done ++ [r]) pending (extra ++ r.created) (i + 1)
        { w with m_entities := w.m_entities.set i r ++ r.created }
        (by simp only [hset]; simp) (by simp [hi]) (by simpa using hpend)
        (fun x hx => hrs x (List.mem_cons_of_mem _ hx))
      simp only [List.append_assoc] at this
      rw [this.1, this.2]
      simp

theorem LoadFromFile_load_entities (env : Env) (fs : FileSystem) (generated : Nat → Nat)
    (path : String) (w : World) (rs : List Entity)
    (hfile : fs.open_read path = some ([Item.uint32 rs.length] ++
      (rs.map Entity.GetId).map Item.uint32 ++ rs.flatMap Entity.Serialize))
    (hrs : ∀ r ∈ rs, r.parentsOk = true ∧ r.GetParent = none) :
    (w.LoadFromFile_load env fs generated path).1 = true ∧
    (w.LoadFromFile_load env fs generated path).2.m_entities =
      rs ++ rs.flatMap Entity.created := by
  unfold LoadFromFile_load
  simp only [hfile, List.cons_append, List.nil_append, FileStream.ReadAs_uint32, true_and,
    invoke_entities]
  obtain ⟨pre, h1, h2, h3⟩ := LoadFromFile_ids_entities generated (rs.map Entity.GetId) 0
    (rs.flatMap Entity.Serialize)
    (invoke env (Call.Fire Event_World_Load (Variant.int 0))
      { (w.Unload env) with m_name := fs.GetFileNameNoExtensionFromFilePath path })
  simp only [List.length_map] at h1 h2 h3
  rw [h3]
  have hent : (LoadFromFile_ids generated rs.length 0
      (List.map Item.uint32 (List.map Entity.GetId rs) ++ rs.flatMap Entity.Serialize)
      (invoke env (Call.Fire Event_World_Load (Variant.int 0))
        { (w.Unload env) with
          m_name := fs.GetFileNameNoExtensionFromFilePath path })).1.m_entities =
      [] ++ pre ++ [] := by
    rw [h2, invoke_entities]
    simp [Unload]
  have := LoadFromFile_roots_entities rs [] pre [] 0 [] _ hent rfl h1 hrs
  simp only [List.append_nil, List.nil_append] at this
  exact this.1

theorem SaveToFile_written (env : Env) (fs : FileSystem) (filePathIn : String) (w : World)
    (h : (w.SaveToFile env fs filePathIn).1 = true) :
    (w.SaveToFile env fs filePathIn).2.2 = fs.store (SaveToFile_path fs filePathIn)
      ([Item.uint32 (w.EntityGetRoots.length % 2 ^ 32)] ++
        w.EntityGetRoots.map (fun root => Item.uint32 root.GetId) ++
        w.EntityGetRoots.flatMap Entity.Serialize) := by
  unfold SaveToFile at h ⊢
  simp only [] at h ⊢
  split
  · rename_i hw
    simp [hw] at h
  · simp [EntityGetRoots, invoke_entities]

/-- C8, as stated, fails: the world holding A > B > C and D in which B has been added a
second time with `EntityAdd` has five entities; it saves its two roots, and loading the
file it wrote gives four entities. -/
theorem C8_counterexample :
    (World.family.EntityAdd (some Entity.sampleB)).m_entities.length = 5 ∧
    ((World.family.EntityAdd (some Entity.sampleB)).SaveToFile Env.quiet FileSystem.blank
      "scn").1 = true ∧
    ((World.family.EntityAdd (some Entity.sampleB)).LoadFromFile Env.quiet
      ((World.family.EntityAdd (some Entity.sampleB)).SaveToFile Env.quiet FileSystem.blank
        "scn").2.2 (fun i => 100 + i) false Sleep.sample "scn.world").map
      (fun r => (r.1, r.2.m_entities.length)) = some (true, 4) := by
  decide

/-- C8, amended: for a world whose collection consists of its roots and of the entities
below them, each once, with child lists that agree with the parent links, and with fewer
than 2^32 roots, a `LoadFromFile` that returns after a successful `SaveToFile`, reading
the file just written, returns true and leaves a collection with the roots first: it has
as many entities as the saved world, the same entities up to order (identifier, name,
active and visibility flags, components, parent, children), and the same roots in the
same order. -/
theorem C8_save_load_roundtrip (env env2 : Env) (fs : FileSystem) (generated : Nat → Nat)
    (r0 : Bool) (sched : List Sleep) (filePathIn : String) (w w0 wl : World) (b : Bool)
    (hw : w.Consistent) (hn : w.EntityGetRoots.length < 2 ^ 32)
    (hsave : (w.SaveToFile env fs filePathIn).1 = true)
    (hload : w0.LoadFromFile env2 (w.SaveToFile env fs filePathIn).2.2 generated r0 sched
      (SaveToFile_path fs filePathIn) = some (b, wl)) :
    b = true ∧
    wl.m_entities = w.EntityGetRoots ++ w.EntityGetRoots.flatMap Entity.created ∧
    wl.m_entities.length = w.m_entities.length ∧
    wl.m_entities.Perm w.m_entities ∧
    wl.EntityGetRoots = w.EntityGetRoots := by
  rw [SaveToFile_written env fs filePathIn w hsave] at hload
  have hroots : ∀ r ∈ w.EntityGetRoots, r.parentsOk = true ∧ r.GetParent = none := by
    intro r hr
    refine ⟨hw.2 r hr, ?_⟩
    have := (List.mem_filter.mp hr).2
    simpa [Entity.IsRoot] using this
  unfold LoadFromFile at hload
  simp only [FileSystem.store, if_true, Bool.not_true, Bool.false_eq_true, if_false] at hload
  split at hload
  · simp at hload
  · rename_i w1 _
    have hl := LoadFromFile_load_entities env2
      { fs with
        FileExists := fun p => if p = SaveToFile_path fs filePathIn then true else fs.FileExists p
        open_read := fun p => if p = SaveToFile_path fs filePathIn then
          some ([Item.uint32 (w.EntityGetRoots.length % 2 ^ 32)] ++
            w.EntityGetRoots.map (fun root => Item.uint32 root.GetId) ++
            w.EntityGetRoots.flatMap Entity.Serialize) else fs.open_read p }
      generated (SaveToFile_path fs filePathIn) w1 w.EntityGetRoots
      (by rw [Nat.mod_eq_of_lt hn]; simp) hroots
    simp only [Option.some.injEq] at hload
    rw [hload] at hl
    obtain ⟨hb, he⟩ := hl
    simp only at hb he
    have hperm : wl.m_entities.Perm w.m_entities := by
      rw [he]
      exact hw.1.symm
    refine ⟨hb, he, hperm.length_eq, hperm, ?_⟩
    unfold EntityGetRoots at he ⊢
    rw [he, List.filter_append, List.filter_filter]
    have hnone : ((List.filter (fun e => e.IsRoot) w.m_entities).flatMap
        Entity.created).filter (fun e => e.IsRoot) = [] := by
      rw [List.filter_eq_nil_iff]
      intro x hx
      obtain ⟨r, hr, hxr⟩ := List.mem_flatMap.mp hx
      simp [Entity.created_not_root r (hroots r hr).1 x hxr]
    rw [hnone]
    simp

/-- C8, amended, at the hierarchy A > B > C with the second root D: after saving to "scn"
and loading "scn.world" the roots are A and D again, B is still the child of A, and the
four entities are back. -/
theorem C8_witness :
    World.family.Consistent ∧
    World.family.EntityGetRoots.length < 2 ^ 32 ∧
    (World.family.SaveToFile Env.quiet FileSystem.blank "scn").1 = true ∧
    World.family.LoadFromFile Env.quiet
      (World.family.SaveToFile Env.quiet FileSystem.blank "scn").2.2 (fun i => 100 + i) false
      Sleep.sample (SaveToFile_path FileSystem.blank "scn") = some (true, World.reloaded) ∧
    World.reloaded.EntityGetRoots = [Entity.sampleA, Entity.sampleD] ∧
    Entity.sampleB ∈ Entity.sampleA.GetChildren ∧
    (true = true ∧
      World.reloaded.m_entities =
        World.family.EntityGetRoots ++ World.family.EntityGetRoots.flatMap Entity.created ∧
      World.reloaded.m_entities.length = World.family.m_entities.length ∧
      World.reloaded.m_entities.Perm World.family.m_entities ∧
      World.reloaded.EntityGetRoots = World.family.EntityGetRoots) :=
  ⟨by decide, by decide, by decide, by decide, by decide, by decide,
    C8_save_load_roundtrip Env.quiet Env.quiet FileSystem.blank (fun i => 100 + i) false
      Sleep.sample "scn" World.family World.family World.reloaded true
      (by decide) (by decide) (by decide) (by decide)⟩

/-! ## Save: failure, file layout -/

theorem foldl_OnEvent_dirty (evs : List Event_Type) (w : World) (h : w.m_is_dirty = true) :
    (evs.foldl OnEvent w).m_is_dirty = true := by
  induction evs generalizing w with
  | nil => exact h
  | cons ev rest ih =>
    simp only [List.foldl_cons]
    apply ih
    cases ev <;> simp [OnEvent, h]

theorem invoke_dirty (env : Env) (c : Call) (w : World) (h : w.m_is_dirty = true) :
    (w.invoke env c).m_is_dirty = true :=
  foldl_OnEvent_dirty _ _ h

theorem invoke_of_quiet (env : Env) (c : Call) (w : World) (h : env.fires (w.calls ++ [c]) = []) :
    w.invoke env c = { w with calls := w.calls ++ [c] } := by
  simp [invoke, h]

/-- C11, as stated, fails: saving the sample hierarchy where the scene file cannot be
opened for writing returns false, yet `Event_World_Save` has been fired and the scene name
has changed from "scene" to "scn". -/
theorem C11_counterexample :
    (World.family.SaveToFile Env.quiet FileSystem.readonly "scn").1 = false ∧
    World.family.calls = [] ∧
    (World.family.SaveToFile Env.quiet FileSystem.readonly "scn").2.1.calls =
      [Call.Fire Event_World_Save (Variant.int 0)] ∧
    World.family.m_name = "scene" ∧
    (World.family.SaveToFile Env.quiet FileSystem.readonly "scn").2.1.m_name = "scn" := by
  decide

/-- C11, amended: when `World::SaveToFile` returns false the entity collection is the one
before the call and nothing has been written, but the scene name is the one derived from
the path and `Event_World_Save` has been fired, once, as the only notification
(`Event_World_Saved` is not fired); the state and the dirty flag are the ones before the
call when the subscribers of `Event_World_Save` fire nothing back. -/
theorem C11_SaveToFile_failure (env : Env) (fs : FileSystem) (filePathIn : String) (w : World)
    (h : (w.SaveToFile env fs filePathIn).1 = false) :
    (w.SaveToFile env fs filePathIn).2.1.m_entities = w.m_entities ∧
    (w.SaveToFile env fs filePathIn).2.1.m_wasInEditorMode = w.m_wasInEditorMode ∧
    (w.SaveToFile env fs filePathIn).2.1.m_name =
      fs.GetFileNameNoExtensionFromFilePath (SaveToFile_path fs filePathIn) ∧
    (w.SaveToFile env fs filePathIn).2.1.calls =
      w.calls ++ [Call.Fire Event_World_Save (Variant.int 0)] ∧
    (w.SaveToFile env fs filePathIn).2.2 = fs ∧
    (env.fires (w.calls ++ [Call.Fire Event_World_Save (Variant.int 0)]) = [] →
      (w.SaveToFile env fs filePathIn).2.1.m_state = w.m_state ∧
      (w.SaveToFile env fs filePathIn).2.1.m_is_dirty = w.m_is_dirty) := by
  unfold SaveToFile at h ⊢
  simp only [] at h ⊢
  split
  · refine ⟨invoke_entities _ _ _, invoke_wasInEditorMode _ _ _, invoke_name _ _ _,
      invoke_calls _ _ _, rfl, ?_⟩
    intro hq
    simp [invoke, hq]
  · rename_i hw
    simp [hw] at h

/-- C11, amended, at the sample hierarchy and a file system that refuses the write. -/
theorem C11_witness :
    (World.family.SaveToFile Env.quiet FileSystem.readonly "scn").1 = false ∧
    (World.family.SaveToFile Env.quiet FileSystem.readonly "scn").2.1.m_entities =
      World.family.m_entities ∧
    (World.family.SaveToFile Env.quiet FileSystem.readonly "scn").2.1.calls =
      World.family.calls ++ [Call.Fire Event_World_Save (Variant.int 0)] ∧
    (World.family.SaveToFile Env.quiet FileSystem.readonly "scn").2.1.m_state =
      World.family.m_state :=
  have h := C11_SaveToFile_failure Env.quiet FileSystem.readonly "scn" World.family (by decide)
  ⟨by decide, h.1, h.2.2.2.1, (h.2.2.2.2.2 rfl).1⟩

/-- C12: a successful `World::SaveToFile` leaves at the path a stream holding, in this
order, the number of root entities cast to uint32, the identifiers of the roots in
collection order, and the serialized payload of each root in the same order; the entities
written at the top level are exactly the entities of the collection whose transform has
no parent. -/
theorem C12_SaveToFile_layout (env : Env) (fs : FileSystem) (filePathIn : String) (w : World)
    (h : (w.SaveToFile env fs filePathIn).1 = true) :
    (w.SaveToFile env fs filePathIn).2.2.open_read (SaveToFile_path fs filePathIn) =
      some ([Item.uint32 (w.EntityGetRoots.length % 2 ^ 32)] ++
        w.EntityGetRoots.map (fun root => Item.uint32 root.GetId) ++
        w.EntityGetRoots.flatMap Entity.Serialize) ∧
    w.EntityGetRoots.Sublist w.m_entities ∧
    (∀ e, e ∈ w.EntityGetRoots ↔ e ∈ w.m_entities ∧ e.GetParent = none) := by
  rw [SaveToFile_written env fs filePathIn w h]
  refine ⟨by simp [FileSystem.store], List.filter_sublist _, ?_⟩
  intro e
  simp [EntityGetRoots, Entity.IsRoot]

/-- C12 at the sample hierarchy: two roots, A and D, are written; B and C are not written
at the top level. -/
theorem C12_witness :
    (World.family.SaveToFile Env.quiet FileSystem.blank "scn").1 = true ∧
    World.family.EntityGetRoots = [Entity.sampleA, Entity.sampleD] ∧
    ((World.family.SaveToFile Env.quiet FileSystem.blank "scn").2.2.open_read
      (SaveToFile_path FileSystem.blank "scn") =
      some ([Item.uint32 (World.family.EntityGetRoots.length % 2 ^ 32)] ++
        World.family.EntityGetRoots.map (fun root => Item.uint32 root.GetId) ++
        World.family.EntityGetRoots.flatMap Entity.Serialize) ∧
    World.family.EntityGetRoots.Sublist World.family.m_entities ∧
    (∀ e, e ∈ World.family.EntityGetRoots ↔
      e ∈ World.family.m_entities ∧ e.GetParent = none)) :=
  ⟨by decide, by decide,
    C12_SaveToFile_layout Env.quiet FileSystem.blank "scn" World.family (by decide)⟩

/-! ## Load: order of the notifications -/

theorem LoadFromFile_ids_frame (generated : Nat → Nat) (n i : Nat) (file : List Item) (w : World) :
    (LoadFromFile_ids generated n i file w).1.calls = w.calls ∧
    (LoadFromFile_ids generated n i file w).1.m_is_dirty = w.m_is_dirty ∧
    (LoadFromFile_ids generated n i file w).1.m_state = w.m_state ∧
    (LoadFromFile_ids generated n i file w).1.m_name = w.m_name := by
  induction n generalizing i file w with
  | zero => simp [LoadFromFile_ids]
  | succ n ih =>
    simp only [LoadFromFile_ids]
    obtain ⟨h1, h2, h3, h4⟩ := ih (i + 1) (FileStream.ReadAs_uint32 file).2
      ((w.EntityCreate (generated i) true).updateBack
        (fun e => e.SetId (FileStream.ReadAs_uint32 file).1))
    rw [h1, h2, h3, h4]
    simp [EntityCreate, updateBack]

theorem LoadFromFile_roots_frame (n i : Nat) (file : List Item) (w : World) :
    (LoadFromFile_roots n i file w).1.calls = w.calls ∧
    (LoadFromFile_roots n i file w).1.m_is_dirty = w.m_is_dirty ∧
    (LoadFromFile_roots n i file w).1.m_state = w.m_state ∧
    (LoadFromFile_roots n i file w).1.m_name = w.m_name := by
  induction n generalizing i file w with
  | zero => simp [LoadFromFile_roots]
  | succ n ih =>
    simp only [LoadFromFile_roots]
    obtain ⟨h1, h2, h3, h4⟩ := ih (i + 1) (Entity.Deserialize none file).2
      { w with m_entities := w.m_entities.set i (Entity.Deserialize none file).1 ++
          (Entity.Deserialize none file).1.created }
    rw [h1, h2, h3, h4]
    exact ⟨rfl, rfl, rfl, rfl⟩

theorem LoadFromFile_wait_frame (env : Env) (sched : List Sleep) (r : Bool) (w w1 : World)
    (h : w.LoadFromFile_wait env r sched = some w1) :
    w1.calls = w.calls ∧ w1.m_is_dirty = w.m_is_dirty ∧ w1.m_name = w.m_name := by
  induction sched generalizing r w with
  | nil =>
    unfold LoadFromFile_wait at h
    split at h
    · simp at h
    · simp only [Option.some.injEq] at h
      subst h
      exact ⟨rfl, rfl, rfl⟩
  | cons s rest ih =>
    unfold LoadFromFile_wait at h
    split at h
    · obtain ⟨h1, h2, h3⟩ := ih _ _ h
      obtain ⟨_, t2, t3, t4⟩ := TickAll_calls_of_not_Ticking env s.ticks
        { w with m_state := Request_Loading } (Or.inl rfl)
      exact ⟨h1.trans t2, h2.trans t3, h3.trans t4⟩
    · simp only [Option.some.injEq] at h
      subst h
      exact ⟨rfl, rfl, rfl⟩

theorem LoadFromFile_load_calls (env : Env) (fs : FileSystem) (generated : Nat → Nat)
    (path : String) (w w2 : World)
    (h : w.LoadFromFile_load env fs generated path = (true, w2)) :
    ∃ w4 : World, w4.m_state = Ticking ∧ w4.m_is_dirty = true ∧
      w4.calls = w.calls ++ [Call.Fire Event_World_Unload (Variant.int 0),
        Call.Fire Event_World_Load (Variant.int 0)] ∧
      w2 = w4.invoke env (Call.Fire Event_World_Loaded (Variant.int 0)) := by
  unfold LoadFromFile_load at h
  split at h
  · simp at h
  · simp only [Prod.mk.injEq, true_and] at h
    refine ⟨_, rfl, rfl, ?_, h.symm⟩
    simp only []
    rw [(LoadFromFile_roots_frame _ _ _ _).1, (LoadFromFile_ids_frame _ _ _ _ _).1,
      invoke_calls]
    simp [Unload, invoke_calls]

/-- C13, as stated, fails: in the successful load of the sample hierarchy the first
notification fired is `Event_World_Unload`, and `Event_World_Load` comes second. -/
theorem C13_counterexample :
    World.family.calls = [] ∧
    (World.family.LoadFromFile Env.quiet FileSystem.saved (fun i => 100 + i) false
      Sleep.sample "scn.world").map (fun r => (r.1, r.2.calls)) =
      some (true, [Call.Fire Event_World_Unload (Variant.int 0),
        Call.Fire Event_World_Load (Variant.int 0),
        Call.Fire Event_World_Loaded (Variant.int 0)]) := by
  decide

/-- C13, amended: during every successful `World::LoadFromFile` exactly three notifications
are fired, in this order: `Event_World_Unload` (when the current world is cleared), then
`Event_World_Load`, then `Event_World_Loaded`, the last one after the state has been set to
Ticking and the dirty flag set. -/
theorem C13_LoadFromFile_notifications (env : Env) (fs : FileSystem) (generated : Nat → Nat)
    (r0 : Bool) (sched : List Sleep) (path : String) (w w2 : World)
    (hok : w.LoadFromFile env fs generated r0 sched path = some (true, w2)) :
    w2.calls = w.calls ++ [Call.Fire Event_World_Unload (Variant.int 0),
      Call.Fire Event_World_Load (Variant.int 0),
      Call.Fire Event_World_Loaded (Variant.int 0)] ∧
    ∃ w4 : World, w4.m_state = Ticking ∧ w4.m_is_dirty = true ∧
      w4.calls = w.calls ++ [Call.Fire Event_World_Unload (Variant.int 0),
        Call.Fire Event_World_Load (Variant.int 0)] ∧
      w2 = w4.invoke env (Call.Fire Event_World_Loaded (Variant.int 0)) := by
  unfold LoadFromFile at hok
  split at hok
  · simp at hok
  · split at hok
    · simp at hok
    · rename_i w1 hw
      simp only [Option.some.injEq] at hok
      obtain ⟨w4, f1, f2, f3, f4⟩ := LoadFromFile_load_calls env fs generated path w1 w2 hok
      have hc := (LoadFromFile_wait_frame env sched r0 w w1 hw).1
      rw [hc] at f3
      refine ⟨?_, w4, f1, f2, f3, f4⟩
      rw [f4, invoke_calls, f3]
      simp

/-- C13, amended, at the load of the sample hierarchy. -/
theorem C13_witness :
    World.family.LoadFromFile Env.quiet FileSystem.saved (fun i => 100 + i) false
      Sleep.sample "scn.world" = some (true, World.reloaded) ∧
    World.reloaded.calls = World.family.calls ++ [Call.Fire Event_World_Unload (Variant.int 0),
      Call.Fire Event_World_Load (Variant.int 0),
      Call.Fire Event_World_Loaded (Variant.int 0)] :=
  ⟨by decide,
    (C13_LoadFromFile_notifications Env.quiet FileSystem.saved (fun i => 100 + i) false
      Sleep.sample "scn.world" World.family World.reloaded (by decide)).1⟩

/-! ## The dirty flag -/

theorem foldl_invoke_dirty (env : Env) (f : Entity → Call) (l : List Entity) (w : World)
    (h : w.m_is_dirty = true) :
    (l.foldl (fun acc e => acc.invoke env (f e)) w).m_is_dirty = true := by
  induction l generalizing w with
  | nil => exact h
  | cons e rest ih => exact ih _ (invoke_dirty env _ w h)

theorem TickEntities_dirty (env : Env) (engine : Engine) (dt : Nat) (w : World)
    (h : w.m_is_dirty = true) : (w.TickEntities env engine dt).m_is_dirty = true := by
  unfold TickEntities forEntities
  apply foldl_invoke_dirty
  split
  · apply foldl_invoke_dirty
    split
    · apply foldl_invoke_dirty
      exact h
    · exact h
  · split
    · apply foldl_invoke_dirty
      exact h
    · exact h

theorem Tick_ticking_dirty (env : Env) (engine : Engine) (dt : Nat) (w : World)
    (hs : w.m_state = Ticking) (h : w.m_is_dirty = true) :
    (w.Tick env engine dt).m_is_dirty = false ∧
    (w.Tick env engine dt).calls = w.calls ++ w.entityCalls engine dt ++
      [Call.Fire Event_World_Resolve_Complete (Variant.entities w.m_entities)] := by
  have hd := TickEntities_dirty env engine dt w h
  refine ⟨?_, ?_⟩
  · unfold Tick
    simp [hs, hd]
  · rw [Tick_ticking_calls env engine dt w hs]
    simp [hd]

theorem EntityRemove_entity_dirty (e : Entity) (w : World) :
    (EntityRemove_entity e w).m_is_dirty = true := by
  cases e
  unfold EntityRemove_entity
  rfl

theorem SaveToFile_dirty (env : Env) (fs : FileSystem) (filePathIn : String) (w : World)
    (h : w.m_is_dirty = true) : (w.SaveToFile env fs filePathIn).2.1.m_is_dirty = true := by
  unfold SaveToFile
  simp only []
  split
  · exact invoke_dirty env _ _ h
  · exact invoke_dirty env _ _ (invoke_dirty env _ _ h)

theorem LoadFromFile_load_dirty (env : Env) (fs : FileSystem) (generated : Nat → Nat)
    (path : String) (w : World) :
    (w.LoadFromFile_load env fs generated path).2.m_is_dirty = true := by
  unfold LoadFromFile_load
  split
  · rfl
  · exact invoke_dirty env _ _ rfl

/-- C14, as stated, fails: `EntityAdd` of a non-null entity to a world whose dirty flag is
clear leaves the flag clear. -/
theorem C14_counterexample :
    (World.sample Ticking false false).m_is_dirty = false ∧
    ((World.sample Ticking false false).EntityAdd (some Entity.sampleD)).m_entities.length = 3 ∧
    ((World.sample Ticking false false).EntityAdd (some Entity.sampleD)).m_is_dirty = false := by
  decide

/-- C14, amended: the dirty flag is set after `EntityRemove` of a non-null entity and after
`Unload`; `EntityAdd` leaves the flag as it was; and a flag that is set stays set through
every operation of `World`, except a `World::Tick` in state Ticking, which fires the
resolve notification (with the entity collection) as its last call and clears the flag. -/
theorem C14_dirty_flag (env : Env) (w : World) :
    (∀ e : Entity, (w.EntityRemove (some e)).m_is_dirty = true) ∧
    (w.Unload env).m_is_dirty = true ∧
    (∀ e : Option Entity, (w.EntityAdd e).m_is_dirty = w.m_is_dirty) ∧
    (∀ (op : Operation) (w2 : World), w.m_is_dirty = true → w.perform env op = some w2 →
      w2.m_is_dirty = true ∨
      ∃ engine dt, op = Operation.Tick engine dt ∧ w.m_state = Ticking ∧
        w2.m_is_dirty = false ∧
        w2.calls = w.calls ++ w.entityCalls engine dt ++
          [Call.Fire Event_World_Resolve_Complete (Variant.entities w.m_entities)]) := by
  refine ⟨fun e => EntityRemove_entity_dirty e w, rfl, ?_, ?_⟩
  · intro e
    cases e <;> rfl
  · intro op w2 hd hop
    cases op with
    | Tick engine dt =>
      simp only [perform, Option.some.injEq] at hop
      subst hop
      by_cases hs : w.m_state = Ticking
      · exact Or.inr ⟨engine, dt, rfl, hs, Tick_ticking_dirty env engine dt w hs hd⟩
      · left
        rw [Tick_of_not_Ticking env engine dt w hs]
        exact hd
    | EntityCreate g a =>
      simp only [perform, Option.some.injEq] at hop
      subst hop
      exact Or.inl hd
    | EntityAdd e =>
      simp only [perform, Option.some.injEq] at hop
      subst hop
      left
      cases e <;> exact hd
    | EntityRemove e =>
      simp only [perform, Option.some.injEq] at hop
      subst hop
      left
      cases e with
      | none => exact hd
      | some x => exact EntityRemove_entity_dirty x w
    | Unload =>
      simp only [perform, Option.some.injEq] at hop
      subst hop
      exact Or.inl rfl
    | SaveToFile fs filePathIn =>
      simp only [perform, Option.some.injEq] at hop
      subst hop
      exact Or.inl (SaveToFile_dirty env fs filePathIn w hd)
    | LoadFromFile fs generated r0 sched path =>
      left
      simp only [perform, LoadFromFile] at hop
      split at hop
      · simp only [Option.map_some', Option.some.injEq] at hop
        subst hop
        exact hd
      · split at hop
        · simp at hop
        · simp only [Option.map_some', Option.some.injEq] at hop
          subst hop
          exact LoadFromFile_load_dirty env fs generated path _

/-- C14, amended, at a dirty two-entity world in state Ticking: removal keeps the flag set,
and the tick fires the resolve notification last and clears the flag. -/
theorem C14_witness :
    (World.sample Ticking true true).m_is_dirty = true ∧
    ((World.sample Ticking true true).EntityRemove (some (Entity.sample 1 "A"))).m_is_dirty =
      true ∧
    ((World.sample Ticking true true).Tick Env.quiet ⟨2⟩ 16).m_is_dirty = false ∧
    ((World.sample Ticking true true).Tick Env.quiet ⟨2⟩ 16).calls.getLast? =
      some (Call.Fire Event_World_Resolve_Complete
        (Variant.entities (World.sample Ticking true true).m_entities)) ∧
    (((World.sample Ticking true true).Tick Env.quiet ⟨2⟩ 16).m_is_dirty = true ∨
      ∃ engine dt, Operation.Tick ⟨2⟩ 16 = Operation.Tick engine dt ∧
        (World.sample Ticking true true).m_state = Ticking ∧
        ((World.sample Ticking true true).Tick Env.quiet ⟨2⟩ 16).m_is_dirty = false ∧
        ((World.sample Ticking true true).Tick Env.quiet ⟨2⟩ 16).calls =
          (World.sample Ticking true true).calls ++
            (World.sample Ticking true true).entityCalls engine dt ++
            [Call.Fire Event_World_Resolve_Complete
              (Variant.entities (World.sample Ticking true true).m_entities)]) :=
  have h := C14_dirty_flag Env.quiet (World.sample Ticking true true)
  ⟨rfl, h.1 (Entity.sample 1 "A"), by decide, by decide,
    h.2.2.2 (Operation.Tick ⟨2⟩ 16) _ rfl rfl⟩

end World

/-! ## Thread pool -/

namespace Threading

theorem count_inflight_set (a : Nat) (ws : List Worker) (i : Nat) (w w2 : Worker)
    (h : ws[i]? = some w) :
    (inflight (ws.set i w2)).count a + (held w).count a =
      (inflight ws).count a + (held w2).count a := by
  induction ws generalizing i with
  | nil => simp at h
  | cons x xs ih =>
    cases i with
    | zero =>
      simp only [List.getElem?_cons_zero, Option.some.injEq] at h
      subst h
      simp only [inflight, List.set_cons_zero, List.flatMap_cons, List.count_append]
      omega
    | succ i =>
      simp only [List.getElem?_cons_succ] at h
      have := ih i h
      simp only [inflight, List.set_cons_succ, List.flatMap_cons, List.count_append] at this ⊢
      omega

theorem inflight_of_joined (ws : List Worker) (h : ∀ w ∈ ws, w = Worker.returned) :
    inflight ws = [] := by
  induction ws with
  | nil => rfl
  | cons x xs ih =>
    have hx := h x (List.mem_cons_self _ _)
    subst hx
    simp only [inflight, List.flatMap_cons, held, List.nil_append]
    exact ih (fun w hw => h w (List.mem_cons_of_mem _ hw))

theorem Accounted_step (tasks : List Nat) (i : Nat) (p : Pool) (h : Accounted tasks p) :
    Accounted tasks (step i p) := by
  unfold step
  cases hw : p.m_threads[i]? with
  | none => exact h
  | some w =>
    obtain ⟨hc, hr⟩ := h
    cases w with
    | returned =>
      have hmem : Worker.returned ∈ p.m_threads := List.getElem?_mem hw
      refine ⟨fun a => ?_, fun _ => hr hmem⟩
      have h1 := count_inflight_set a p.m_threads i _ Worker.returned hw
      have h2 := hc a
      simp only [Invoke]
      omega
    | executing t =>
      refine ⟨fun a => ?_, fun hm => ?_⟩
      · have h1 := count_inflight_set a p.m_threads i _ Worker.waiting hw
        have h2 := hc a
        simp only [held, List.count_nil, List.count_singleton] at h1
        simp only [Invoke, List.count_append, List.count_singleton]
        omega
      · simp only [Invoke] at hm ⊢
        rcases List.mem_or_eq_of_mem_set hm with hm | hm
        · exact hr hm
        · cases hm
    | waiting =>
      simp only [Invoke]
      by_cases hpred : (!(!p.m_tasks.isEmpty || p.m_stopping)) = true
      · simp only [hpred, if_true]
        refine ⟨fun a => ?_, fun hm => ?_⟩
        · have h1 := count_inflight_set a p.m_threads i _ Worker.waiting hw
          have h2 := hc a
          dsimp only
          omega
        · rcases List.mem_or_eq_of_mem_set hm with hm | hm
          · exact hr hm
          · cases hm
      · simp only [hpred, Bool.false_eq_true, if_false]
        by_cases hret : (p.m_stopping && p.m_tasks.isEmpty) = true
        · simp only [hret, if_true]
          simp only [Bool.and_eq_true, List.isEmpty_iff] at hret
          refine ⟨fun a => ?_, fun _ => ⟨hret.2, hret.1⟩⟩
          have h1 := count_inflight_set a p.m_threads i _ Worker.returned hw
          have h2 := hc a
          simp only [held, List.count_nil] at h1
          dsimp only
          omega
        · simp only [hret, Bool.false_eq_true, if_false]
          cases hq : p.m_tasks with
          | nil =>
            refine ⟨fun a => ?_, fun hm => ?_⟩
            · have h1 := count_inflight_set a p.m_threads i _ Worker.waiting hw
              have h2 := hc a
              dsimp only
              omega
            · rcases List.mem_or_eq_of_mem_set hm with hm | hm
              · exact hr hm
              · cases hm
          | cons t rest =>
            refine ⟨fun a => ?_, fun hm => ?_⟩
            · have h1 := count_inflight_set a p.m_threads i _ (Worker.executing t) hw
              have h2 := hc a
              rw [hq] at h2
              simp only [held, List.count_nil, List.count_singleton, List.count_cons] at h1 h2
              dsimp only
              omega
            · rcases List.mem_or_eq_of_mem_set hm with hm | hm
              · have := (hr hm).1
                rw [hq] at this
                cases this
              · cases hm

theorem Accounted_run (tasks : List Nat) (sched : List Action) (p : Pool)
    (h : Accounted tasks p) : Accounted tasks (run sched p) := by
  induction sched generalizing p with
  | nil => exact h
  | cons a rest ih =>
    apply ih
    cases a with
    | worker i => exact Accounted_step tasks i p h
    | destructor => exact ⟨h.1, fun hm => ⟨(h.2 hm).1, rfl⟩⟩

theorem length_threads_step (i : Nat) (p : Pool) :
    (step i p).m_threads.length = p.m_threads.length := by
  unfold step
  cases hw : p.m_threads[i]? with
  | none => rfl
  | some w =>
    cases w with
    | returned => simp [Invoke]
    | executing t => simp [Invoke]
    | waiting =>
      simp only [Invoke]
      split
      · simp
      · split
        · simp
        · split <;> simp

theorem length_threads_run (sched : List Action) (p : Pool) :
    (run sched p).m_threads.length = p.m_threads.length := by
  induction sched generalizing p with
  | nil => rfl
  | cons a rest ih =>
    show (run rest (act p a)).m_threads.length = _
    rw [ih]
    cases a with
    | worker i => exact length_threads_step i p
    | destructor => rfl

theorem Accounted_queued (tasks : List Nat) (n : Nat) : Accounted tasks (queued tasks n) := by
  have hin : inflight (List.replicate n Worker.waiting) = [] := by
    induction n with
    | zero => rfl
    | succ n _ => simp [inflight, List.replicate_succ, held]
  refine ⟨fun a => ?_, fun hm => ?_⟩
  · simp [queued, hin]
  · simp only [queued] at hm
    cases (List.eq_of_mem_replicate hm)

/-- C16: with N tasks queued and at least one worker, in every execution (every order in
which the workers pass through the locked section and execute, with the destructor setting
the stopping flag at any point) that ends with all workers joined, the executed tasks are
the N queued tasks, each as often as it was queued, no task is left in the queue and none
is held by a worker. -/
theorem C16_each_task_executed_once (tasks : List Nat) (n : Nat) (hn : 1 ≤ n)
    (sched : List Action) (hj : joined (run sched (queued tasks n))) :
    (run sched (queued tasks n)).executed.Perm tasks ∧
    (run sched (queued tasks n)).m_tasks = [] ∧
    inflight (run sched (queued tasks n)).m_threads = [] := by
  obtain ⟨hc, hr⟩ := Accounted_run tasks sched _ (Accounted_queued tasks n)
  have hlen : (run sched (queued tasks n)).m_threads.length = n := by
    rw [length_threads_run]
    simp [queued]
  have hin := inflight_of_joined _ hj
  have hex : Worker.returned ∈ (run sched (queued tasks n)).m_threads := by
    cases hth : (run sched (queued tasks n)).m_threads with
    | nil =>
      rw [hth] at hlen
      simp at hlen
      omega
    | cons w ws =>
      have := hj w (by rw [hth]; exact List.mem_cons_self _ _)
      rw [this]
      exact List.mem_cons_self _ _
  have hq := (hr hex).1
  refine ⟨?_, hq, hin⟩
  rw [List.perm_iff_count]
  intro a
  have := hc a
  rw [hin, hq] at this
  simpa using this

/-- C16 on three tasks and two workers: the sample execution ends with both workers joined
and the tasks executed in the order 8, 7, 9. -/
theorem C16_witness :
    joined (run sampleRun (queued [7, 8, 9] 2)) ∧
    (run sampleRun (queued [7, 8, 9] 2)).executed = [8, 7, 9] ∧
    ((run sampleRun (queued [7, 8, 9] 2)).executed.Perm [7, 8, 9] ∧
      (run sampleRun (queued [7, 8, 9] 2)).m_tasks = [] ∧
      inflight (run sampleRun (queued [7, 8, 9] 2)).m_threads = []) :=
  ⟨by decide, by decide,
    C16_each_task_executed_once [7, 8, 9] 2 (by decide) sampleRun (by decide)⟩

/-- C17: a worker that has not returned returns in a pass only from the top of its loop
and only when the stopping flag is set and the queue is empty; whenever the queue is not
empty and the worker is at the top of its loop, whether or not the stopping flag is set,
its pass removes the front task of the queue and holds it, and its next pass executes
that task. -/
theorem C17_return_only_when_drained (p : Pool) :
    (∀ w : Worker, w ≠ Worker.returned → (Invoke p w).2 = Worker.returned →
      w = Worker.waiting ∧ p.m_stopping = true ∧ p.m_tasks = [] ∧ (Invoke p w).1 = p) ∧
    (∀ (t : Nat) (rest : List Nat), p.m_tasks = t :: rest →
      Invoke p Worker.waiting = ({ p with m_tasks := rest }, Worker.executing t)) ∧
    (∀ (t : Nat) (q : Pool), Invoke q (Worker.executing t) =
      ({ q with executed := q.executed ++ [t] }, Worker.waiting)) := by
  refine ⟨?_, ?_, fun t q => rfl⟩
  · intro w hw hret
    cases w with
    | returned => exact absurd rfl hw
    | executing t => simp [Invoke] at hret
    | waiting =>
      simp only [Invoke] at hret ⊢
      split at hret
      · cases hret
      · split at hret
        · rename_i hpred hs
          simp only [Bool.and_eq_true, List.isEmpty_iff] at hs
          simp [hs.1, hs.2]
        · split at hret <;> cases hret
  · intro t rest hq
    simp [Invoke, hq]

/-- C17 at a pool whose stopping flag is set while two tasks are queued: the worker does
not return, it takes the front task 7 and then executes it. -/
theorem C17_witness :
    Invoke ⟨[7, 8], true, [Worker.waiting], []⟩ Worker.waiting =
      (⟨[8], true, [Worker.waiting], []⟩, Worker.executing 7) ∧
    Invoke ⟨[8], true, [Worker.waiting], []⟩ (Worker.executing 7) =
      (⟨[8], true, [Worker.waiting], [7]⟩, Worker.waiting) ∧
    Invoke ⟨[], true, [Worker.waiting], [7, 8]⟩ Worker.waiting =
      (⟨[], true, [Worker.waiting], [7, 8]⟩, Worker.returned) :=
  have h := C17_return_only_when_drained ⟨[7, 8], true, [Worker.waiting], []⟩
  ⟨h.2.1 7 [8] rfl, h.2.2 7 ⟨[8], true, [Worker.waiting], []⟩, by decide⟩

/-- C18, the code at the failing input: when the hardware-concurrency query returns 0 the
thread count is 0 - 1 in unsigned 32-bit arithmetic, 4294967295, and the constructor makes
that many workers, which is not fewer than 0. -/
theorem C18_zero_hardware_concurrency :
    thread_count 0 = 4294967295 ∧
    (create 0).m_threads.length = 4294967295 ∧
    ¬ (create 0).m_threads.length < 0 := by
  refine ⟨by decide, ?_, by simp⟩
  simp only [create, List.length_replicate]
  decide

theorem thread_count_of_pos (h : Nat) (h1 : 1 ≤ h) (h2 : h < 2 ^ 32) :
    thread_count h = h - 1 ∧ (create h).m_threads.length = h - 1 ∧ h - 1 < h := by
  have : thread_count h = h - 1 := by
    unfold thread_count
    rw [Nat.mod_eq_of_lt h2]
    omega
  refine ⟨this, ?_, by omega⟩
  simp [create, this]

end Threading

/-! ## Event dispatch -/

namespace EventSystem

theorem Fire_Subscribe (e event_id : Event_Type) (function : Nat) (data : Variant)
    (es : EventSystem) :
    (es.Subscribe event_id function).Fire e data =
      es.Fire e data ++ (if event_id = e then [(function, data)] else []) := by
  unfold Fire Subscribe
  by_cases h : e = event_id
  · subst h
    cases hs : es.m_subscribers e <;> simp [hs]
  · have h2 : ¬ event_id = e := fun h3 => h h3.symm
    simp only [h, h2, if_false]
    cases hs : es.m_subscribers e <;> simp

theorem Fire_SubscribeAll (e : Event_Type) (data : Variant) (history : List (Event_Type × Nat))
    (es : EventSystem) :
    (es.SubscribeAll history).Fire e data =
      es.Fire e data ++ (history.filter (fun s => s.1 = e)).map (fun s => (s.2, data)) := by
  induction history generalizing es with
  | nil => simp [SubscribeAll]
  | cons s rest ih =>
    have := ih (es.Subscribe s.1 s.2)
    simp only [SubscribeAll, List.foldl_cons] at this ⊢
    rw [this, Fire_Subscribe]
    by_cases h : s.1 = e
    · simp [List.filter_cons, h]
    · simp [List.filter_cons, h]

/-- C19: after any history of `Subscribe` calls, `Fire(e, data)` makes exactly one call per
subscription to `e`, in the order of subscription, each with the payload `data`, and no
call to a handler subscribed to another event; with no subscription to `e` it makes no
call. The calls are the result of `Fire`, so they are made before it returns. -/
theorem C19_Fire_calls_subscribers_in_order (history : List (Event_Type × Nat))
    (e : Event_Type) (data : Variant) :
    (empty.SubscribeAll history).Fire e data =
      (history.filter (fun s => s.1 = e)).map (fun s => (s.2, data)) ∧
    ((∀ s ∈ history, s.1 ≠ e) → (empty.SubscribeAll history).Fire e data = []) := by
  have h := Fire_SubscribeAll e data history empty
  have h0 : empty.Fire e data = [] := rfl
  rw [h0, List.nil_append] at h
  refine ⟨h, fun hne => ?_⟩
  rw [h]
  have : history.filter (fun s => decide (s.1 = e)) = [] := by
    rw [List.filter_eq_nil_iff]
    intro s hs
    simpa using hne s hs
  rw [this]
  rfl

/-- C19 on a history of three subscriptions: firing `Event_World_Save` calls the handlers
1 and 3, in that order, and not the handler 2 of `Event_World_Load`. -/
theorem C19_witness :
    (empty.SubscribeAll [(Event_World_Save, 1), (Event_World_Load, 2),
      (Event_World_Save, 3)]).Fire Event_World_Save (Variant.int 5) =
        [(1, Variant.int 5), (3, Variant.int 5)] ∧
    (empty.SubscribeAll [(Event_World_Save, 1), (Event_World_Load, 2),
      (Event_World_Save, 3)]).Fire Event_World_Unload (Variant.int 5) = [] :=
  have h := C19_Fire_calls_subscribers_in_order
    [(Event_World_Save, 1), (Event_World_Load, 2), (Event_World_Save, 3)]
  ⟨(h Event_World_Save (Variant.int 5)).1,
    (h Event_World_Unload (Variant.int 5)).2 (by decide)⟩

end EventSystem

/-! ## Resource lookup -/

namespace ResourceCache

/-- C20, as stated, fails: for the empty name and a bucket holding a resource without a
name, `GetByName` returns that resource while `IsCached` returns false. -/
theorem C20_counterexample :
    sample.IsCached "" 1 = false ∧
    sample.GetByName "" 1 = some ⟨"", "", 1, 8⟩ := by
  decide

/-- C20, amended: for every name that is not empty, `IsCached(name, type)` is true exactly
when `GetByName(name, type)` returns a non-empty handle; for every name `GetByName` returns
the first resource of the bucket whose name equals the given name, and the empty handle
when no resource of the bucket has that name; for the empty name `IsCached` returns
false. -/
theorem C20_IsCached_iff_GetByName (rc : ResourceCache) (name : String) (type : Nat) :
    (name ≠ "" → rc.IsCached name type = (rc.GetByName name type).isSome) ∧
    (∀ r, rc.GetByName name type = some r ↔
      ∃ before after, rc.m_resource_groups type = before ++ r :: after ∧
        r.m_resource_name = name ∧ ∀ x ∈ before, x.m_resource_name ≠ name) ∧
    ((∀ x ∈ rc.m_resource_groups type, x.m_resource_name ≠ name) →
      rc.GetByName name type = none) ∧
    rc.IsCached "" type = false := by
  refine ⟨?_, ?_, ?_, by simp [IsCached]⟩
  · intro hne
    simp only [IsCached, hne, if_false, GetByName]
    cases hf : List.find? (fun resource => decide (name = resource.m_resource_name))
        (rc.m_resource_groups type) with
    | none =>
      rw [List.find?_eq_none] at hf
      simp only [Option.isSome_none, List.any_eq_false]
      exact hf
    | some r =>
      have h1 := List.find?_some hf
      have h2 := List.mem_of_find?_eq_some hf
      simp only [Option.isSome_some, List.any_eq_true]
      exact ⟨r, h2, h1⟩
  · intro r
    unfold GetByName
    rw [List.find?_eq_some]
    constructor
    · rintro ⟨h1, before, after, h2, h3⟩
      refine ⟨before, after, h2, (of_decide_eq_true h1).symm, ?_⟩
      intro x hx hn
      have := h3 x hx
      simp [hn] at this
    · rintro ⟨before, after, h2, h3, h4⟩
      refine ⟨by simp [h3], before, after, h2, ?_⟩
      intro x hx
      have := h4 x hx
      simp only [Bool.not_eq_eq_eq_not, Bool.not_true, decide_eq_false_iff_not]
      exact fun h => this h.symm
  · intro hno
    unfold GetByName
    rw [List.find?_eq_none]
    intro x hx
    have := hno x hx
    simp only [decide_eq_true_eq]
    exact fun h => this h.symm

/-- C20, amended, at the sample cache: "wood" is cached and found, "stone" is neither. -/
theorem C20_witness :
    sample.IsCached "wood" 1 = true ∧
    sample.IsCached "wood" 1 = (sample.GetByName "wood" 1).isSome ∧
    sample.GetByName "wood" 1 = some ⟨"wood", "wood.png", 1, 64⟩ ∧
    sample.GetByName "stone" 1 = none :=
  have h := C20_IsCached_iff_GetByName sample
  ⟨by decide, (h "wood" 1).1 (by decide), by decide, (h "stone" 1).2.2.1 (by decide)⟩

end ResourceCache

/-! ## Re-parenting keeps the hierarchy acyclic -/

namespace Hierarchy

theorem up_add (g : Hierarchy) (a b n : Nat) :
    g.up (a + b) n = (g.up a n).bind (g.up b) := by
  induction a generalizing n with
  | zero => simp [up]
  | succ a ih =>
    rw [Nat.succ_add]
    simp only [up]
    cases g.m_parent n with
    | none => rfl
    | some p => exact ih p

theorem up_none_of_le (g : Hierarchy) (k k2 n : Nat) (hk : k ≤ k2) (h : g.up k n = none) :
    g.up k2 n = none := by
  obtain ⟨d, rfl⟩ := Nat.exists_eq_add_of_le hk
  rw [up_add, h]
  rfl

theorem up_succ_some (g : Hierarchy) (k n x : Nat) (h : g.up (k + 1) n = some x) :
    ∃ y, g.up k n = some y ∧ g.m_parent y = some x := by
  rw [up_add] at h
  cases hy : g.up k n with
  | none => simp [hy] at h
  | some y =>
    refine ⟨y, rfl, ?_⟩
    simp only [hy, Option.some_bind, up] at h
    cases hp : g.m_parent y with
    | none => simp [hp] at h
    | some q => simpa [hp] using h

theorem up_loop (g : Hierarchy) (d y : Nat) (h : g.up d y = some y) (m : Nat) :
    g.up (m * d) y = some y := by
  induction m with
  | zero => simp [up]
  | succ m ih =>
    rw [Nat.succ_mul, up_add, ih]
    exact h

theorem up_bound (g : Hierarchy) (ho : g.Owned) (ha : g.Acyclic) (n : Nat) :
    g.up (g.m_entities.length + 1) n = none := by
  by_contra hne
  have hsome : ∀ i, i ≤ g.m_entities.length + 1 → ∃ y, g.up i n = some y := by
    intro i hi
    cases hy : g.up i n with
    | none => exact absurd (up_none_of_le g i _ n hi hy) hne
    | some y => exact ⟨y, rfl⟩
  have hmem : ∀ i ∈ Finset.range (g.m_entities.length + 1),
      (g.up i n).getD 0 ∈ g.m_entities.toFinset := by
    intro i hi
    have hi2 : i + 1 ≤ g.m_entities.length + 1 := by
      have := Finset.mem_range.mp hi
      omega
    obtain ⟨x, hx⟩ := hsome (i + 1) hi2
    obtain ⟨y, hy, hp⟩ := up_succ_some g i n x hx
    rw [hy]
    exact List.mem_toFinset.mpr (ho y x hp)
  have hcard : g.m_entities.toFinset.card < (Finset.range (g.m_entities.length + 1)).card := by
    rw [Finset.card_range]
    exact Nat.lt_succ_of_le (List.toFinset_card_le _)
  obtain ⟨i, hi, j, hj, hij, hf⟩ := Finset.exists_ne_map_eq_of_card_lt_of_maps_to hcard hmem
  have key : ∀ a b : Nat, a < b → b ≤ g.m_entities.length →
      (g.up a n).getD 0 = (g.up b n).getD 0 → False := by
    intro a b hab hb hfab
    obtain ⟨ya, hya⟩ := hsome a (by omega)
    obtain ⟨yb, hyb⟩ := hsome b (by omega)
    rw [hya, hyb] at hfab
    simp only [Option.getD_some] at hfab
    subst hfab
    obtain ⟨d, rfl⟩ := Nat.exists_eq_add_of_lt hab
    have hloop : g.up (d + 1) ya = some ya := by
      have := up_add g a (d + 1) n
      rw [hya] at this
      simp only [Option.some_bind] at this
      rw [← this, ← hyb]
      congr 1
    obtain ⟨k, hk⟩ := ha ya
    have h1 := up_loop g (d + 1) ya hloop k
    have h2 := up_none_of_le g k (k * (d + 1)) ya (Nat.le_mul_of_pos_right k (by omega)) hk
    rw [h1] at h2
    cases h2
  have hi2 := Finset.mem_range.mp hi
  have hj2 := Finset.mem_range.mp hj
  rcases Nat.lt_or_gt_of_ne hij with hlt | hgt
  · exact key i j hlt (by omega) hf
  · exact key j i hgt (by omega) hf.symm

theorem isDescendantOfWithin_iff (g : Hierarchy) (fuel a b : Nat) :
    g.isDescendantOfWithin fuel a b = true ↔ ∃ k, 1 ≤ k ∧ k ≤ fuel ∧ g.up k a = some b := by
  induction fuel generalizing a with
  | zero =>
    simp only [isDescendantOfWithin, Bool.false_eq_true, false_iff]
    rintro ⟨k, h1, h2, _⟩
    omega
  | succ fuel ih =>
    simp only [isDescendantOfWithin]
    cases hp : g.m_parent a with
    | none =>
      simp only [Bool.false_eq_true, false_iff]
      rintro ⟨k, h1, _, h3⟩
      obtain ⟨k, rfl⟩ := Nat.exists_eq_add_of_le h1
      rw [Nat.add_comm] at h3
      simp [up, hp] at h3
    | some p =>
      simp only [Bool.or_eq_true, beq_iff_eq, ih]
      constructor
      · rintro (rfl | ⟨k, h1, h2, h3⟩)
        · exact ⟨1, le_refl 1, by omega, by simp [up, hp]⟩
        · exact ⟨k + 1, by omega, by omega, by simp [up, hp, h3]⟩
      · rintro ⟨k, h1, h2, h3⟩
        obtain ⟨k, rfl⟩ := Nat.exists_eq_add_of_le h1
        rw [Nat.add_comm] at h3
        simp only [up, hp] at h3
        cases k with
        | zero =>
          left
          simpa [up] using h3
        | succ k => exact Or.inr ⟨k + 1, by omega, by omega, h3⟩

theorem IsDescendantOf_iff (g : Hierarchy) (ho : g.Owned) (ha : g.Acyclic) (a b : Nat) :
    g.IsDescendantOf a b = true ↔ ∃ k, 1 ≤ k ∧ g.up k a = some b := by
  unfold IsDescendantOf
  rw [isDescendantOfWithin_iff]
  constructor
  · rintro ⟨k, h1, _, h3⟩
    exact ⟨k, h1, h3⟩
  · rintro ⟨k, h1, h3⟩
    refine ⟨k, h1, ?_, h3⟩
    by_contra hgt
    have := up_none_of_le g (g.m_entities.length + 1) k a (by omega) (up_bound g ho ha a)
    rw [this] at h3
    cases h3

theorem Acyclic_of_agree (g g2 : Hierarchy) (c : Nat) (ha : g.Acyclic)
    (hc : ∃ k, g2.up k c = none) (hag : ∀ n, n ≠ c → g2.m_parent n = g.m_parent n) :
    g2.Acyclic := by
  intro n
  obtain ⟨k0, hk0⟩ := ha n
  induction k0 generalizing n with
  | zero => simp [up] at hk0
  | succ k0 ih =>
    by_cases hn : n = c
    · rw [hn]
      exact hc
    · simp only [up] at hk0
      cases hp : g.m_parent n with
      | none => exact ⟨1, by simp [up, hag n hn, hp]⟩
      | some q =>
        rw [hp] at hk0
        obtain ⟨k, hk⟩ := ih q hk0
        exact ⟨k + 1, by simp [up, hag n hn, hp, hk]⟩

theorem up_setParentOf_of_off (g : Hierarchy) (c : Nat) (parent : Option Nat) (k n : Nat)
    (hoff : ∀ j, g.up j n ≠ some c) :
    (g.setParentOf c parent).up k n = g.up k n := by
  induction k generalizing n with
  | zero => rfl
  | succ k ih =>
    have hn : n ≠ c := fun h => hoff 0 (by simp [up, h])
    simp only [up, setParentOf, hn, if_false]
    cases hp : g.m_parent n with
    | none => rfl
    | some q =>
      apply ih
      intro j hj
      apply hoff (j + 1)
      simp [up, hp, hj]

theorem SetParent_keeps (g : Hierarchy) (ho : g.Owned) (ha : g.Acyclic) (child : Nat)
    (hchild : child ∈ g.m_entities) (new_parent : Option Nat) :
    (g.SetParent child new_parent).Owned ∧ (g.SetParent child new_parent).Acyclic := by
  have howned : ∀ parent, (g.setParentOf child parent).Owned := by
    intro parent n q hq
    simp only [setParentOf] at hq ⊢
    by_cases hn : n = child
    · rw [hn]
      exact hchild
    · simp only [hn, if_false] at hq
      exact ho n q hq
  have hagree : ∀ parent n, n ≠ child →
      (g.setParentOf child parent).m_parent n = g.m_parent n := by
    intro parent n hn
    simp [setParentOf, hn]
  cases new_parent with
  | none =>
    refine ⟨howned none, Acyclic_of_agree g _ child ha ⟨1, ?_⟩ (hagree none)⟩
    simp [up, SetParent, setParentOf]
  | some p =>
    simp only [SetParent]
    split
    · exact ⟨ho, ha⟩
    · rename_i hrej
      simp only [Bool.or_eq_true, decide_eq_true_eq, not_or] at hrej
      obtain ⟨hne, hnd⟩ := hrej
      refine ⟨howned (some p), Acyclic_of_agree g _ child ha ?_ (hagree (some p))⟩
      have hoff : ∀ j, g.up j p ≠ some child := by
        intro j hj
        cases j with
        | zero =>
          simp only [up, Option.some.injEq] at hj
          exact hne hj
        | succ j =>
          exact hnd ((IsDescendantOf_iff g ho ha p child).mpr ⟨j + 1, by omega, hj⟩)
      obtain ⟨k, hk⟩ := ha p
      refine ⟨k + 1, ?_⟩
      have := up_setParentOf_of_off g child (some p) k p hoff
      simp only [up, setParentOf, if_true]
      exact this.trans hk

theorem EntityGetById_some (g : Hierarchy) (id d : Nat) (h : g.EntityGetById id = some d) :
    d = id ∧ d ∈ g.m_entities := by
  unfold EntityGetById at h
  exact ⟨by simpa using List.find?_some h, List.mem_of_find?_eq_some h⟩

theorem drop_keeps (g : Hierarchy) (ho : g.Owned) (ha : g.Acyclic) (d : Drop) :
    (g.drop d).Owned ∧ (g.drop d).Acyclic := by
  cases d with
  | onEntity entity_ptr payload =>
    simp only [drop, EntityHandleDragDrop]
    cases payload with
    | none => exact ⟨ho, ha⟩
    | some entity_id =>
      simp only []
      cases hget : g.EntityGetById entity_id with
      | none => exact ⟨ho, ha⟩
      | some dropped =>
        simp only []
        split
        · exact SetParent_keeps g ho ha dropped (EntityGetById_some g _ _ hget).2 _
        · exact ⟨ho, ha⟩
  | onRoot payload =>
    simp only [drop, TreeShow_drop]
    cases payload with
    | none => exact ⟨ho, ha⟩
    | some entity_id =>
      simp only []
      cases hget : g.EntityGetById entity_id with
      | none => exact ⟨ho, ha⟩
      | some dropped =>
        exact SetParent_keeps g ho ha dropped (EntityGetById_some g _ _ hget).2 _

theorem dropAll_keeps (g : Hierarchy) (ho : g.Owned) (ha : g.Acyclic) (drops : List Drop) :
    (g.dropAll drops).Owned ∧ (g.dropAll drops).Acyclic := by
  induction drops generalizing g with
  | nil => exact ⟨ho, ha⟩
  | cons d rest ih =>
    obtain ⟨h1, h2⟩ := drop_keeps g ho ha d
    exact ih (g.drop d) h1 h2

theorem drop_rejected (g : Hierarchy) (ho : g.Owned) (ha : g.Acyclic) (entity_ptr payload : Nat)
    (hcyc : ∃ k, g.up k entity_ptr = some payload) :
    g.EntityHandleDragDrop entity_ptr (some payload) = g := by
  simp only [EntityHandleDragDrop]
  cases hget : g.EntityGetById payload with
  | none => rfl
  | some dropped =>
    obtain ⟨hd, _⟩ := EntityGetById_some g _ _ hget
    subst hd
    simp only []
    split
    · rename_i hne
      obtain ⟨k, hk⟩ := hcyc
      have hk1 : 1 ≤ k := by
        cases k with
        | zero =>
          simp only [up, Option.some.injEq] at hk
          exact absurd hk.symm hne
        | succ k => omega
      have := (IsDescendantOf_iff g ho ha entity_ptr dropped).mpr ⟨k, hk1, hk⟩
      simp [SetParent, this]
    · rfl

theorem up_self_eq_zero (g : Hierarchy) (ha : g.Acyclic) (n k : Nat)
    (h : g.up k n = some n) : k = 0 := by
  by_contra hk
  obtain ⟨j, hj⟩ := ha n
  have h1 := up_loop g k n h j
  have h2 := up_none_of_le g j (j * k) n (Nat.le_mul_of_pos_right j (by omega)) hj
  rw [h1] at h2
  cases h2

theorem Owned_ofList (table : List (Nat × Option Nat)) : (ofList table).Owned := by
  intro n p hp
  simp only [ofList] at hp ⊢
  induction table with
  | nil => simp [List.lookup] at hp
  | cons x xs ih =>
    by_cases hx : n = x.1
    · simp [hx]
    · have hb : (n == x.1) = false := by simpa using hx
      obtain ⟨x1, x2⟩ := x
      simp only [List.lookup, hb] at hp
      simp only [List.map_cons, List.mem_cons]
      exact Or.inr (ih hp)

theorem Acyclic_of_bounded (g : Hierarchy) (ho : g.Owned)
    (h : ∀ n ∈ g.m_entities, g.up (g.m_entities.length + 1) n = none) : g.Acyclic := by
  intro n
  by_cases hn : n ∈ g.m_entities
  · exact ⟨_, h n hn⟩
  · refine ⟨1, ?_⟩
    cases hp : g.m_parent n with
    | none => simp [up, hp]
    | some p => exact absurd (ho n p hp) hn

/-- C15: starting from an acyclic hierarchy in which only entities of the world have a
parent, after every sequence of drops (an entity onto an entity, or onto the scene root)
the hierarchy is acyclic, so no entity is its own ancestor; and in the hierarchy reached, a
drop of an entity onto itself or onto one of its own descendants leaves the hierarchy,
that is every parent link, as it is. -/
theorem C15_drops_keep_acyclic (g : Hierarchy) (ho : g.Owned) (ha : g.Acyclic)
    (drops : List Drop) :
    (g.dropAll drops).Acyclic ∧
    (∀ n k, 1 ≤ k → (g.dropAll drops).up k n ≠ some n) ∧
    (∀ entity_ptr payload, (∃ k, (g.dropAll drops).up k entity_ptr = some payload) →
      (g.dropAll drops).EntityHandleDragDrop entity_ptr (some payload) = g.dropAll drops) := by
  obtain ⟨h1, h2⟩ := dropAll_keeps g ho ha drops
  refine ⟨h2, ?_, fun entity_ptr payload hc => drop_rejected _ h1 h2 entity_ptr payload hc⟩
  intro n k hk hup
  have := up_self_eq_zero _ h2 n k hup
  omega

/-- C15 at the hierarchy A > B > C, D: A is dropped onto its descendant C (rejected), B is
dropped onto D (B becomes a child of D), C is dropped onto the scene root (C becomes a
root). -/
theorem C15_witness :
    sample.Owned ∧ sample.Acyclic ∧
    (sample.dropAll [Drop.onEntity 3 (some 1)]).m_parent 1 = sample.m_parent 1 ∧
    (sample.dropAll [Drop.onEntity 3 (some 1), Drop.onEntity 4 (some 2),
      Drop.onRoot (some 3)]).m_parent 2 = some 4 ∧
    (sample.dropAll [Drop.onEntity 3 (some 1), Drop.onEntity 4 (some 2),
      Drop.onRoot (some 3)]).m_parent 3 = none ∧
    (sample.dropAll [Drop.onEntity 3 (some 1), Drop.onEntity 4 (some 2),
      Drop.onRoot (some 3)]).Acyclic :=
  have ho : sample.Owned := Owned_ofList _
  have ha : sample.Acyclic := Acyclic_of_bounded sample ho (by decide)
  ⟨ho, ha, by decide, by decide, by decide,
    (C15_drops_keep_acyclic sample ho ha [Drop.onEntity 3 (some 1), Drop.onEntity 4 (some 2),
      Drop.onRoot (some 3)]).1⟩

end Hierarchy

/-! ## Engine mode flags -/

namespace Engine

theorem testBit_complement32_two_pow (k : Nat) (hk : k < 32) (i : Nat) :
    (complement32 (2 ^ k)).testBit i = (decide (i < 32) && !decide (k = i)) := by
  have h1 : 2 ^ k < 2 ^ 32 := Nat.pow_lt_pow_right (by norm_num) hk
  unfold complement32
  rw [Nat.mod_eq_of_lt h1, Nat.sub_sub, Nat.add_comm 1, Nat.testBit_two_pow_sub_succ h1,
    Nat.testBit_two_pow]

theorem IsSet_two_pow (e : Engine) (k : Nat) :
    e.EngineMode_IsSet (2 ^ k) = e.m_flags.testBit k := by
  unfold EngineMode_IsSet
  rw [Nat.and_two_pow]
  cases h : e.m_flags.testBit k <;> simp

theorem Toggle_two_pow (e : Engine) (k : Nat) (hk : k < 32) (hf : e.m_flags < 2 ^ 32) :
    (e.EngineMode_Toggle (2 ^ k)).m_flags = e.m_flags ^^^ 2 ^ k := by
  unfold EngineMode_Toggle
  rw [IsSet_two_pow]
  apply Nat.eq_of_testBit_eq
  intro i
  cases h : e.m_flags.testBit k
  · simp only [Bool.not_false, if_true, Nat.testBit_or, Nat.testBit_xor, Nat.testBit_two_pow]
    by_cases hki : k = i
    · subst hki; simp [h]
    · simp [hki]
  · simp only [Bool.not_true, Bool.false_eq_true, if_false, Nat.testBit_and, Nat.testBit_xor, Nat.testBit_two_pow,
      testBit_complement32_two_pow k hk]
    by_cases hki : k = i
    · subst hki; simp [h]
    · by_cases hi : i < 32
      · simp [hki, hi]
      · have : e.m_flags.testBit i = false :=
          Nat.testBit_lt_two_pow (lt_of_lt_of_le hf (Nat.pow_le_pow_right (by norm_num) (not_lt.mp hi)))
        simp [hki, this]

theorem testBit_Enable (e : Engine) (k i : Nat) :
    (e.EngineMode_Enable (2 ^ k)).m_flags.testBit i = (e.m_flags.testBit i || decide (k = i)) := by
  simp [EngineMode_Enable, Nat.testBit_or, Nat.testBit_two_pow]

theorem testBit_Disable (e : Engine) (k i : Nat) (hk : k < 32) :
    (e.EngineMode_Disable (2 ^ k)).m_flags.testBit i =
      (e.m_flags.testBit i && (decide (i < 32) && !decide (k = i))) := by
  simp [EngineMode_Disable, Nat.testBit_and, testBit_complement32_two_pow k hk]

theorem flags_two_pow (e : Engine) (k j : Nat) (hk : k < 32) (hj : j < 32) (hkj : k ≠ j)
    (hf : e.m_flags < 2 ^ 32) :
    (e.EngineMode_Toggle (2 ^ k)).m_flags = e.m_flags ^^^ 2 ^ k ∧
    (e.EngineMode_Toggle (2 ^ k)).EngineMode_Toggle (2 ^ k) = e ∧
    (e.EngineMode_Enable (2 ^ k)).EngineMode_IsSet (2 ^ k) = true ∧
    (e.EngineMode_Disable (2 ^ k)).EngineMode_IsSet (2 ^ k) = false ∧
    (e.EngineMode_Enable (2 ^ k)).EngineMode_IsSet (2 ^ j) = e.EngineMode_IsSet (2 ^ j) ∧
    (e.EngineMode_Disable (2 ^ k)).EngineMode_IsSet (2 ^ j) = e.EngineMode_IsSet (2 ^ j) ∧
    (e.EngineMode_Toggle (2 ^ k)).EngineMode_IsSet (2 ^ j) = e.EngineMode_IsSet (2 ^ j) := by
  have ht := Toggle_two_pow e k hk hf
  have hlt : (e.EngineMode_Toggle (2 ^ k)).m_flags < 2 ^ 32 := by
    rw [ht]
    exact Nat.xor_lt_two_pow hf (Nat.pow_lt_pow_right (by norm_num) hk)
  refine ⟨ht, ?_, ?_, ?_, ?_, ?_, ?_⟩
  · have h2 := Toggle_two_pow (e.EngineMode_Toggle (2 ^ k)) k hk hlt
    rw [ht, Nat.xor_assoc, Nat.xor_self, Nat.xor_zero] at h2
    cases e with
    | mk f =>
      cases h : (Engine.mk f).EngineMode_Toggle (2 ^ k) |>.EngineMode_Toggle (2 ^ k) with
      | mk f2 =>
        rw [h] at h2
        exact congrArg Engine.mk h2
  · rw [IsSet_two_pow, testBit_Enable]; simp
  · rw [IsSet_two_pow, testBit_Disable e k k hk]; simp
  · rw [IsSet_two_pow, IsSet_two_pow, testBit_Enable]; simp [hkj]
  · rw [IsSet_two_pow, IsSet_two_pow, testBit_Disable e k j hk]; simp [hkj, hj]
  · rw [IsSet_two_pow, IsSet_two_pow, ht, Nat.testBit_xor, Nat.testBit_two_pow]; simp [hkj]

/-- C30: for a 32-bit flag word and an engine mode flag m (`Engine_Physics` or
`Engine_Game`, with `other` the other one), `EngineMode_Toggle(m)` yields the word XOR m
and toggling twice restores the word; `EngineMode_IsSet(m)` is true after
`EngineMode_Enable(m)` and false after `EngineMode_Disable(m)`; and none of the three
operations changes what `EngineMode_IsSet` answers for the other flag. -/
theorem C30_engine_mode_flags (e : Engine) (m other : Nat) (hf : e.m_flags < 2 ^ 32)
    (hm : (m = Engine_Physics ∧ other = Engine_Game) ∨
      (m = Engine_Game ∧ other = Engine_Physics)) :
    (e.EngineMode_Toggle m).m_flags = e.m_flags ^^^ m ∧
    (e.EngineMode_Toggle m).EngineMode_Toggle m = e ∧
    (e.EngineMode_Enable m).EngineMode_IsSet m = true ∧
    (e.EngineMode_Disable m).EngineMode_IsSet m = false ∧
    (e.EngineMode_Enable m).EngineMode_IsSet other = e.EngineMode_IsSet other ∧
    (e.EngineMode_Disable m).EngineMode_IsSet other = e.EngineMode_IsSet other ∧
    (e.EngineMode_Toggle m).EngineMode_IsSet other = e.EngineMode_IsSet other := by
  rcases hm with ⟨rfl, rfl⟩ | ⟨rfl, rfl⟩
  · exact flags_two_pow e 0 1 (by norm_num) (by norm_num) (by norm_num) hf
  · exact flags_two_pow e 1 0 (by norm_num) (by norm_num) (by norm_num) hf

/-- C30 at the flag word 5 (physics on, game off): toggling the game flag gives 7, and
toggling it again gives 5. -/
theorem C30_witness :
    (5 : Nat) < 2 ^ 32 ∧
    ((⟨5⟩ : Engine).EngineMode_Toggle Engine_Game).m_flags = 7 ∧
    ((⟨5⟩ : Engine).EngineMode_Toggle Engine_Game).EngineMode_Toggle Engine_Game = ⟨5⟩ ∧
    ((⟨5⟩ : Engine).EngineMode_Toggle Engine_Game).m_flags = 5 ^^^ Engine_Game :=
  ⟨by norm_num, by decide, by decide,
    (C30_engine_mode_flags ⟨5⟩ Engine_Game Engine_Physics (by norm_num) (Or.inr ⟨rfl, rfl⟩)).1⟩

end Engine

/-! ## GameObject: components, prefabs and the payload -/

namespace GameObject

theorem AddComponentBasedOnType_fold (typeStr guid : String) (types : List String)
    (hn : types.Nodup) (r : Option String × GameObject) :
    types.foldl (fun r T => if typeStr = T then (some T, r.2.AddComponent T guid) else r) r =
      if typeStr ∈ types then (some typeStr, r.2.AddComponent typeStr guid) else r := by
  induction types generalizing r with
  | nil => simp
  | cons T rest ih =>
    have hn2 := List.nodup_cons.mp hn
    rw [List.foldl_cons, ih hn2.2]
    by_cases h : typeStr = T
    · subst h
      simp [hn2.1]
    · have h2 : ¬ T = typeStr := fun e => h e.symm
      simp [h, List.mem_cons]

theorem AddComponentBasedOnType_known (typeStr guid : String) (g : GameObject)
    (h : typeStr ∈ componentTypes) :
    AddComponentBasedOnType typeStr guid g = (some typeStr, g.AddComponent typeStr guid) := by
  unfold AddComponentBasedOnType
  rw [AddComponentBasedOnType_fold typeStr guid componentTypes (by decide), if_pos h]

theorem AddComponentBasedOnType_unknown (typeStr guid : String) (g : GameObject)
    (h : typeStr ∉ componentTypes) :
    AddComponentBasedOnType typeStr guid g = (none, g) := by
  unfold AddComponentBasedOnType
  rw [AddComponentBasedOnType_fold typeStr guid componentTypes (by decide), if_neg h]

theorem Deserialize_components_unknown (generated : Nat → String)
    (headers : List (String × String)) (rest : List Item) (i : Nat) (g : GameObject)
    (h : ∃ header ∈ headers, header.1 ∉ componentTypes) :
    Deserialize_components generated headers.length i
      (headers.flatMap (fun header => [Item.string header.1, Item.string header.2]) ++ rest) g =
      none := by
  induction headers generalizing i g with
  | nil => simp at h
  | cons header more ih =>
    simp only [List.length_cons, List.flatMap_cons, List.cons_append, List.nil_append,
      Deserialize_components, Serializer.ReadSTR, FileStream.ReadAs_string]
    by_cases hk : header.1 ∈ componentTypes
    · rw [AddComponentBasedOnType_known _ _ _ hk]
      apply ih
      obtain ⟨x, hx, hx2⟩ := h
      rcases List.mem_cons.mp hx with rfl | hm
      · exact absurd hk hx2
      · exact ⟨x, hm, hx2⟩
    · rw [AddComponentBasedOnType_unknown _ _ _ hk]

theorem Deserialize_stream (sz : Serializer) (generated : Nat → String)
    (id name : String) (isActive hierarchyVisibility : Bool) (componentCount : Int)
    (file : List Item) (g : GameObject) :
    g.Deserialize sz generated (Item.string id :: Item.string name :: Item.bool isActive ::
      Item.bool hierarchyVisibility :: Item.int32 componentCount :: file) =
    match Deserialize_components generated componentCount.toNat 0 file
        { g with m_ID := id, m_name := name, m_isActive := isActive,
                 m_hierarchyVisibility := hierarchyVisibility } with
    | none => none
    | some (g2, file2) =>
      some ({ g2 with m_components := (Deserialize_payloads g2.m_components file2).1 },
        (sz.ReadVectorGameObject (Deserialize_payloads g2.m_components file2).2).2) := rfl

theorem AddComponent_m_ID (typeStr guid : String) (g : GameObject) :
    (g.AddComponent typeStr guid).m_ID = g.m_ID := by
  unfold AddComponent
  split <;> rfl

theorem Deserialize_components_m_ID (generated : Nat → String) (remaining : Nat) :
    ∀ (i : Nat) (file : List Item) (g : GameObject) (r : GameObject × List Item),
      Deserialize_components generated remaining i file g = some r → r.1.m_ID = g.m_ID := by
  induction remaining with
  | zero =>
    intro i file g r h
    simp only [Deserialize_components, Option.some.injEq] at h
    rw [← h]
  | succ n ih =>
    intro i file g r h
    rw [Deserialize_components] at h
    by_cases hk : (Serializer.ReadSTR file).1 ∈ componentTypes
    · simp only [AddComponentBasedOnType_known _ _ _ hk] at h
      rw [ih _ _ _ _ h]
      exact AddComponent_m_ID _ _ _
    · simp [AddComponentBasedOnType_unknown _ _ _ hk] at h

theorem Deserialize_eq (sz : Serializer) (generated : Nat → String) (file : List Item)
    (g : GameObject) :
    g.Deserialize sz generated file =
    match Deserialize_components generated
        (Serializer.ReadInt (Serializer.ReadBool (Serializer.ReadBool
          (Serializer.ReadSTR (Serializer.ReadSTR file).2).2).2).2).1.toNat 0
        (Serializer.ReadInt (Serializer.ReadBool (Serializer.ReadBool
          (Serializer.ReadSTR (Serializer.ReadSTR file).2).2).2).2).2
        { g with
          m_ID := (Serializer.ReadSTR file).1
          m_name := (Serializer.ReadSTR (Serializer.ReadSTR file).2).1
          m_isActive := (Serializer.ReadBool (Serializer.ReadSTR (Serializer.ReadSTR file).2).2).1
          m_hierarchyVisibility := (Serializer.ReadBool (Serializer.ReadBool
            (Serializer.ReadSTR (Serializer.ReadSTR file).2).2).2).1 } with
    | none => none
    | some (g2, file2) =>
      some ({ g2 with m_components := (Deserialize_payloads g2.m_components file2).1 },
        (sz.ReadVectorGameObject (Deserialize_payloads g2.m_components file2).2).2) := rfl

theorem Deserialize_m_ID (sz : Serializer) (generated : Nat → String) (file : List Item)
    (g : GameObject) (r : GameObject × List Item)
    (h : g.Deserialize sz generated file = some r) :
    r.1.m_ID = (Serializer.ReadSTR file).1 := by
  rw [Deserialize_eq] at h
  split at h
  · exact absurd h (by simp)
  · rename_i g2 file2 hc
    have := Deserialize_components_m_ID generated _ _ _ _ _ hc
    simp only [Option.some.injEq] at h
    rw [← h]
    exact this

theorem LoadFromPrefab_m_ID (sz : Serializer) (generated : Nat → String) (filePath : String)
    (g r : GameObject) (h : g.LoadFromPrefab sz generated filePath = some (true, r)) :
    ∃ file, sz.StartReading filePath = some file ∧ r.m_ID = (Serializer.ReadSTR file).1 := by
  unfold LoadFromPrefab at h
  split at h
  · simp at h
  · split at h
    · simp at h
    · rename_i file hfile
      refine ⟨file, hfile, ?_⟩
      split at h
      · simp at h
      · rename_i r2 hr2
        simp only [Option.some.injEq, Prod.mk.injEq, true_and] at h
        rw [← h]
        exact Deserialize_m_ID sz generated file g r2 hr2

/-- C22 fails on the code: the assignment of new identifiers at the end of
`GameObject::LoadFromPrefab` is commented out, so whenever two GameObjects are loaded
from the same prefab file, whatever identifiers they were constructed with and whatever
identifiers are generated during the load, both end up with the identifier stored in the
file, and so with the same identifier. -/
theorem C22_LoadFromPrefab_keeps_stored_id (sz : Serializer)
    (generated1 generated2 : Nat → String) (filePath : String) (g1 g2 r1 r2 : GameObject)
    (h1 : g1.LoadFromPrefab sz generated1 filePath = some (true, r1))
    (h2 : g2.LoadFromPrefab sz generated2 filePath = some (true, r2)) :
    ∃ file, sz.StartReading filePath = some file ∧
      r1.m_ID = (Serializer.ReadSTR file).1 ∧ r2.m_ID = r1.m_ID := by
  obtain ⟨file, hf, hr1⟩ := LoadFromPrefab_m_ID sz generated1 filePath g1 r1 h1
  obtain ⟨file2, hf2, hr2⟩ := LoadFromPrefab_m_ID sz generated2 filePath g2 r2 h2
  rw [hf] at hf2
  simp only [Option.some.injEq] at hf2
  subst hf2
  exact ⟨file, hf, hr1, by rw [hr1, hr2]⟩

/-- C22 on the prefab "crate.prefab", which stores the identifier "g-7" and the component
identifiers "c-1", "c-2", "c-3": two objects constructed with different identifiers are
equal after loading it, identifiers of the components included. -/
theorem C22_witness :
    (GameObject.new "g-1" "c-10").LoadFromPrefab Serializer.sample (fun _ => "c-11")
      "crate.prefab" = some (true, { sample with m_children := [] }) ∧
    (GameObject.new "g-2" "c-20").LoadFromPrefab Serializer.sample (fun _ => "c-21")
      "crate.prefab" = some (true, { sample with m_children := [] }) ∧
    (GameObject.new "g-1" "c-10").m_ID ≠ (GameObject.new "g-2" "c-20").m_ID ∧
    ∃ file, Serializer.sample.StartReading "crate.prefab" = some file ∧
      ({ sample with m_children := [] } : GameObject).m_ID = (Serializer.ReadSTR file).1 ∧
      ({ sample with m_children := [] } : GameObject).m_ID =
        ({ sample with m_children := [] } : GameObject).m_ID :=
  ⟨by decide, by decide, by decide,
    C22_LoadFromPrefab_keeps_stored_id Serializer.sample (fun _ => "c-11") (fun _ => "c-21")
      "crate.prefab" (GameObject.new "g-1" "c-10") (GameObject.new "g-2" "c-20") _ _
      (by decide) (by decide)⟩

/-- C23 fails on the code. For a type tag that is not one of the names in
`GameObject::AddComponentBasedOnType`, that method does return the null handle and adds
no component; but `GameObject::Deserialize` of any payload whose (type tag, id) pairs
contain such a tag ends in the assignment `component->g_ID = id` through the null handle:
it neither skips the component nor reports a failure. -/
theorem C23_unknown_tag_dereferences_null (sz : Serializer) (generated : Nat → String)
    (typeStr guid : String) (g : GameObject) (h : typeStr ∉ componentTypes) :
    AddComponentBasedOnType typeStr guid g = (none, g) ∧
    ∀ (id name : String) (isActive hierarchyVisibility : Bool)
      (headers : List (String × String)) (rest : List Item),
      typeStr ∈ headers.map Prod.fst →
      g.Deserialize sz generated
        ([Item.string id, Item.string name, Item.bool isActive,
          Item.bool hierarchyVisibility, Item.int32 headers.length] ++
          headers.flatMap (fun header => [Item.string header.1, Item.string header.2]) ++
          rest) = none := by
  refine ⟨AddComponentBasedOnType_unknown typeStr guid g h, ?_⟩
  intro id name isActive hierarchyVisibility headers rest hmem
  obtain ⟨header, hh, rfl⟩ := List.mem_map.mp hmem
  have hcomp := fun g2 => Deserialize_components_unknown generated headers rest 0 g2
    ⟨header, hh, h⟩
  simp only [List.cons_append, List.nil_append, List.append_assoc]
  rw [Deserialize_stream, Int.toNat_ofNat, hcomp]

/-- C23 on the prefab "broken.prefab", whose only component has the type tag "Terrain":
the tag is not recognised, the null handle is returned, and loading the prefab into a
fresh object dereferences it. -/
theorem C23_witness :
    "Terrain" ∉ componentTypes ∧
    (GameObject.new "g-1" "c-10").LoadFromPrefab Serializer.sample (fun _ => "c-11")
      "broken.prefab" = none ∧
    AddComponentBasedOnType "Terrain" "c-11" (GameObject.new "g-1" "c-10") =
      (none, GameObject.new "g-1" "c-10") :=
  ⟨by decide, by decide,
    (C23_unknown_tag_dereferences_null Serializer.sample (fun _ => "c-11") "Terrain" "c-11"
      (GameObject.new "g-1" "c-10") (by decide)).1⟩

theorem RemoveComponentByID_loop_none (id : String) (cs : List (String × IComponent))
    (h : ∀ it ∈ cs, it.2.g_ID ≠ id) : RemoveComponentByID_loop id cs = cs := by
  induction cs with
  | nil => rfl
  | cons it rest ih =>
    rw [RemoveComponentByID_loop, if_neg (h it (List.mem_cons_self _ _)),
      ih (fun x hx => h x (List.mem_cons_of_mem _ hx))]

theorem RemoveComponentByID_loop_some (id : String) (cs : List (String × IComponent))
    (h : ∃ it ∈ cs, it.2.g_ID = id) :
    ∃ before it after, cs = before ++ it :: after ∧ it.2.g_ID = id ∧
      (∀ x ∈ before, x.2.g_ID ≠ id) ∧ RemoveComponentByID_loop id cs = before ++ after := by
  induction cs with
  | nil => simp at h
  | cons c rest ih =>
    by_cases hc : c.2.g_ID = id
    · exact ⟨[], c, rest, rfl, hc, by simp, by rw [RemoveComponentByID_loop, if_pos hc]; rfl⟩
    · obtain ⟨x, hx, hx2⟩ := h
      have hx3 : x ∈ rest := by
        rcases List.mem_cons.mp hx with rfl | hm
        · exact absurd hx2 hc
        · exact hm
      obtain ⟨before, it, after, h1, h2, h3, h4⟩ := ih ⟨x, hx3, hx2⟩
      refine ⟨c :: before, it, after, by rw [h1]; rfl, h2, ?_, ?_⟩
      · intro y hy
        rcases List.mem_cons.mp hy with rfl | hm
        · exact hc
        · exact h3 y hm
      · rw [RemoveComponentByID_loop, if_neg hc, h4]
        rfl

/-- C25: `GameObject::RemoveComponentByID(id)` changes nothing but the components. When no
component has the identifier `id` the components are unchanged. Otherwise exactly one
component is removed, the first one in the order of the type tags whose identifier is
`id`, and every other component stays in place under its type tag, in the same order. -/
theorem C25_RemoveComponentByID (id : String) (g : GameObject) :
    (g.RemoveComponentByID id).m_ID = g.m_ID ∧
    (g.RemoveComponentByID id).m_name = g.m_name ∧
    (g.RemoveComponentByID id).m_isActive = g.m_isActive ∧
    (g.RemoveComponentByID id).m_hierarchyVisibility = g.m_hierarchyVisibility ∧
    (g.RemoveComponentByID id).m_children = g.m_children ∧
    ((∀ it ∈ g.m_components, it.2.g_ID ≠ id) → g.RemoveComponentByID id = g) ∧
    ((∃ it ∈ g.m_components, it.2.g_ID = id) →
      ∃ before it after, g.m_components = before ++ it :: after ∧ it.2.g_ID = id ∧
        (∀ x ∈ before, x.2.g_ID ≠ id) ∧
        (g.RemoveComponentByID id).m_components = before ++ after) := by
  refine ⟨rfl, rfl, rfl, rfl, rfl, ?_, ?_⟩
  · intro h
    unfold RemoveComponentByID
    rw [RemoveComponentByID_loop_none id _ h]
  · intro h
    exact RemoveComponentByID_loop_some id _ h

/-- C25 on the sample object: removing the identifier of the script leaves the camera and
the transform, and removing an identifier no component has leaves the object as it is. -/
theorem C25_witness :
    (sample.RemoveComponentByID "c-2").m_components =
      [("Camera", ⟨"c-1", [3, 4]⟩), ("Transform", ⟨"c-3", [1, 0, 0]⟩)] ∧
    sample.RemoveComponentByID "c-9" = sample ∧
    (sample.RemoveComponentByID "c-2").m_ID = sample.m_ID :=
  ⟨by decide, by decide, (C25_RemoveComponentByID "c-2" sample).1⟩

end GameObject

/-! ## Resource index file and memory usage -/

namespace ResourceCache

theorem length_flatMap_record (rs : List IResource) :
    (rs.flatMap SaveResourcesToFiles_record).length =
      2 * (rs.filter (fun resource => resource.m_resource_file_path != "")).length := by
  induction rs with
  | nil => rfl
  | cons r rest ih =>
    by_cases h : r.m_resource_file_path = ""
    · simp [SaveResourcesToFiles_record, h, ih]
    · simp [SaveResourcesToFiles_record, h, ih]
      omega

/-- C21 fails on the code. `SaveResourcesToFiles` writes as `resource_count` the result
of `GetResourceCount()`, computed before the loop that skips the resources without a file
path: with `Resource_Unknown` as the default type it is the number of all cached
resources (modulo `2^32`), while the records written are those of the resources with a
file path. On the sample cache, which holds one resource without a file path and one
texture, one record is written and the count written is 2, or 0 if the default type were
a specific type other than the textures, but never 1; with the count 2,
`LoadResourcesFromFiles` reads two records, the second of them past the end of what was
written. -/
theorem C21_resource_count_counts_skipped :
    (∀ (Resource_Unknown : Nat) (keys : List Nat) (fs : FileSystem) (file_path : String)
        (rc : ResourceCache), fs.open_write file_path = true →
      ∃ records,
        (rc.SaveResourcesToFiles Resource_Unknown keys Resource_Unknown fs
            file_path).open_read file_path =
          some (Item.uint32 ((rc.resources keys).length % 2 ^ 32) :: records) ∧
        records.length = 2 * ((rc.resources keys).filter
          (fun resource => resource.m_resource_file_path != "")).length) ∧
    (∀ (Resource_Unknown default_type : Nat),
      (sample.SaveResourcesToFiles Resource_Unknown [1] default_type FileSystem.blank
          "scn_resources.dat").open_read "scn_resources.dat" =
        some [Item.uint32 (if default_type = Resource_Unknown ∨ default_type = 1 then 2 else 0),
          Item.string "wood.png", Item.uint32 1]) ∧
    LoadResourcesFromFiles
        (sample.SaveResourcesToFiles 0 [1] 0 FileSystem.blank "scn_resources.dat")
        "scn_resources.dat" = [("wood.png", 1), ("", 0)] := by
  refine ⟨?_, ?_, by decide⟩
  · intro u keys fs file_path rc hopen
    refine ⟨(rc.resources keys).flatMap SaveResourcesToFiles_record, ?_,
      length_flatMap_record _⟩
    simp [SaveResourcesToFiles, hopen, FileSystem.store, GetResourceCount, GetByType,
      resources, List.flatMap_assoc]
  · intro u d
    by_cases h1 : d = u
    · simp [SaveResourcesToFiles, FileSystem.store, FileSystem.blank, GetResourceCount,
        GetByType, resources, sample, SaveResourcesToFiles_record, h1]
    · by_cases h2 : d = 1
      · simp [SaveResourcesToFiles, FileSystem.store, FileSystem.blank, GetResourceCount,
          GetByType, resources, sample, SaveResourcesToFiles_record, h1, h2]
      · simp [SaveResourcesToFiles, FileSystem.store, FileSystem.blank, GetResourceCount,
          GetByType, resources, sample, SaveResourcesToFiles_record, h1, h2]

theorem GetMemoryUsage_eq (Resource_Unknown : Nat) (keys : List Nat) (type : Nat)
    (rc : ResourceCache) :
    rc.GetMemoryUsage Resource_Unknown keys type =
      if Resource_Unknown ≠ 0 then addMemoryUsage (rc.resources keys)
      else addMemoryUsage (rc.m_resource_groups Resource_Unknown) := by
  unfold GetMemoryUsage
  by_cases h : Resource_Unknown = 0 <;> simp [h]

/-- C29 fails on the code. The condition `type = Resource_Unknown` of `GetMemoryUsage` is
an assignment, so the result does not depend on the type asked for: it is the sum over all
buckets when `Resource_Unknown` is non-zero, and the sum over the bucket of
`Resource_Unknown` when it is zero. Whatever the value of `Resource_Unknown`, there is a
specific type for which the result on the sample cache (72 bytes of textures in bucket 1)
is not the sum over the bucket of that type. -/
theorem C29_GetMemoryUsage_ignores_type (Resource_Unknown : Nat) :
    (∀ (keys : List Nat) (type : Nat) (rc : ResourceCache),
      rc.GetMemoryUsage Resource_Unknown keys type =
        rc.GetMemoryUsage Resource_Unknown keys Resource_Unknown) ∧
    sample.GetMemoryUsage 0 [1] 1 = 0 ∧ sample.GetMemoryUsage_claimed 0 [1] 1 = 72 ∧
    ∃ type, type ≠ Resource_Unknown ∧
      sample.GetMemoryUsage Resource_Unknown [1] type ≠
        sample.GetMemoryUsage_claimed Resource_Unknown [1] type := by
  refine ⟨fun keys type rc => ?_, by decide, by decide, ?_⟩
  · rw [GetMemoryUsage_eq, GetMemoryUsage_eq]
  · by_cases h : Resource_Unknown = 0
    · subst h
      exact ⟨1, by decide, by decide⟩
    · by_cases h2 : Resource_Unknown = 2
      · subst h2
        exact ⟨3, by decide, by decide⟩
      · refine ⟨2, fun e => h2 e.symm, ?_⟩
        have hne : ¬ 2 = Resource_Unknown := fun e => h2 e.symm
        rw [GetMemoryUsage_eq, if_pos h]
        unfold GetMemoryUsage_claimed
        rw [if_neg hne]
        decide

end ResourceCache

/-! ## Unsubscribing -/

namespace EventSystem

theorem Unsubscribe_loop_spins (function first : Nat) (rest : List Nat)
    (h : first ≠ function) (fuel : Nat) :
    Unsubscribe_loop function fuel 0 (first :: rest) = none := by
  induction fuel with
  | zero => rfl
  | succ n ih =>
    rw [Unsubscribe_loop]
    simp only [List.getElem?_cons_zero, if_neg h]
    exact ih

/-- C27 fails on the code. When the first subscriber of the event is not the handler, the
loop of `EventSystem::Unsubscribe` never advances its iterator and never ends: no number
of turns is enough, whether or not the handler is subscribed further back. When the
handler is the first subscriber, it is removed and the others are kept in their order;
and for an event without subscriber the call ends and leaves it without subscriber. -/
theorem C27_Unsubscribe_spins (es : EventSystem) (event_id : Event_Type)
    (function first : Nat) (rest : List Nat)
    (hsub : es.m_subscribers event_id = some (first :: rest)) :
    (first ≠ function → ∀ fuel, (es.Unsubscribe fuel event_id function).isNone = true) ∧
    (first = function → ∀ fuel, ∃ es2, es.Unsubscribe (fuel + 1) event_id function = some es2 ∧
      es2.m_subscribers event_id = some rest ∧
      ∀ e, e ≠ event_id → es2.m_subscribers e = es.m_subscribers e) ∧
    (∀ (quiet : EventSystem), (quiet.m_subscribers event_id).getD [] = [] →
      ∀ fuel, ∃ es2, quiet.Unsubscribe (fuel + 1) event_id function = some es2 ∧
        es2.m_subscribers event_id = some [] ∧
        ∀ e, e ≠ event_id → es2.m_subscribers e = quiet.m_subscribers e) := by
  refine ⟨?_, ?_, ?_⟩
  · intro hne fuel
    unfold Unsubscribe
    rw [hsub, Option.getD_some, Unsubscribe_loop_spins function first rest hne fuel]
    rfl
  · intro heq fuel
    unfold Unsubscribe
    rw [hsub, Option.getD_some, Unsubscribe_loop]
    simp only [List.getElem?_cons_zero, if_pos heq, List.eraseIdx_cons_zero]
    exact ⟨_, rfl, by simp, fun e he => by simp [he]⟩
  · intro quiet hq fuel
    unfold Unsubscribe
    rw [hq, Unsubscribe_loop]
    simp only [List.getElem?_nil]
    exact ⟨_, rfl, by simp, fun e he => by simp [he]⟩

/-- C27 after handler 1 and then handler 2 subscribed to `Event_World_Unload`:
unsubscribing handler 2 does not end within a thousand turns (nor within any other
number), while unsubscribing handler 1 ends at once and leaves handler 2. -/
theorem C27_witness :
    ((EventSystem.empty.Subscribe Event_World_Unload 1).Subscribe Event_World_Unload
      2).m_subscribers Event_World_Unload = some [1, 2] ∧
    (((EventSystem.empty.Subscribe Event_World_Unload 1).Subscribe Event_World_Unload
      2).Unsubscribe 1000 Event_World_Unload 2).isNone = true ∧
    (((EventSystem.empty.Subscribe Event_World_Unload 1).Subscribe Event_World_Unload
      2).Unsubscribe 1000 Event_World_Unload 1).isSome = true ∧
    (EventSystem.empty.Unsubscribe 1 Event_World_Unload 2).isSome = true :=
  ⟨by decide,
    (C27_Unsubscribe_spins
      ((EventSystem.empty.Subscribe Event_World_Unload 1).Subscribe Event_World_Unload 2)
      Event_World_Unload 2 1 [2] (by decide)).1 (by decide) 1000,
    by decide, by decide⟩

end EventSystem

/-! ## What EntityRemove leaves in place -/

namespace World

theorem members_m_id (e : Entity) : e.members.m_id = e.GetId := by
  cases e
  rfl

theorem members_setChildrenOf (pid : Nat) (cs : List Entity) (e : Entity) :
    (Entity.setChildrenOf pid cs e).members = e.members := by
  cases e with
  | mk i n a v c p ch =>
    unfold Entity.setChildrenOf
    split <;> rfl

theorem map_members_eraseP (id : Nat) (l : List Entity) :
    (l.eraseP (fun temp => temp.GetId == id)).map Entity.members =
      (l.map Entity.members).eraseP (fun m => m.m_id == id) := by
  induction l with
  | nil => rfl
  | cons e rest ih =>
    by_cases h : e.GetId = id
    · simp [List.eraseP_cons, h, members_m_id]
    · have h2 : (e.GetId == id) = false := by simpa using h
      simp [List.eraseP_cons, h2, members_m_id, ih]

theorem AcquireChildren_members (pid : Nat) (w : World) :
    (w.AcquireChildren pid).m_entities.map Entity.members = w.m_entities.map Entity.members := by
  unfold AcquireChildren
  simp only [List.map_map]
  apply List.map_congr_left
  intro e _
  exact members_setChildrenOf pid _ e

mutual
theorem EntityRemove_entity_members : ∀ (e : Entity) (w : World),
    (EntityRemove_entity e w).m_entities.map Entity.members =
      (e.subtree.map Entity.GetId).foldl (fun l id => l.eraseP (fun m => m.m_id == id))
        (w.m_entities.map Entity.members)
  | Entity.mk i n a v c p cs, w => by
    have ih := EntityRemove_children_members cs w
    unfold EntityRemove_entity
    have hsub : (Entity.mk i n a v c p cs).subtree.map Entity.GetId =
        (Entity.descendantsList cs).map Entity.GetId ++ [i] := by
      simp [Entity.subtree, Entity.descendants, Entity.GetId]
    rw [hsub, List.foldl_append, ← ih]
    cases p with
    | none => exact map_members_eraseP i _
    | some pid =>
      show ((EntityRemove_children cs w).eraseById i |>.AcquireChildren pid).m_entities.map
        Entity.members = _
      rw [AcquireChildren_members]
      exact map_members_eraseP i _
theorem EntityRemove_children_members : ∀ (cs : List Entity) (w : World),
    (EntityRemove_children cs w).m_entities.map Entity.members =
      ((Entity.descendantsList cs).map Entity.GetId).foldl
        (fun l id => l.eraseP (fun m => m.m_id == id)) (w.m_entities.map Entity.members)
  | [], w => by simp [EntityRemove_children, Entity.descendantsList]
  | c :: cs, w => by
    have ih1 := EntityRemove_entity_members c w
    have ih2 := EntityRemove_children_members cs (EntityRemove_entity c w)
    unfold EntityRemove_children
    rw [ih2, ih1]
    simp [Entity.descendantsList, Entity.subtree, List.foldl_append]
end

theorem eraseP_key_eq_filter {α : Type} (key : α → Nat) (a : Nat) (l : List α)
    (hn : (l.map key).Nodup) :
    l.eraseP (fun m => key m == a) = l.filter (fun m => key m != a) := by
  induction l with
  | nil => rfl
  | cons x rest ih =>
    rw [List.map_cons, List.nodup_cons] at hn
    by_cases h : key x = a
    · have hrest : rest.filter (fun m => key m != a) = rest := by
        rw [List.filter_eq_self]
        intro m hm
        have : key m ≠ a := by
          intro e
          apply hn.1
          rw [h, ← e]
          exact List.mem_map_of_mem key hm
        simpa using this
      simp [List.eraseP_cons, h, hrest]
    · have h2 : (key x == a) = false := by simpa using h
      simp [List.eraseP_cons, h2, h, ih hn.2]

theorem foldl_eraseP_eq_filter {α : Type} (key : α → Nat) (ids : List Nat) (l : List α)
    (hn : (l.map key).Nodup) :
    ids.foldl (fun l id => l.eraseP (fun m => key m == id)) l =
      l.filter (fun m => decide (key m ∉ ids)) := by
  induction ids generalizing l with
  | nil => simp
  | cons a rest ih =>
    have hn2 : ((l.eraseP (fun m => key m == a)).map key).Nodup :=
      hn.sublist ((List.eraseP_sublist l).map key)
    rw [List.foldl_cons, ih _ hn2, eraseP_key_eq_filter key a l hn, List.filter_filter]
    apply List.filter_congr
    intro m _
    by_cases h1 : key m = a <;> by_cases h2 : key m ∈ rest <;> simp [h1, h2]

/-- In a world that holds two entities Y and X with the same identifier, Y before X,
`EntityRemove(X)` erases Y, which is neither X nor a descendant of X, and keeps X: the
erase loop compares identifiers and `EntityAdd` checks none. -/
theorem EntityRemove_shared_id :
    Entity.sample 1 "Y" ∉ (Entity.sample 1 "X").subtree ∧
    Entity.sample 1 "Y" ∈
      ((World.empty.EntityAdd (some (Entity.sample 1 "Y"))).EntityAdd
        (some (Entity.sample 1 "X"))).m_entities ∧
    Entity.sample 1 "Y" ∉
      (((World.empty.EntityAdd (some (Entity.sample 1 "Y"))).EntityAdd
        (some (Entity.sample 1 "X"))).EntityRemove (some (Entity.sample 1 "X"))).m_entities ∧
    (((World.empty.EntityAdd (some (Entity.sample 1 "Y"))).EntityAdd
        (some (Entity.sample 1 "X"))).EntityRemove (some (Entity.sample 1 "X"))).m_entities =
      [Entity.sample 1 "X"] := by
  decide

/-- In a world whose entities have pairwise distinct identifiers, the collection after
`EntityRemove(X)` with a handle that is not stored in the collection consists of the
entities whose identifier is neither that of X nor that of a transitive descendant of X,
in their order before the call, each with its identifier, name, flags, components and
parent unchanged. -/
theorem EntityRemove_own_frame (w : World) (x : Entity) (hu : w.UniqueIds) :
    (w.EntityRemove (some x)).m_entities.map Entity.members =
      (w.m_entities.filter
        (fun e => decide (e.GetId ∉ x.subtree.map Entity.GetId))).map Entity.members := by
  show (EntityRemove_entity x w).m_entities.map Entity.members = _
  have hn : ((w.m_entities.map Entity.members).map Members.m_id).Nodup := by
    have : (w.m_entities.map Entity.members).map Members.m_id = w.ids := by
      unfold ids
      rw [List.map_map]
      apply List.map_congr_left
      intro e _
      exact members_m_id e
    rw [this]
    exact hu
  rw [EntityRemove_entity_members, foldl_eraseP_eq_filter Members.m_id _ _ hn, List.filter_map]
  congr 1
  apply List.filter_congr
  intro e _
  simp [members_m_id]

/-- At the hierarchy A > B > C with root D, removing B through a handle that is not stored
in the collection erases B and C and leaves A and D, in this order. -/
theorem EntityRemove_own_frame_family :
    World.family.UniqueIds ∧
    (World.family.EntityRemove (some Entity.sampleB)).m_entities.map Entity.members =
      [Entity.sampleA.members, Entity.sampleD.members] ∧
    (World.family.EntityRemove (some Entity.sampleB)).m_entities.map Entity.members =
      (World.family.m_entities.filter
        (fun e => decide (e.GetId ∉ Entity.sampleB.subtree.map Entity.GetId))).map
          Entity.members :=
  ⟨by decide, by decide, EntityRemove_own_frame World.family Entity.sampleB (by decide)⟩

/-- C28 fails on the code. In the world that stores the child B before its parent A,
followed by the root D, with pairwise distinct identifiers, `EntityRemove` of the
reference that `EntityGetById(1)` returns (the slot 1, which holds A) erases B and then D:
D is neither A nor a descendant of A and is not in the collection afterwards, where A
is the only entity left. In the world that stores C, B, A, D, the slot of A lies past the
end of the vector once C and B are erased, and the call reads a handle that no longer
holds an entity. With a handle that is not stored in the collection and distinct
identifiers, exactly the entities other than X and its descendants remain, in their
order and unchanged but for cached child lists; a null handle changes nothing. -/
theorem C28_EntityRemove_by_reference_erases_other :
    World.childFirst.UniqueIds ∧
    World.childFirst.m_entities[1]?.map Entity.members =
      some ⟨1, "A", true, true, [], none⟩ ∧
    Entity.sampleD ∈ World.childFirst.m_entities ∧
    (World.childFirst.m_entities[1]?.map
      (fun x => decide (Entity.sampleD ∈ x.subtree))) = some false ∧
    (World.childFirst.EntityRemove_ref 1).map
      (fun w => decide (Entity.sampleD ∈ w.m_entities)) = some false ∧
    (World.childFirst.EntityRemove_ref 1).map (fun w => w.m_entities.map Entity.members) =
      some [⟨1, "A", true, true, [], none⟩] ∧
    World.deepFirst.UniqueIds ∧
    World.deepFirst.EntityGetById_ref 1 = some 2 ∧
    (World.deepFirst.EntityRemove_ref 2).isNone = true ∧
    (∀ (w : World) (x : Entity), w.UniqueIds →
      (w.EntityRemove (some x)).m_entities.map Entity.members =
        (w.m_entities.filter
          (fun e => decide (e.GetId ∉ x.subtree.map Entity.GetId))).map Entity.members) ∧
    (∀ w : World, w.EntityRemove none = w) :=
  ⟨by decide, by decide, by decide, by decide, by decide, by decide, by decide, by decide,
    by decide, EntityRemove_own_frame, fun _ => rfl⟩

end World

/-! ## Loading the settings file -/

namespace Settings

theorem Load_m_resolution (cv : Conversion) (fin : List String) (s r : Settings)
    (h : Load cv fin s = some r) : r.m_resolution = s.m_resolution := by
  unfold Load at h
  simp only [bind, Option.bind_eq_some, pure, Option.some.injEq] at h
  obtain ⟨⟨o1, _⟩, _, ⟨o2, _⟩, _, _, _, _, _, ⟨o5, _⟩, _, ⟨o6, _⟩, _, ⟨o7, _⟩, _, ⟨o8, _⟩, _,
    h8⟩ := h
  rw [← h8]
  cases o1 <;> cases o2 <;> cases o5 <;> cases o6 <;> cases o7 <;> cases o8 <;> rfl

/-- C26 fails on the code. `Settings::Load` never changes the resolution, whatever the
file holds, because the values of "fResolutionWidth" and "fResolutionHeight" are read into
local variables; on a file as `Settings::Save` writes it, the other six settings are set
and the resolution is not. The eight keys are looked for one after the other in a stream
that is never rewound: in a file that holds "bIsMouseVisible=1" before "bFullScreen=1",
the first search passes over the line of the mouse setting, which keeps its previous
value; and in a file that lacks "bFullScreen", the first search ends at the end of the
file and no setting at all is set. -/
theorem C26_Load_is_sequential :
    (∀ (cv : Conversion) (fin : List String) (s r : Settings),
      Load cv fin s = some r → r.m_resolution = s.m_resolution) ∧
    Load Conversion.sample sampleFile sample = some ⟨true, true, (1920, 1080), 4096, 8, 144, 4⟩ ∧
    Load Conversion.sample ["bIsMouseVisible=1", "bFullScreen=1"] sample =
      some { sample with m_is_fullscreen := true } ∧
    Load Conversion.sample ["bIsMouseVisible=1", "iAnisotropy=8"] sample = some sample :=
  ⟨Load_m_resolution, by decide, by decide, by decide⟩

end Settings

end Spartan
